import Mathlib

/-!
Shallow embedding of `src/areafit.h` (class `afit::CAreaFitter`) and proofs
about it.

Modelling choices, fixed throughout:

* C `int` values are modelled as `Int` (unbounded); the two sentinel
  constants `0x7FFFFFFF` / `0x7FFFFFFE` are kept literally, as in the source.
* The two singly-linked chains of the source (the unfitted-area chain,
  threaded through `CFitArea::Next`, and the free-region chain `COutArea`)
  are modelled as Lean lists.  A C "previous-node pointer" used for O(1)
  splicing is modelled as the position of the spliced node in the list;
  un-linking the successor of a saved pointer becomes `List.eraseIdx` at the
  saved position and re-linking becomes `List.insertIdx` at it.  This is
  faithful because the search restores the chain to its exact former shape
  before any saved splice point is reused (the restore discipline of
  `fitUnfittedAreas`; aborting on budget exhaustion skips the restores but
  also never touches the chains again).
* `fitUnfittedAreas` is written in the source as an explicit stack machine;
  the source comment on `CFitAreaStackItem` states the stack "linearizes" a
  recursive function.  We embed that recursion directly:
  `outerLoop` is one frame's walk over the unfitted chain (`CodeLoc1`),
  `regionLoop` is the walk over the free-region chain, and a push of a
  `CFitAreaStackItem` is a recursive call to `outerLoop`.  An explicit fuel
  argument makes everything total; `none` means the fuel ran out before the
  search finished (the theorems quantify over completing runs).
* The early `return` on global budget exhaustion (line 1478) is modelled by
  the `Bool` component of the result: `(true, st)` aborts the whole search
  without running any restores, exactly as the C `return` does.
* `FitQuality` (a C `double` assigned only on success) is modelled by
  `FQual`: the source computes `100.0 * MinOutSize / BestOutSize` from two
  ints; `divQual` mirrors that IEEE-754 division — the exact rational when
  `BestOutSize ≠ 0`, and `NaN` / `±Inf` when it is `0` — and `unassigned`
  records the failure path, which never writes `FitQuality`.
-/

namespace AreaFit

/-- Sentinel used by `CGlobals`: "no solution yet" (`0x7FFFFFFF`). -/
def sentG : Int := 0x7FFFFFFF

/-- Sentinel used by `CFitData.BestOutSize`: "no local best yet"
(`0x7FFFFFFE`). -/
def sentL : Int := 0x7FFFFFFE

/-- `CAreaFitter::CFitArea`.  The opaque `void* Object` handle is modelled
as a `Nat` tag; the `Next` chain pointer is modelled separately (the
unfitted chain is a `List Nat` of indices). -/
structure CFitArea where
  object : Nat
  width : Int
  height : Int
  outImage : Int
  outX : Int
  outY : Int
deriving Repr, DecidableEq

/-- `CAreaFitter::COutImage`. -/
structure COutImage where
  width : Int
  height : Int
  size : Int
deriving Repr, DecidableEq

/-- `CAreaFitter::COutArea` (a free region).  The `Next` pointer is modelled
by list order. -/
structure COutArea where
  outImage : Int
  x : Int
  y : Int
  width : Int
  height : Int
deriving Repr, DecidableEq

/-- Default `CFitArea` used for (unreachable) out-of-range reads. -/
def dArea : CFitArea := ⟨0, 0, 0, 0, 0, 0⟩

/-- Default `COutImage` used for (unreachable) out-of-range reads. -/
def dImg : COutImage := ⟨0, 0, 0⟩

/-- Result record of `checkAreaFitAgainstBest`: the returned flag plus every
location the C function can write through its reference parameters. -/
structure CheckFit where
  ok : Bool
  doOutImageRestore : Bool
  outImage : COutImage
  outSize : Int
  outImageSave : COutImage
  outSizeSave : Int
  outAreasTried : Int
deriving Repr, DecidableEq

/-- `CAreaFitter::checkAreaFitAgainstBest` (lines 1855-1913), as a pure
function.  Reference parameters become explicit inputs and outputs; values
the C function leaves unassigned are passed through unchanged. -/
def checkAreaFitAgainstBest (newWidth0 newHeight0 : Int) (outImage : COutImage)
    (doOutImageRestore0 : Bool) (outImageSave0 : COutImage) (outSizeSave0 : Int)
    (outSize bestOutSize maxOutImageSize : Int) (outAreasTried : Int) :
    CheckFit :=
  let newWidth : Int :=
    if newWidth0 > outImage.width then newWidth0 else outImage.width
  let newHeight : Int :=
    if newHeight0 > outImage.height then newHeight0 else outImage.height
  -- `DoUpdateSize` is set by the two clamping blocks iff either dimension grew.
  if newWidth0 > outImage.width ∨ newHeight0 > outImage.height then
    let newSize := newWidth * newHeight
    let newOutSize := outSize + newSize - outImage.size
    if newSize > maxOutImageSize then
      ⟨false, doOutImageRestore0, outImage, outSize, outImageSave0, outSizeSave0,
        outAreasTried⟩
    else if newOutSize ≥ bestOutSize then
      ⟨false, doOutImageRestore0, outImage, outSize, outImageSave0, outSizeSave0,
        outAreasTried + 1⟩
    else
      ⟨true, true, ⟨newWidth, newHeight, newSize⟩, newOutSize, outImage, outSize,
        outAreasTried + 1⟩
  else
    ⟨true, false, outImage, outSize, outImageSave0, outSizeSave0, outAreasTried + 1⟩

/-- `CAreaFitter::insertOutArea` (lines 1923-1943) on the list model: scan
for the first region whose height strictly exceeds the new region's height
and insert just before it.  Returns the number of regions preceding the
inserted one (the "previous node" the C function returns) together with the
new chain. -/
def insertOutArea : List COutArea → COutArea → Nat × List COutArea
  | [], a => (0, [a])
  | r :: rest, a =>
    if r.height > a.height then
      (0, a :: r :: rest)
    else
      ((insertOutArea rest a).1 + 1, r :: (insertOutArea rest a).2)

/-- `CAreaFitter::FitAreasInSortFn` (lines 1953-1959) as an ordering test:
`a` may precede `b` iff `b.Width - a.Width ≤ 0`, i.e. descending width. -/
def inOrder (a b : CFitArea) : Bool := b.width - a.width ≤ 0

/-- `CAreaFitter::FitAreasOutSortFn` (lines 1970-1996) as an ordering test:
lexicographic on (`OutImage`, `OutX`, `OutY`), ascending. -/
def outOrder (a b : CFitArea) : Bool :=
  if a.outImage > b.outImage then false
  else if a.outImage < b.outImage then true
  else if a.outX > b.outX then false
  else if a.outX < b.outX then true
  else a.outY - b.outY ≤ 0

/-- Insertion of one element into a list already ordered by `le`. -/
def insSorted (le : CFitArea → CFitArea → Bool) (a : CFitArea) :
    List CFitArea → List CFitArea
  | [] => [a]
  | b :: l => if le a b then a :: b :: l else b :: insSorted le a l

/-- Insertion sort by `le`.  Models the `qsort` calls of `fitAreas`: any
permutation consistent with the comparator is allowed by `qsort`; this is
one such permutation, and the one this development fixes. -/
def sortBy (le : CFitArea → CFitArea → Bool) : List CFitArea → List CFitArea
  | [] => []
  | a :: l => insSorted le a (sortBy le l)

/-- The pre-search sort of `fitAreas` (line 1114): descending width. -/
def sortAreasIn (l : List CFitArea) : List CFitArea := sortBy inOrder l

/-- The post-search sort of `fitAreas` (line 1208): by image, x, y. -/
def sortAreasOut (l : List CFitArea) : List CFitArea := sortBy outOrder l

/-- Write into the `OutImages` buffer at an index that may be one past the
current end (the source grows the buffer with `updateCapacity` first). -/
def writeImg (arr : Array COutImage) (i : Nat) (v : COutImage) : Array COutImage :=
  if i < arr.size then arr.setD i v else arr.push v

/-- First `n` entries of the `OutImages` buffer (the copy loop of the
publication block, lines 1592-1601). -/
def takeImgs (arr : Array COutImage) (n : Nat) : Array COutImage :=
  ((List.range n).map (fun i => arr.getD i dImg)).toArray

/-- Fitter-constant limits (`MaxOutImageWidth`, `MaxOutImageHeight`,
`MaxOutImageSize` fields of `CAreaFitter`). -/
structure Params where
  maxW : Int
  maxH : Int
  maxS : Int
deriving Repr, DecidableEq

/-- Full state of one search: `CFitData` contents, the shared `CGlobals`,
and the fitter-local budget, plus a counter of performed decrements
(`attempts`, the quantity the `VOX_AREAFITTER_TEST` instrumentation of the
source accumulates into `BestFitCallCount`). -/
structure SState where
  unfitted : List Nat
  areas : Array CFitArea
  outChain : List COutArea
  outImages : Array COutImage
  outImageCount : Int
  outSize : Int
  bestOutSize : Int
  bestOutImageCount : Int
  gFitCallsLeft : Int
  gBestOutSize : Int
  gBestOutImageCount : Int
  gBestFittedAreas : Array CFitArea
  gBestOutImages : Array COutImage
  fitCallsLeft : Int
  attempts : Int
deriving Repr, DecidableEq

/-- Minimal width and height among the remaining unfitted areas
(lines 1612-1634): seeded from the chain head, then a linear scan. -/
def minWH (st : SState) : Int × Int :=
  match st.unfitted with
  | [] => (0, 0)
  | i :: rest =>
    rest.foldl
      (fun m j =>
        (min m.1 (st.areas.getD j dArea).width,
         min m.2 (st.areas.getD j dArea).height))
      ((st.areas.getD i dArea).width, (st.areas.getD i dArea).height)

/-- The budget refill step (lines 1481-1490): draw up to 512 calls from the
shared pool into the local counter. -/
def refill (st : SState) : SState :=
  if st.gFitCallsLeft ≥ 512 then
    { st with fitCallsLeft := 512, gFitCallsLeft := st.gFitCallsLeft - 512 }
  else
    { st with fitCallsLeft := st.gFitCallsLeft, gFitCallsLeft := 0 }

/-- The publication block at a complete placement (lines 1568-1608): under
the (commented-out) lock, either publish the new best to `CGlobals` or
refresh the local bounds from it. -/
def publishBest (st : SState) : SState :=
  if st.outSize < st.gBestOutSize ∧ st.outImageCount ≤ st.gBestOutImageCount then
    { st with
      bestOutSize := st.outSize
      bestOutImageCount := st.outImageCount
      gBestFittedAreas := st.areas
      gBestOutSize := st.outSize
      gBestOutImageCount := st.outImageCount
      gBestOutImages := takeImgs st.outImages st.outImageCount.toNat }
  else
    { st with
      bestOutSize := st.gBestOutSize
      bestOutImageCount := st.gBestOutImageCount }

/-- Insert the configuration-1 child regions (lines 1644-1686): a "tall
right" child and a "wide bottom" child, each only when large enough for the
smallest remaining area.  Returns the recorded insert positions (the
`PrevNewOutAreas` pointers) in insertion order. -/
def insertConfig1 (host : COutArea) (aW aH minW minH remR remB : Int)
    (chain : List COutArea) : List Nat × List COutArea :=
  let (ps, chain) :=
    if remR ≥ minW ∧ host.height ≥ minH then
      let (p, chain) := insertOutArea chain
        ⟨host.outImage, host.x + aW, host.y, remR, host.height⟩
      ([p], chain)
    else ([], chain)
  if aW ≥ minW ∧ remB ≥ minH then
    let (p, chain) := insertOutArea chain
      ⟨host.outImage, host.x, host.y + aH, aW, remB⟩
    (ps ++ [p], chain)
  else (ps, chain)

/-- Insert the configuration-2 child regions (lines 1708-1754): a "short
right" child and a "full-width bottom" child. -/
def insertConfig2 (host : COutArea) (aW aH minW minH remR remB : Int)
    (chain : List COutArea) : List Nat × List COutArea :=
  let (ps, chain) :=
    if remR ≥ minW ∧ aH ≥ minH then
      let (p, chain) := insertOutArea chain
        ⟨host.outImage, host.x + aW, host.y, remR, aH⟩
      ([p], chain)
    else ([], chain)
  if host.width ≥ minW ∧ remB ≥ minH then
    let (p, chain) := insertOutArea chain
      ⟨host.outImage, host.x, host.y + aH, host.width, remB⟩
    (ps ++ [p], chain)
  else (ps, chain)

/-- Remove previously inserted child regions (the `while (s->c > 0)` loops
at `CodeLoc2` / `CodeLoc3`): un-link the successor of each recorded
predecessor, last inserted first. -/
def removeChildren (ps : List Nat) (chain : List COutArea) : List COutArea :=
  ps.reverse.foldl (fun ch p => ch.eraseIdx p) chain

/-- The image-dimension restore (lines 1778-1784): if
`checkAreaFitAgainstBest` committed grown dimensions, write the saved
dimensions and saved summed size back. -/
def restoreIf (chk : CheckFit) (cur : COutArea) (st : SState) : SState :=
  if chk.doOutImageRestore then
    { st with
      outImages := writeImg st.outImages cur.outImage.toNat chk.outImageSave
      outSize := chk.outSizeSave }
  else st

/-- Entry points of the search recursion.  The source expresses the search
as an explicit stack machine over `CFitAreaStackItem` records; its own
comment says the stack "linearizes" a recursive function, and this is that
function, split at its control points:

* `outer areaPos` — the `CodeLoc1` outer loop over the unfitted chain
  (lines 1452-1808); a stack push re-enters here with `areaPos = 0`.
* `detach areaPos aId` — budget decrement and un-linking of the current
  area (lines 1493-1499), followed by the region loop, the re-link and the
  advance to the next area (lines 1804-1807).
* `region aId prevPos tried` — the `while (true)` loop head over the free
  region chain (lines 1501-1538), including the synthesis of a new output
  image when the chain is exhausted (lines 1505-1533).
* `trial aId prevPos tried wasAdded cur` — one region trial
  (lines 1540-1785): the dimension check, `checkAreaFitAgainstBest`, the
  placement, the publication at a complete fit or the two split
  configurations (each a recursive `outer` call, i.e. a stack push), and
  the restores at `CodeLoc2`/`CodeLoc3`.
* `after aId prevPos tried wasAdded` — the trial epilogue
  (lines 1787-1801): un-wind a synthesized image and stop, stop on
  non-viable bounds, or advance to the next region. -/
inductive Call where
  | outer (areaPos : Nat)
  | detach (areaPos aId : Nat)
  | region (aId prevPos : Nat) (tried : Int)
  | trial (aId prevPos : Nat) (tried : Int) (wasAdded : Bool) (cur : COutArea)
  | after (aId prevPos : Nat) (tried : Int) (wasAdded : Bool)
deriving Repr, DecidableEq

/-- The search recursion of `fitUnfittedAreas`; see `Call` for the mapping
to the source's control points.  The result is `none` when the fuel ran
out, otherwise `(aborted, state)` where `aborted = true` models the early
`return` of line 1478 (it unwinds everything without running the
restores). -/
def search (p : Params) : Nat → Call → SState → Option (Bool × SState)
  | 0, _, _ => none
  | fuel + 1, c, st =>
    match c with
    | .outer areaPos =>
      match st.unfitted.get? areaPos with
      | none => some (false, st)
      | some aId =>
        if st.outSize ≥ st.bestOutSize ∨
            st.outImageCount > st.bestOutImageCount then
          some (false, st)
        else if st.fitCallsLeft = 0 then
          if st.bestOutSize > st.gBestOutSize ∨
              st.bestOutImageCount > st.gBestOutImageCount then
            some (false, { st with
              bestOutSize := st.gBestOutSize
              bestOutImageCount := st.gBestOutImageCount })
          else if st.gFitCallsLeft = 0 then
            some (true, st)
          else
            search p fuel (.detach areaPos aId) (refill st)
        else
          search p fuel (.detach areaPos aId) st
    | .detach areaPos aId =>
      let st1 := { st with
        fitCallsLeft := st.fitCallsLeft - 1
        attempts := st.attempts + 1
        unfitted := st.unfitted.eraseIdx areaPos }
      match search p fuel (.region aId 0 0) st1 with
      | none => none
      | some (true, st2) => some (true, st2)
      | some (false, st2) =>
        search p fuel (.outer (areaPos + 1))
          { st2 with unfitted := st2.unfitted.insertIdx areaPos aId }
    | .region aId prevPos tried =>
      match st.outChain.get? prevPos with
      | some cur => search p fuel (.trial aId prevPos tried false cur) st
      | none =>
        if tried > 0 then some (false, st)
        else if st.outImageCount = st.bestOutImageCount then some (false, st)
        else
          let A := st.areas.getD aId dArea
          let r : COutArea :=
            ⟨st.outImageCount, 0, 0,
              if A.width > p.maxW then A.width else p.maxW,
              if A.height > p.maxH then A.height else p.maxH⟩
          let st1 := { st with
            outChain := (insertOutArea st.outChain r).2
            outImages := writeImg st.outImages st.outImageCount.toNat dImg
            outImageCount := st.outImageCount + 1 }
          search p fuel
            (.trial aId (insertOutArea st.outChain r).1 tried true r) st1
    | .trial aId prevPos tried wasAdded cur =>
      let A := st.areas.getD aId dArea
      let remR := cur.width - A.width
      let remB := cur.height - A.height
      if remR < 0 ∨ remB < 0 then
        search p fuel (.region aId (prevPos + 1) tried) st
      else
        let chk := checkAreaFitAgainstBest (cur.x + A.width)
          (cur.y + A.height) (st.outImages.getD cur.outImage.toNat dImg)
          false dImg 0 st.outSize st.bestOutSize p.maxS tried
        let st1 := { st with
          outImages := writeImg st.outImages cur.outImage.toNat chk.outImage
          outSize := chk.outSize }
        if chk.ok then
          let st2 := { st1 with
            areas := st1.areas.setD aId
              { A with
                outImage := cur.outImage
                outX := cur.x
                outY := cur.y } }
          if st2.unfitted.isEmpty then
            search p fuel (.after aId prevPos chk.outAreasTried wasAdded)
              (restoreIf chk cur (publishBest st2))
          else
            let mwh := minWH st2
            let st3 := { st2 with outChain := st2.outChain.eraseIdx prevPos }
            let c1 := insertConfig1 cur A.width A.height mwh.1 mwh.2
              remR remB st3.outChain
            match search p fuel (.outer 0) { st3 with outChain := c1.2 } with
            | none => none
            | some (true, st4) => some (true, st4)
            | some (false, st4) =>
              let st5 := { st4 with
                outChain := removeChildren c1.1 st4.outChain }
              if st5.outSize < st5.bestOutSize ∧
                  st5.outImageCount ≤ st5.bestOutImageCount then
                let c2 := insertConfig2 cur A.width A.height mwh.1 mwh.2
                  remR remB st5.outChain
                if c2.1.length + c1.1.length > 0 then
                  match search p fuel (.outer 0)
                      { st5 with outChain := c2.2 } with
                  | none => none
                  | some (true, st6) => some (true, st6)
                  | some (false, st6) =>
                    let ch7 :=
                      (removeChildren c2.1 st6.outChain).insertIdx prevPos cur
                    search p fuel
                      (.after aId prevPos chk.outAreasTried wasAdded)
                      (restoreIf chk cur { st6 with outChain := ch7 })
                else
                  search p fuel
                    (.after aId prevPos chk.outAreasTried wasAdded)
                    (restoreIf chk cur { st5 with
                      outChain := st5.outChain.insertIdx prevPos cur })
              else
                search p fuel (.after aId prevPos chk.outAreasTried wasAdded)
                  (restoreIf chk cur { st5 with
                    outChain := st5.outChain.insertIdx prevPos cur })
        else
          search p fuel (.after aId prevPos chk.outAreasTried wasAdded) st1
    | .after aId prevPos tried wasAdded =>
      if wasAdded then
        some (false, { st with
          outChain := st.outChain.eraseIdx prevPos
          outImageCount := st.outImageCount - 1 })
      else if st.outSize ≥ st.bestOutSize ∨
          st.outImageCount > st.bestOutImageCount then
        some (false, st)
      else
        search p fuel (.region aId (prevPos + 1) tried) st

/-- `CAreaFitter::fitUnfittedAreas` as a whole: run the root frame; on a
normal finish return the residual local budget to the shared pool
(lines 1827-1833); the aborting `return` of line 1478 skips that block. -/
def fitUnfittedAreas (p : Params) (fuel : Nat) (st : SState) : Option SState :=
  match search p fuel (.outer 0) st with
  | none => none
  | some (true, st) => some st
  | some (false, st) =>
    if st.fitCallsLeft > 0 then
      some { st with
        gFitCallsLeft := st.gFitCallsLeft + st.fitCallsLeft
        fitCallsLeft := 0 }
    else some st

/-- The value held by the caller's `FitQuality` double after the call.
`unassigned` models the failure path, which never writes the reference;
the other constructors are the possible results of the one IEEE-754
division the source performs. -/
inductive FQual where
  | unassigned
  | nan
  | posInf
  | negInf
  | val (q : ℚ)
deriving Repr, DecidableEq

/-- The IEEE-754 double quotient `a / b` for exact integer operands (both
operands and, when `b ≠ 0`, the quotient's two inputs are exactly
representable): the exact rational when `b ≠ 0`, `NaN` on `0 / 0`, a
signed infinity on `a / 0` with `a ≠ 0`. -/
def divQual (a b : Int) : FQual :=
  if b = 0 then
    if a = 0 then FQual.nan
    else if 0 < a then FQual.posInf
    else FQual.negInf
  else FQual.val ((a : ℚ) / (b : ℚ))

/-- Outcome of `fitAreas`: the returned flag, the final contents of the two
caller-owned arrays, and `FitQuality`. -/
structure FitResult where
  success : Bool
  areas : List CFitArea
  outImages : List COutImage
  quality : FQual
deriving Repr, DecidableEq

/-- Sum of `Width * Height` over a list of areas (the `MinOutSize`
accumulation of lines 1141-1152). -/
def sumAreas (l : List CFitArea) : Int :=
  (l.map (fun a => a.width * a.height)).sum

/-- Largest single `Width * Height`, folded into `aMaxOutImageSize`
(lines 1146-1149). -/
def raiseMaxSize (l : List CFitArea) (m : Int) : Int :=
  l.foldl (fun m a => if m < a.width * a.height then a.width * a.height else m) m

/-- The seed free-region chain (lines 1169-1189): one region per initial
output image, at `x = y = 0`, falling back to the limits when the image
dimension is zero.  The seed images themselves are zero-initialized by
lines 1162-1167, so the fallback is always taken. -/
def seedChain (maxW maxH : Int) (imgs : List COutImage) : List COutArea :=
  (List.range imgs.length).map (fun i =>
    let im := imgs.getD i dImg
    ⟨(i : Int), 0, 0,
      if im.width = 0 then maxW else im.width,
      if im.height = 0 then maxH else im.height⟩)

/-- The initial search state built by `fitAreas` (lines 1117-1202). -/
def initState (sorted : List CFitArea) (minCount fitCallsLimit : Int)
    (maxW maxH : Int) : SState :=
  let seedImgs : List COutImage := List.replicate minCount.toNat dImg
  { unfitted := List.range sorted.length
    areas := sorted.toArray
    outChain := seedChain maxW maxH seedImgs
    outImages := seedImgs.toArray
    outImageCount := minCount
    outSize := 0
    bestOutSize := sentL
    bestOutImageCount := sentG
    gFitCallsLeft := fitCallsLimit
    gBestOutSize := sentG
    gBestOutImageCount := sentG
    gBestFittedAreas := #[]
    gBestOutImages := #[]
    fitCallsLeft := 0
    attempts := 0 }

/-- `CAreaFitter::fitAreas` (lines 1085-1218).  `areasIn` and `outImagesIn`
are the caller's arrays; the result holds their final contents.  `fuel`
bounds the number of embedded search steps; `none` means the fuel ran out
(the C function always terminates, but its termination measure is not
needed by any claim). -/
def fitAreas (areasIn : List CFitArea) (outImagesIn : List COutImage)
    (maxW maxH maxSize0 minCount fitCallsLimit : Int) (fuel : Nat) :
    Option FitResult :=
  if areasIn.length < 2 then
    if areasIn.length = 1 then
      let a := areasIn.getD 0 dArea
      some ⟨true, [{ a with outImage := 0, outX := 0, outY := 0 }],
        [⟨a.width, a.height, a.width * a.height⟩], FQual.val 100⟩
    else
      some ⟨true, areasIn, [], FQual.val 100⟩
  else
    let sorted := sortAreasIn areasIn
    let maxS := raiseMaxSize sorted maxSize0
    let minOutSize := sumAreas sorted
    let st0 := initState sorted minCount fitCallsLimit maxW maxH
    match fitUnfittedAreas ⟨maxW, maxH, maxS⟩ fuel st0 with
    | none => none
    | some st =>
      if st.gBestOutSize ≠ sentG then
        some ⟨true, sortAreasOut st.gBestFittedAreas.toList,
          st.gBestOutImages.toList,
          divQual (100 * minOutSize) st.gBestOutSize⟩
      else
        some ⟨false, sorted, [], FQual.unassigned⟩

/-- Default `COutArea` for out-of-range reads in statements. -/
def dOut : COutArea := ⟨0, 0, 0, 0, 0⟩

/-! ### Generic facts about the small helpers -/

theorem insSorted_perm (le : CFitArea → CFitArea → Bool) (a : CFitArea) :
    ∀ l : List CFitArea, (insSorted le a l).Perm (a :: l) := by
  intro l
  induction l with
  | nil => simp [insSorted]
  | cons b l ih =>
    simp only [insSorted]
    split
    · exact List.Perm.refl _
    · exact (List.Perm.cons b ih).trans (List.Perm.swap a b l)

theorem sortBy_perm (le : CFitArea → CFitArea → Bool) :
    ∀ l : List CFitArea, (sortBy le l).Perm l := by
  intro l
  induction l with
  | nil => simp [sortBy]
  | cons a l ih =>
    exact (insSorted_perm le a (sortBy le l)).trans (ih.cons a)

/-- The height-ascending order kept by the free-region chain. -/
def hLE (a b : COutArea) : Prop := a.height ≤ b.height

instance : DecidableRel hLE := fun a b =>
  (inferInstance : Decidable (a.height ≤ b.height))

/-! ### C4: `checkAreaFitAgainstBest` -/

/-- Shared spec of `checkAreaFitAgainstBest`, split by the four outcomes of
the source function. -/
theorem checkAreaFit_cases (nW nH : Int) (img : COutImage) (dr0 : Bool)
    (sv0 : COutImage) (ss0 : Int) (outSize best maxS tried : Int) :
    let grew := nW > img.width ∨ nH > img.height
    let newW := if nW > img.width then nW else img.width
    let newH := if nH > img.height then nH else img.height
    let newSize := newW * newH
    let newOut := outSize + newSize - img.size
    let r := checkAreaFitAgainstBest nW nH img dr0 sv0 ss0 outSize best maxS
      tried
    (grew → newSize > maxS →
      r = ⟨false, dr0, img, outSize, sv0, ss0, tried⟩) ∧
    (grew → ¬newSize > maxS → newOut ≥ best →
      r = ⟨false, dr0, img, outSize, sv0, ss0, tried + 1⟩) ∧
    (grew → ¬newSize > maxS → ¬newOut ≥ best →
      r = ⟨true, true, ⟨newW, newH, newSize⟩, newOut, img, outSize,
        tried + 1⟩) ∧
    (¬grew → r = ⟨true, false, img, outSize, sv0, ss0, tried + 1⟩) := by
  simp only [checkAreaFitAgainstBest]
  refine ⟨fun hg hs => ?_, fun hg hs hb => ?_, fun hg hs hb => ?_,
    fun hg => ?_⟩
  · rw [if_pos hg, if_pos hs]
  · rw [if_pos hg, if_neg hs, if_pos hb]
  · rw [if_pos hg, if_neg hs, if_neg hb]
  · rw [if_neg hg]

/-- C4: `checkAreaFitAgainstBest` rejects growth past `MaxOutImageSize`
without counting the region as tried, rejects a summed size at or past the
best bound while counting it, and otherwise succeeds, committing the new
image dimensions and summed size (saving the old ones) exactly when a
dimension grew; the tried counter is incremented on the worse-than-best
rejection and on success, never on the `MaxOutImageSize` rejection. -/
theorem claim_C4 (nW nH : Int) (img : COutImage) (dr0 : Bool)
    (sv0 : COutImage) (ss0 : Int) (outSize best maxS tried : Int) :
    let grew := nW > img.width ∨ nH > img.height
    let newW := if nW > img.width then nW else img.width
    let newH := if nH > img.height then nH else img.height
    let newSize := newW * newH
    let newOut := outSize + newSize - img.size
    let r := checkAreaFitAgainstBest nW nH img dr0 sv0 ss0 outSize best maxS
      tried
    (grew → newSize > maxS →
      r.ok = false ∧ r.outAreasTried = tried ∧ r.outImage = img ∧
      r.outSize = outSize) ∧
    (grew → newSize ≤ maxS → newOut ≥ best →
      r.ok = false ∧ r.outAreasTried = tried + 1 ∧ r.outImage = img ∧
      r.outSize = outSize) ∧
    (grew → newSize ≤ maxS → newOut < best →
      r.ok = true ∧ r.doOutImageRestore = true ∧
      r.outImage = ⟨newW, newH, newSize⟩ ∧ r.outSize = newOut ∧
      r.outImageSave = img ∧ r.outSizeSave = outSize ∧
      r.outAreasTried = tried + 1) ∧
    (¬grew →
      r.ok = true ∧ r.doOutImageRestore = false ∧ r.outImage = img ∧
      r.outSize = outSize ∧ r.outAreasTried = tried + 1) := by
  obtain ⟨h1, h2, h3, h4⟩ :=
    checkAreaFit_cases nW nH img dr0 sv0 ss0 outSize best maxS tried
  refine ⟨fun hg hs => ?_, fun hg hs hb => ?_, fun hg hs hb => ?_,
    fun hg => ?_⟩
  · rw [h1 hg hs]; exact ⟨rfl, rfl, rfl, rfl⟩
  · rw [h2 hg (by omega) hb]; exact ⟨rfl, rfl, rfl, rfl⟩
  · rw [h3 hg (by omega) (by omega)]
    exact ⟨rfl, rfl, rfl, rfl, rfl, rfl, rfl⟩
  · rw [h4 hg]; exact ⟨rfl, rfl, rfl, rfl, rfl⟩

/-- Witness for C4 at a concrete input: image 2×2 (size 4), candidate
corner (5, 2), `MaxOutImageSize` 3, so the grown size 10 exceeds the cap:
rejected without incrementing the tried counter. -/
theorem claim_C4_witness :
    ((5 : Int) > (2 : Int) ∨ (2 : Int) > (2 : Int)) ∧
    ((if (5 : Int) > (2 : Int) then (5 : Int) else 2) *
        (if (2 : Int) > (2 : Int) then (2 : Int) else 2) > 3) ∧
    ((checkAreaFitAgainstBest 5 2 ⟨2, 2, 4⟩ false dImg 0 0 100 3 7).ok =
        false ∧
      (checkAreaFitAgainstBest 5 2 ⟨2, 2, 4⟩ false dImg 0 0 100 3
          7).outAreasTried = 7 ∧
      (checkAreaFitAgainstBest 5 2 ⟨2, 2, 4⟩ false dImg 0 0 100 3
          7).outImage = ⟨2, 2, 4⟩ ∧
      (checkAreaFitAgainstBest 5 2 ⟨2, 2, 4⟩ false dImg 0 0 100 3
          7).outSize = 0) :=
  ⟨by decide, by decide,
    (claim_C4 5 2 ⟨2, 2, 4⟩ false dImg 0 0 100 3 7).1 (by decide)
      (by decide)⟩

/-! ### C8: `insertOutArea` -/

/-- C8: `insertOutArea l a` inserts `a` immediately before the first region
of `l` whose height strictly exceeds `a`'s (so regions of equal height stay
in front of it), returns the number of regions now preceding the inserted
one, and preserves ascending-by-height order. -/
theorem claim_C8 (l : List COutArea) (a : COutArea)
    (hs : List.Sorted hLE l) :
    (insertOutArea l a).2 = l.insertIdx (insertOutArea l a).1 a ∧
    (insertOutArea l a).1 ≤ l.length ∧
    (∀ r ∈ l.take (insertOutArea l a).1, r.height ≤ a.height) ∧
    ((insertOutArea l a).1 < l.length →
      a.height < (l.getD (insertOutArea l a).1 dOut).height) ∧
    List.Sorted hLE (insertOutArea l a).2 := by
  induction l with
  | nil =>
    exact ⟨rfl, by simp [insertOutArea], by simp [insertOutArea],
      by simp [insertOutArea], by simp [insertOutArea]⟩
  | cons r rest ih =>
    rw [List.sorted_cons] at hs
    obtain ⟨hall, hrest⟩ := hs
    by_cases hgt : r.height > a.height
    · refine ⟨by simp [insertOutArea, hgt], by simp [insertOutArea, hgt],
        by simp [insertOutArea, hgt], ?_, ?_⟩
      · simp only [insertOutArea, if_pos hgt]
        intro _
        simpa using hgt
      · simp only [insertOutArea, if_pos hgt]
        rw [List.sorted_cons]
        refine ⟨?_, by rw [List.sorted_cons]; exact ⟨hall, hrest⟩⟩
        intro b hb
        rcases List.mem_cons.mp hb with h1 | h1
        · subst h1
          exact le_of_lt hgt
        · exact le_trans (le_of_lt hgt) (hall _ h1)
    · obtain ⟨e1, e2, e3, e4, e5⟩ := ih hrest
      refine ⟨?_, ?_, ?_, ?_, ?_⟩
      · simp only [insertOutArea, if_neg hgt, List.insertIdx_succ_cons]
        rw [e1]
      · simp only [insertOutArea, if_neg hgt, List.length_cons]
        omega
      · simp only [insertOutArea, if_neg hgt, List.take_succ_cons]
        intro x hx
        rcases List.mem_cons.mp hx with h1 | h1
        · subst h1
          omega
        · exact e3 x h1
      · simp only [insertOutArea, if_neg hgt, List.length_cons,
          List.getD_cons_succ]
        intro hlt
        exact e4 (by omega)
      · simp only [insertOutArea, if_neg hgt]
        rw [List.sorted_cons]
        refine ⟨?_, e5⟩
        intro b hb
        rw [e1] at hb
        rcases (List.mem_insertIdx e2).mp hb with h1 | h1
        · subst h1
          exact le_of_not_lt hgt
        · exact hall _ h1

/-- Witness for C8 at a concrete chain: heights 1, 3, 3, 7 with a new
region of height 3: it is inserted at position 3, after the equal
heights. -/
theorem claim_C8_witness :
    List.Sorted hLE
      [⟨0, 0, 0, 9, 1⟩, ⟨0, 0, 0, 9, 3⟩, ⟨0, 0, 0, 8, 3⟩,
        (⟨0, 0, 0, 9, 7⟩ : COutArea)] ∧
    (insertOutArea
      [⟨0, 0, 0, 9, 1⟩, ⟨0, 0, 0, 9, 3⟩, ⟨0, 0, 0, 8, 3⟩,
        (⟨0, 0, 0, 9, 7⟩ : COutArea)] ⟨1, 2, 3, 4, 3⟩).2 =
      ([⟨0, 0, 0, 9, 1⟩, ⟨0, 0, 0, 9, 3⟩, ⟨0, 0, 0, 8, 3⟩,
        (⟨0, 0, 0, 9, 7⟩ : COutArea)]).insertIdx
        (insertOutArea
          [⟨0, 0, 0, 9, 1⟩, ⟨0, 0, 0, 9, 3⟩, ⟨0, 0, 0, 8, 3⟩,
            (⟨0, 0, 0, 9, 7⟩ : COutArea)] ⟨1, 2, 3, 4, 3⟩).1
        ⟨1, 2, 3, 4, 3⟩ :=
  ⟨by decide, (claim_C8 _ ⟨1, 2, 3, 4, 3⟩ (by decide)).1⟩

/-! ### C6 and C10: the trivial branch of `fitAreas` -/

/-- C6: with no input areas `fitAreas` clears the output-image list, sets
the quality to 100 and succeeds; with exactly one input area it places it at
(image 0, 0, 0), makes the output list one image sized to the area, sets
the quality to 100 and succeeds. -/
theorem claim_C6 (imgs : List COutImage) (maxW maxH maxS minC lim : Int)
    (fuel : Nat) (a : CFitArea) :
    fitAreas [] imgs maxW maxH maxS minC lim fuel =
      some ⟨true, [], [], FQual.val 100⟩ ∧
    fitAreas [a] imgs maxW maxH maxS minC lim fuel =
      some ⟨true, [{ a with outImage := 0, outX := 0, outY := 0 }],
        [⟨a.width, a.height, a.width * a.height⟩], FQual.val 100⟩ :=
  ⟨rfl, rfl⟩

/-- C10: with at most one input area, `fitAreas` never consults the three
limits — calls differing only in the limits agree — and a single area of
any size (in particular one exceeding every limit) is placed at
(image 0, 0, 0) on an image sized exactly to it. -/
theorem claim_C10 :
    (∀ (areasIn : List CFitArea) (imgs : List COutImage)
      (maxW maxH maxS maxW2 maxH2 maxS2 minC lim : Int) (fuel : Nat),
      areasIn.length ≤ 1 →
      fitAreas areasIn imgs maxW maxH maxS minC lim fuel =
        fitAreas areasIn imgs maxW2 maxH2 maxS2 minC lim fuel) ∧
    (∀ (a : CFitArea) (imgs : List COutImage)
      (maxW maxH maxS minC lim : Int) (fuel : Nat),
      fitAreas [a] imgs maxW maxH maxS minC lim fuel =
        some ⟨true, [{ a with outImage := 0, outX := 0, outY := 0 }],
          [⟨a.width, a.height, a.width * a.height⟩], FQual.val 100⟩) := by
  constructor
  · intro areasIn imgs maxW maxH maxS maxW2 maxH2 maxS2 minC lim fuel h
    have hlt : areasIn.length < 2 := by omega
    simp only [fitAreas, if_pos hlt]
  · intro a imgs maxW maxH maxS minC lim fuel
    rfl

/-- Witness for C10 at a concrete input: one 1000×1000 area with every
limit equal to 1 is still placed on a 1000×1000 image. -/
theorem claim_C10_witness :
    ([(⟨0, 1000, 1000, 0, 0, 0⟩ : CFitArea)].length ≤ 1 ∧
      fitAreas [⟨0, 1000, 1000, 0, 0, 0⟩] [] 1 1 1 1 100 5 =
        fitAreas [⟨0, 1000, 1000, 0, 0, 0⟩] [] 7 7 7 1 100 5) ∧
    fitAreas [⟨0, 1000, 1000, 0, 0, 0⟩] [] 1 1 1 1 100 5 =
      some ⟨true, [⟨0, 1000, 1000, 0, 0, 0⟩], [⟨1000, 1000, 1000000⟩],
        FQual.val 100⟩ :=
  ⟨⟨by decide,
    claim_C10.1 [⟨0, 1000, 1000, 0, 0, 0⟩] [] 1 1 1 7 7 7 1 100 5
      (by decide)⟩,
    claim_C10.2 ⟨0, 1000, 1000, 0, 0, 0⟩ [] 1 1 1 1 100 5⟩

/-! ### C3: seeding ignores the caller-provided image dimensions -/

/-- Counterexample to C3: with a preseeded 100×100 output image and one
50×50 area, `fitAreas` succeeds but the output image becomes 50×50 — it
does not stay 100×100 (the search zero-initializes its seed images and
never reads the caller-provided dimensions). -/
theorem claim_C3_counterexample :
    fitAreas [⟨0, 50, 50, 0, 0, 0⟩] [⟨100, 100, 10000⟩] 300 300 1000000 1
        1000 10 =
      some ⟨true, [⟨0, 50, 50, 0, 0, 0⟩], [⟨50, 50, 2500⟩], FQual.val 100⟩ ∧
    ((⟨50, 50, 2500⟩ : COutImage).width ≠ 100 ∧
      (⟨50, 50, 2500⟩ : COutImage).height ≠ 100) :=
  ⟨rfl, by decide⟩

/-- Helper: reading a replicated list with its own element as the default
always yields that element. -/
theorem getD_replicate (v : COutImage) :
    ∀ (n i : Nat), (List.replicate n v).getD i v = v := by
  intro n
  induction n with
  | zero => intro i; simp
  | succ n ih =>
    intro i
    cases i with
    | zero => simp [List.replicate]
    | succ i =>
      rw [List.replicate_succ, List.getD_cons_succ]
      exact ih i

/-- C3 (amended): the seed images are zero-initialized, so the caller's
image dimensions are ignored and every seed free region is `max_w × max_h`
at `x = y = 0` on its image; in particular, with a preseeded 100×100 image
and one 50×50 area, the area is placed in image 0 and image 0 becomes
50×50, not 100×100. -/
theorem claim_C3_amended :
    (∀ (maxW maxH minC lim : Int) (sorted : List CFitArea),
      (initState sorted minC lim maxW maxH).outChain =
        (List.range minC.toNat).map
          (fun i => ⟨(i : Int), 0, 0, maxW, maxH⟩)) ∧
    (∀ (imgs : List COutImage) (maxW maxH maxS minC lim : Int) (fuel : Nat),
      fitAreas [⟨0, 50, 50, 0, 0, 0⟩] imgs maxW maxH maxS minC lim fuel =
        some ⟨true, [⟨0, 50, 50, 0, 0, 0⟩], [⟨50, 50, 2500⟩], FQual.val 100⟩) := by
  constructor
  · intro maxW maxH minC lim sorted
    simp only [initState, seedChain, List.length_replicate]
    refine List.map_congr_left ?_
    intro i hi
    rw [getD_replicate]
    rfl
  · intro imgs maxW maxH maxS minC lim fuel
    rfl

/-! ### C2: the failure path -/

/-- Counterexample to C2: a failing call (two areas given in ascending
width order, budget 1) returns the input list re-sorted descending by
width — the records do not keep their positions. -/
theorem claim_C2_counterexample :
    fitAreas [⟨1, 10, 10, 0, 0, 0⟩, ⟨2, 20, 10, 0, 0, 0⟩] [] 300 300
        1000000 1 1 20 =
      some ⟨false, [⟨2, 20, 10, 0, 0, 0⟩, ⟨1, 10, 10, 0, 0, 0⟩], [],
        FQual.unassigned⟩ ∧
    [⟨2, 20, 10, 0, 0, 0⟩, (⟨1, 10, 10, 0, 0, 0⟩ : CFitArea)] ≠
      [⟨1, 10, 10, 0, 0, 0⟩, ⟨2, 20, 10, 0, 0, 0⟩] :=
  ⟨by decide, by decide⟩

/-- C2 (amended): when `fitAreas` returns `false` it clears the
output-image list, leaves the quality unassigned, and returns the input
areas re-sorted descending by width: a permutation of the input in which
every record's fields are unchanged, but not necessarily at its original
position. -/
theorem claim_C2_amended (areasIn : List CFitArea) (imgs : List COutImage)
    (maxW maxH maxS minC lim : Int) (fuel : Nat) (res : FitResult)
    (h : fitAreas areasIn imgs maxW maxH maxS minC lim fuel = some res)
    (hf : res.success = false) :
    res.outImages = [] ∧ res.quality = FQual.unassigned ∧
    res.areas = sortAreasIn areasIn ∧ res.areas.Perm areasIn := by
  by_cases hlen : areasIn.length < 2
  · exfalso
    by_cases h1 : areasIn.length = 1
    · simp only [fitAreas, if_pos hlen, if_pos h1, Option.some.injEq] at h
      rw [← h] at hf
      simp at hf
    · simp only [fitAreas, if_pos hlen, if_neg h1, Option.some.injEq] at h
      rw [← h] at hf
      simp at hf
  · simp only [fitAreas, if_neg hlen] at h
    rcases hru : fitUnfittedAreas
        ⟨maxW, maxH, raiseMaxSize (sortAreasIn areasIn) maxS⟩ fuel
        (initState (sortAreasIn areasIn) minC lim maxW maxH) with _ | st
    · simp only [hru] at h
      exact absurd h (by simp)
    · simp only [hru] at h
      by_cases hb : st.gBestOutSize ≠ sentG
      · exfalso
        rw [if_pos hb, Option.some.injEq] at h
        rw [← h] at hf
        simp at hf
      · rw [if_neg hb, Option.some.injEq] at h
        rw [← h]
        exact ⟨rfl, rfl, rfl, sortBy_perm inOrder areasIn⟩

/-- Witness for C2 (amended) at the concrete failing run of the
counterexample input. -/
theorem claim_C2_witness :
    (⟨false, [⟨2, 20, 10, 0, 0, 0⟩, ⟨1, 10, 10, 0, 0, 0⟩], [],
        FQual.unassigned⟩ : FitResult).outImages = [] ∧
    (⟨false, [⟨2, 20, 10, 0, 0, 0⟩, ⟨1, 10, 10, 0, 0, 0⟩], [],
        FQual.unassigned⟩ : FitResult).quality = FQual.unassigned ∧
    (⟨false, [⟨2, 20, 10, 0, 0, 0⟩, ⟨1, 10, 10, 0, 0, 0⟩], [],
        FQual.unassigned⟩ : FitResult).areas =
      sortAreasIn [⟨1, 10, 10, 0, 0, 0⟩, ⟨2, 20, 10, 0, 0, 0⟩] ∧
    List.Perm
      (⟨false, [⟨2, 20, 10, 0, 0, 0⟩, ⟨1, 10, 10, 0, 0, 0⟩], [],
        FQual.unassigned⟩ : FitResult).areas
      [⟨1, 10, 10, 0, 0, 0⟩, ⟨2, 20, 10, 0, 0, 0⟩] :=
  claim_C2_amended [⟨1, 10, 10, 0, 0, 0⟩, ⟨2, 20, 10, 0, 0, 0⟩] [] 300 300
    1000000 1 1 20 _ (by decide) rfl

/-! ### C5: budget accounting -/

/-- The budget invariant: the shared pool, the local counter and the
attempt count are non-negative and sum to the initial limit. -/
def BudgetInv (L : Int) (st : SState) : Prop :=
  0 ≤ st.gFitCallsLeft ∧ 0 ≤ st.fitCallsLeft ∧ 0 ≤ st.attempts ∧
    st.gFitCallsLeft + st.fitCallsLeft + st.attempts = L

/-- Per-entry precondition of the search: `detach` decrements the local
counter, so it requires one call in it; the source guarantees this because
`detach` is only entered with a non-zero (hence positive) counter. -/
def callPre : Call → SState → Prop
  | .detach _ _, st => 1 ≤ st.fitCallsLeft
  | _, _ => True

theorem publishBest_gFit (st : SState) :
    (publishBest st).gFitCallsLeft = st.gFitCallsLeft := by
  unfold publishBest; split <;> rfl

theorem publishBest_fit (st : SState) :
    (publishBest st).fitCallsLeft = st.fitCallsLeft := by
  unfold publishBest; split <;> rfl

theorem publishBest_att (st : SState) :
    (publishBest st).attempts = st.attempts := by
  unfold publishBest; split <;> rfl

theorem restoreIf_gFit (chk : CheckFit) (cur : COutArea) (st : SState) :
    (restoreIf chk cur st).gFitCallsLeft = st.gFitCallsLeft := by
  unfold restoreIf; split <;> rfl

theorem restoreIf_fit (chk : CheckFit) (cur : COutArea) (st : SState) :
    (restoreIf chk cur st).fitCallsLeft = st.fitCallsLeft := by
  unfold restoreIf; split <;> rfl

theorem restoreIf_att (chk : CheckFit) (cur : COutArea) (st : SState) :
    (restoreIf chk cur st).attempts = st.attempts := by
  unfold restoreIf; split <;> rfl

/-- The refill step takes a slice of at most 512 from the shared pool:
given an empty local counter and a non-empty pool, it leaves a positive
local counter of at most 512, a non-negative pool, an unchanged pool+local
total, and an unchanged attempt count. -/
theorem budget_refill (st : SState) (h0 : 0 ≤ st.gFitCallsLeft)
    (hne : ¬st.gFitCallsLeft = 0) (hl : st.fitCallsLeft = 0) :
    1 ≤ (refill st).fitCallsLeft ∧ (refill st).fitCallsLeft ≤ 512 ∧
    0 ≤ (refill st).gFitCallsLeft ∧
    (refill st).gFitCallsLeft + (refill st).fitCallsLeft =
      st.gFitCallsLeft + st.fitCallsLeft ∧
    (refill st).attempts = st.attempts := by
  unfold refill
  split <;> refine ⟨?_, ?_, ?_, ?_, rfl⟩ <;> dsimp only <;> omega

/-- Core budget preservation: any completed `search` call preserves
`BudgetInv`, and an aborting one ends with an empty local counter. -/
theorem search_budget (p : Params) (L : Int) :
    ∀ (fuel : Nat) (c : Call) (st : SState) (r : Bool × SState),
      BudgetInv L st → callPre c st →
      search p fuel c st = some r →
      BudgetInv L r.2 ∧ (r.1 = true → r.2.fitCallsLeft = 0) := by
  intro fuel
  induction fuel with
  | zero =>
    intro c st r _ _ h
    exact absurd h (by simp [search])
  | succ fuel ih =>
    intro c st r hinv hpre h
    obtain ⟨i1, i2, i3, i4⟩ := hinv
    cases c with
    | outer areaPos =>
      simp only [search] at h
      rcases hg : st.unfitted.get? areaPos with _ | aId <;>
        simp only [hg] at h
      · injection h with h
        subst h
        exact ⟨⟨i1, i2, i3, i4⟩, by simp⟩
      · split_ifs at h with h1 h2 h3 h4
        · injection h with h
          subst h
          exact ⟨⟨i1, i2, i3, i4⟩, by simp⟩
        · injection h with h
          subst h
          exact ⟨⟨i1, i2, i3, i4⟩, by simp⟩
        · injection h with h
          subst h
          exact ⟨⟨i1, i2, i3, i4⟩, fun _ => h2⟩
        · obtain ⟨f1, f2, f3, f4, f5⟩ := budget_refill st i1 h4 h2
          exact ih _ _ _ ⟨f3, by omega, by omega, by omega⟩ (by exact f1) h
        · exact ih _ _ _ ⟨i1, i2, i3, i4⟩ (by exact (by omega :
            (1 : Int) ≤ st.fitCallsLeft)) h
    | detach areaPos aId =>
      simp only [search] at h
      have hpre1 : (1 : Int) ≤ st.fitCallsLeft := hpre
      have inv1 : BudgetInv L { st with
          fitCallsLeft := st.fitCallsLeft - 1
          attempts := st.attempts + 1
          unfitted := st.unfitted.eraseIdx areaPos } := by
        refine ⟨?_, ?_, ?_, ?_⟩ <;> dsimp only <;> omega
      split at h
      · exact absurd h (by simp)
      · rename_i st2 heq
        injection h with h
        subst h
        obtain ⟨inv2, hab⟩ := ih _ _ _ inv1 (by trivial) heq
        exact ⟨inv2, fun _ => hab rfl⟩
      · rename_i st2 heq
        obtain ⟨inv2, _⟩ := ih _ _ _ inv1 (by trivial) heq
        obtain ⟨j1, j2, j3, j4⟩ := inv2
        exact ih _ _ _ (by exact ⟨j1, j2, j3, j4⟩) (by trivial) h
    | region aId prevPos tried =>
      simp only [search] at h
      rcases hg : st.outChain.get? prevPos with _ | cur <;>
        simp only [hg] at h
      · split_ifs at h with h1 h2 <;>
          first
          | (injection h with h
             subst h
             exact ⟨⟨i1, i2, i3, i4⟩, by simp⟩)
          | exact ih _ _ _ (by exact ⟨i1, i2, i3, i4⟩) (by trivial) h
      · exact ih _ _ _ ⟨i1, i2, i3, i4⟩ (by trivial) h
    | trial aId prevPos tried wasAdded cur =>
      simp only [search] at h
      split at h
      · exact ih _ _ _ ⟨i1, i2, i3, i4⟩ (by trivial) h
      · split at h
        · split at h
          · refine ih _ _ _ ?_ (by trivial) h
            refine ⟨?_, ?_, ?_, ?_⟩ <;>
              simp only [restoreIf_gFit, restoreIf_fit, restoreIf_att,
                publishBest_gFit, publishBest_fit, publishBest_att] <;>
              (try dsimp only) <;> omega
          · split at h
            · exact absurd h (by simp)
            · rename_i st4 heq
              injection h with h
              subst h
              obtain ⟨inv4, hab⟩ := ih _ _ _ (by
                refine ⟨?_, ?_, ?_, ?_⟩ <;> (try dsimp only) <;> omega)
                (by trivial) heq
              exact ⟨inv4, fun _ => hab rfl⟩
            · rename_i st4 heq
              obtain ⟨j1, j2, j3, j4⟩ := (ih _ _ _ (by
                refine ⟨?_, ?_, ?_, ?_⟩ <;> (try dsimp only) <;> omega)
                (by trivial) heq).1
              dsimp only at j1 j2 j3 j4
              split at h
              · split at h
                · split at h
                  · exact absurd h (by simp)
                  · rename_i st6 heq2
                    injection h with h
                    subst h
                    obtain ⟨inv6, hab⟩ := ih _ _ _ (by
                      refine ⟨?_, ?_, ?_, ?_⟩ <;> (try dsimp only) <;>
                        omega) (by trivial) heq2
                    exact ⟨inv6, fun _ => hab rfl⟩
                  · rename_i st6 heq2
                    obtain ⟨k1, k2, k3, k4⟩ := (ih _ _ _ (by
                      refine ⟨?_, ?_, ?_, ?_⟩ <;> (try dsimp only) <;>
                        omega) (by trivial) heq2).1
                    dsimp only at k1 k2 k3 k4
                    refine ih _ _ _ ?_ (by trivial) h
                    refine ⟨?_, ?_, ?_, ?_⟩ <;>
                      simp only [restoreIf_gFit, restoreIf_fit,
                        restoreIf_att] <;> (try dsimp only) <;> omega
                · refine ih _ _ _ ?_ (by trivial) h
                  refine ⟨?_, ?_, ?_, ?_⟩ <;>
                    simp only [restoreIf_gFit, restoreIf_fit,
                      restoreIf_att] <;> (try dsimp only) <;> omega
              · refine ih _ _ _ ?_ (by trivial) h
                refine ⟨?_, ?_, ?_, ?_⟩ <;>
                  simp only [restoreIf_gFit, restoreIf_fit,
                    restoreIf_att] <;> (try dsimp only) <;> omega
        · exact ih _ _ _ (by exact ⟨i1, i2, i3, i4⟩) (by trivial) h
    | after aId prevPos tried wasAdded =>
      simp only [search] at h
      split_ifs at h with h1 h2
      · injection h with h
        subst h
        exact ⟨⟨i1, i2, i3, i4⟩, by simp⟩
      · injection h with h
        subst h
        exact ⟨⟨i1, i2, i3, i4⟩, by simp⟩
      · exact ih _ _ _ ⟨i1, i2, i3, i4⟩ (by trivial) h

/-- Budget bookkeeping at the end of a whole `fitUnfittedAreas` run: the
local counter is empty (any residual was returned to the pool on a normal
finish and was already empty on an abort) and the invariant still holds. -/
theorem fitUnfittedAreas_budget (p : Params) (L : Int) (fuel : Nat)
    (st st2 : SState) (hinv : BudgetInv L st)
    (h : fitUnfittedAreas p fuel st = some st2) :
    BudgetInv L st2 ∧ st2.fitCallsLeft = 0 := by
  unfold fitUnfittedAreas at h
  split at h
  · exact absurd h (by simp)
  · rename_i st1 heq
    injection h with h
    subst h
    obtain ⟨inv1, hab⟩ := search_budget p L fuel _ st _ hinv (by trivial) heq
    exact ⟨inv1, hab rfl⟩
  · rename_i st1 heq
    obtain ⟨⟨j1, j2, j3, j4⟩, _⟩ :=
      search_budget p L fuel _ st _ hinv (by trivial) heq
    dsimp only at j1 j2 j3 j4
    split at h <;> injection h with h <;> subst h
    · exact ⟨⟨by dsimp only; omega, by dsimp only; omega,
        by dsimp only; omega, by dsimp only; omega⟩, rfl⟩
    · rename_i hpos
      exact ⟨⟨j1, j2, j3, j4⟩, by omega⟩

/-- Final budget bookkeeping, phrased over the optional run result. -/
def budgetOk (lim : Int) : Option SState → Prop
  | none => True
  | some st2 =>
    st2.fitCallsLeft = 0 ∧ 0 ≤ st2.attempts ∧ st2.attempts ≤ lim ∧
      st2.gFitCallsLeft + st2.attempts = lim

/-- C5: with a positive `FitCallsLimit`, (i) each refill moves a slice of
at most 512 calls (and at least one) from the shared pool to the empty
local counter, conserving the total; (ii) every completed search step
preserves shared + local + attempts = limit with all three non-negative;
(iii) a completed `fitUnfittedAreas` run from the initial state ends with
the local counter returned, so shared + attempts = limit and the number of
budget decrements never exceeds the limit. -/
theorem claim_C5 :
    (∀ st : SState, 0 ≤ st.gFitCallsLeft → ¬st.gFitCallsLeft = 0 →
      st.fitCallsLeft = 0 →
      1 ≤ (refill st).fitCallsLeft ∧ (refill st).fitCallsLeft ≤ 512 ∧
      (refill st).gFitCallsLeft + (refill st).fitCallsLeft =
        st.gFitCallsLeft) ∧
    (∀ (p : Params) (L : Int) (fuel : Nat) (c : Call) (st : SState)
      (r : Bool × SState), BudgetInv L st → callPre c st →
      search p fuel c st = some r → BudgetInv L r.2) ∧
    (∀ (p : Params) (fuel : Nat) (sorted : List CFitArea)
      (minC lim maxW maxH : Int), 0 < lim →
      budgetOk lim
        (fitUnfittedAreas p fuel (initState sorted minC lim maxW maxH))) := by
  refine ⟨?_, ?_, ?_⟩
  · intro st h0 hne hl
    obtain ⟨f1, f2, f3, f4, f5⟩ := budget_refill st h0 hne hl
    exact ⟨f1, f2, by omega⟩
  · intro p L fuel c st r hinv hpre h
    exact (search_budget p L fuel c st r hinv hpre h).1
  · intro p fuel sorted minC lim maxW maxH h0
    rcases hres : fitUnfittedAreas p fuel (initState sorted minC lim maxW
        maxH) with _ | st2
    · exact trivial
    · have hinv : BudgetInv lim (initState sorted minC lim maxW maxH) :=
        ⟨le_of_lt h0, le_refl 0, le_refl 0,
          (by omega : lim + (0 : Int) + 0 = lim)⟩
      obtain ⟨⟨j1, j2, j3, j4⟩, jl⟩ :=
        fitUnfittedAreas_budget p lim fuel _ st2 hinv hres
      exact ⟨jl, j3, by omega, by omega⟩

attribute [irreducible] budgetOk

/-- Witness for C5: a concrete refill from a pool of 600 and a concrete
completed two-area run with limit 5 (the budget runs out mid-search). -/
theorem claim_C5_witness :
    (0 ≤ (initState [] 1 600 300 300).gFitCallsLeft ∧
      ¬(initState [] 1 600 300 300).gFitCallsLeft = 0 ∧
      (initState [] 1 600 300 300).fitCallsLeft = 0 ∧
      1 ≤ (refill (initState [] 1 600 300 300)).fitCallsLeft ∧
      (refill (initState [] 1 600 300 300)).fitCallsLeft ≤ 512 ∧
      (refill (initState [] 1 600 300 300)).gFitCallsLeft +
        (refill (initState [] 1 600 300 300)).fitCallsLeft = 600) ∧
    (0 < (5 : Int) ∧
      budgetOk 5
        (fitUnfittedAreas ⟨300, 300, 1000000⟩ 20
          (initState
            (sortAreasIn [⟨1, 2, 2, 0, 0, 0⟩, ⟨2, 2, 2, 0, 0, 0⟩]) 1 5 300
            300))) := by
  constructor
  · refine ⟨by decide, by decide, by decide, ?_⟩
    have := claim_C5.1 (initState [] 1 600 300 300) (by decide) (by decide)
      (by decide)
    exact ⟨this.1, this.2.1, by
      have h3 := this.2.2
      simpa using h3⟩
  · exact ⟨by decide,
      claim_C5.2.2 ⟨300, 300, 1000000⟩ 20
        (sortAreasIn [⟨1, 2, 2, 0, 0, 0⟩, ⟨2, 2, 2, 0, 0, 0⟩]) 1 5 300 300
        (by decide)⟩

/-! ### Geometry: lattice-point semantics of rectangles -/

/-- The lattice points covered by an axis-aligned rectangle with
upper-left corner `(x, y)`, width `w` and height `h`. -/
def pts (x y w h : Int) : Finset (Int × Int) :=
  Finset.Ico x (x + w) ×ˢ Finset.Ico y (y + h)

/-- Points covered by a placed area. -/
def aPts (a : CFitArea) : Finset (Int × Int) :=
  pts a.outX a.outY a.width a.height

/-- Points covered by a free region. -/
def rPts (r : COutArea) : Finset (Int × Int) :=
  pts r.x r.y r.width r.height

theorem mem_pts {x y w h : Int} {q : Int × Int} :
    q ∈ pts x y w h ↔ (x ≤ q.1 ∧ q.1 < x + w) ∧ (y ≤ q.2 ∧ q.2 < y + h) := by
  simp [pts, Finset.mem_product, Finset.mem_Ico]

theorem card_pts (x y w h : Int) :
    (pts x y w h).card = w.toNat * h.toNat := by
  simp only [pts, Finset.card_product, Int.card_Ico]
  congr 1 <;> omega

theorem pts_subset {x1 y1 w1 h1 x2 y2 w2 h2 : Int} (h1a : x2 ≤ x1)
    (h2a : x1 + w1 ≤ x2 + w2) (h3a : y2 ≤ y1) (h4a : y1 + h1 ≤ y2 + h2) :
    pts x1 y1 w1 h1 ⊆ pts x2 y2 w2 h2 := by
  intro q hq
  rw [mem_pts] at hq ⊢
  omega

theorem pts_disjoint {x1 y1 w1 h1 x2 y2 w2 h2 : Int}
    (h : x1 + w1 ≤ x2 ∨ x2 + w2 ≤ x1 ∨ y1 + h1 ≤ y2 ∨ y2 + h2 ≤ y1) :
    Disjoint (pts x1 y1 w1 h1) (pts x2 y2 w2 h2) := by
  rw [Finset.disjoint_left]
  intro q hq1 hq2
  rw [mem_pts] at hq1 hq2
  omega

/-- Summed cardinality of pairwise disjoint subsets of `S` is at most the
cardinality of `S`. -/
theorem sum_card_le {α : Type} [DecidableEq α] :
    ∀ (F : List (Finset α)) (S : Finset α), (∀ f ∈ F, f ⊆ S) →
      F.Pairwise Disjoint → (F.map Finset.card).sum ≤ S.card
  | [], S, _, _ => by simp
  | f :: F, S, hsub, hdisj => by
    rw [List.pairwise_cons] at hdisj
    have hrec := sum_card_le F (S \ f)
      (fun g hg => Finset.subset_sdiff.mpr
        ⟨hsub g (List.mem_cons_of_mem f hg),
          (hdisj.1 g hg).symm⟩)
      hdisj.2
    have hf : f ⊆ S := hsub f (List.mem_cons_self f F)
    have hcard : (S \ f).card = S.card - f.card := Finset.card_sdiff hf
    have hle : f.card ≤ S.card := Finset.card_le_card hf
    simp only [List.map_cons, List.sum_cons]
    omega

/-! ### Utilities on the chain operations -/

/-- Re-inserting the element at the position it was erased from restores
the list. -/
theorem insertIdx_eraseIdx_self {α : Type} :
    ∀ (l : List α) (n : Nat) (a : α), l.get? n = some a →
      (l.eraseIdx n).insertIdx n a = l
  | [], n, a, h => by simp at h
  | b :: l, 0, a, h => by
    simp only [List.get?] at h
    injection h with h
    subst h
    rfl
  | b :: l, n + 1, a, h => by
    simp only [List.get?] at h
    simp only [List.eraseIdx, List.insertIdx_succ_cons]
    rw [insertIdx_eraseIdx_self l n a h]

theorem insertOutArea_snd (l : List COutArea) (a : COutArea) :
    (insertOutArea l a).2 = l.insertIdx (insertOutArea l a).1 a := by
  induction l with
  | nil => rfl
  | cons r rest ih =>
    by_cases hgt : r.height > a.height
    · simp [insertOutArea, hgt]
    · simp only [insertOutArea, if_neg hgt, List.insertIdx_succ_cons]
      rw [ih]

theorem insertOutArea_le (l : List COutArea) (a : COutArea) :
    (insertOutArea l a).1 ≤ l.length := by
  induction l with
  | nil => simp [insertOutArea]
  | cons r rest ih =>
    by_cases hgt : r.height > a.height
    · simp [insertOutArea, hgt]
    · simp only [insertOutArea, if_neg hgt, List.length_cons]
      omega

theorem insertOutArea_mem {l : List COutArea} {a r : COutArea} :
    r ∈ (insertOutArea l a).2 ↔ r = a ∨ r ∈ l := by
  rw [insertOutArea_snd]
  exact List.mem_insertIdx (insertOutArea_le l a)

theorem insertOutArea_get (l : List COutArea) (a : COutArea) :
    (insertOutArea l a).2.get? (insertOutArea l a).1 = some a := by
  induction l with
  | nil => rfl
  | cons r rest ih =>
    by_cases hgt : r.height > a.height
    · simp [insertOutArea, hgt]
    · simp only [insertOutArea, if_neg hgt, List.get?]
      exact ih

theorem insertOutArea_erase (l : List COutArea) (a : COutArea) :
    (insertOutArea l a).2.eraseIdx (insertOutArea l a).1 = l := by
  rw [insertOutArea_snd]
  exact List.eraseIdx_insertIdx _ _

/-- Membership in an erased list implies membership in the original. -/
theorem mem_of_mem_eraseIdx {α : Type} {l : List α} {n : Nat} {x : α}
    (h : x ∈ l.eraseIdx n) : x ∈ l := by
  have := List.eraseIdx_sublist l n
  exact this.mem h

/-- Pairwise property of an insertion, for a symmetric relation. -/
theorem pairwise_insertIdx {α : Type} {R : α → α → Prop}
    (hsymm : ∀ a b, R a b → R b a) {l : List α} {a : α} {n : Nat}
    (hn : n ≤ l.length) (hall : ∀ b ∈ l, R a b) (hl : l.Pairwise R) :
    (l.insertIdx n a).Pairwise R := by
  have hperm := List.perm_insertIdx a l hn
  rw [List.Perm.pairwise_iff (fun {x y} h => hsymm x y h) hperm]
  rw [List.pairwise_cons]
  exact ⟨hall, hl⟩

/-- Pairwise property survives erasing an index. -/
theorem pairwise_eraseIdx {α : Type} {R : α → α → Prop} {l : List α}
    (n : Nat) (hl : l.Pairwise R) : (l.eraseIdx n).Pairwise R :=
  List.Pairwise.sublist (List.eraseIdx_sublist l n) hl

/-- A sum over `range n` after changing the value at one index. -/
theorem sum_range_update (n t : Nat) (f g : Nat → Int) (ht : t < n)
    (hfg : ∀ k, k < n → k ≠ t → g k = f k) :
    ∑ k ∈ Finset.range n, g k =
      (∑ k ∈ Finset.range n, f k) - f t + g t := by
  classical
  have hmem : t ∈ Finset.range n := Finset.mem_range.mpr ht
  rw [← Finset.sum_erase_add _ g hmem, ← Finset.sum_erase_add _ f hmem]
  have : ∑ k ∈ (Finset.range n).erase t, g k =
      ∑ k ∈ (Finset.range n).erase t, f k := by
    refine Finset.sum_congr rfl ?_
    intro k hk
    have := Finset.mem_erase.mp hk
    exact hfg k (Finset.mem_range.mp this.2) this.1
  omega


/-! ### The geometric search invariant -/

/-- The output image record for (integer) index `k`. -/
def imgAt (st : SState) (k : Int) : COutImage := st.outImages.getD k.toNat dImg

/-- The area record at index `i`. -/
def areaD (st : SState) (i : Nat) : CFitArea := st.areas.getD i dArea

/-- `i` is a live placement: a valid index that is neither waiting in the
unfitted chain nor the in-flight area of the current frame (`dead`). -/
def placedIdx (dead : List Nat) (st : SState) (i : Nat) : Prop :=
  i < st.areas.size ∧ i ∉ st.unfitted ∧ i ∉ dead

/-- Sum of `width * height` over a list of output images. -/
def sumSizes (l : List COutImage) : Int :=
  (l.map (fun im => im.width * im.height)).sum

/-- A placement that lies inside its output image. -/
structure GoodPlace (st : SState) (a : CFitArea) : Prop where
  hx : 0 ≤ a.outX
  hy : 0 ≤ a.outY
  hi0 : 0 ≤ a.outImage
  hic : a.outImage < st.outImageCount
  hw : a.outX + a.width ≤ (imgAt st a.outImage).width
  hh : a.outY + a.height ≤ (imgAt st a.outImage).height

/-- A published best solution is geometrically sound.  `arr0` is the
sorted input array the search started from; `bSize`, `bAreas` and `bImgs`
are the published `BestOutSize`, `BestFittedAreas` and `BestOutImages`. -/
structure PubGood (arr0 : Array CFitArea) (bSize : Int)
    (bAreas : Array CFitArea) (bImgs : Array COutImage) : Prop where
  plen : bAreas.size = arr0.size
  contain : ∀ a ∈ bAreas.toList,
    0 ≤ a.outX ∧ 0 ≤ a.outY ∧ 0 ≤ a.outImage ∧
    a.outImage.toNat < bImgs.size ∧
    a.outX + a.width ≤ (bImgs.getD a.outImage.toNat dImg).width ∧
    a.outY + a.height ≤ (bImgs.getD a.outImage.toNat dImg).height
  ndisj : bAreas.toList.Pairwise
    (fun a b => a.outImage = b.outImage → Disjoint (aPts a) (aPts b))
  imgs : ∀ im ∈ bImgs.toList,
    im.size = im.width * im.height ∧ 0 ≤ im.width ∧ 0 ≤ im.height
  bsum : bSize = sumSizes bImgs.toList
  asum : sumAreas bAreas.toList = sumAreas arr0.toList
  arle : sumAreas bAreas.toList ≤ bSize

/-- Either nothing has been published yet, or the published best is sound. -/
def PubInv (arr0 : Array CFitArea) (st : SState) : Prop :=
  st.gBestOutSize = sentG ∨
    PubGood arr0 st.gBestOutSize st.gBestFittedAreas st.gBestOutImages

/-- Extra facts carried while a synthesized output image is alive: every
region except the synthesized one (at chain position `prevPos`) and every
live placement lives on an older image, and the synthesized image slot is
still zero-sized. -/
structure WExtra (aId : Nat) (prevPos : Nat) (st : SState) : Prop where
  cnt1 : 1 ≤ st.outImageCount
  regs : ∀ r ∈ st.outChain.eraseIdx prevPos,
    r.outImage < st.outImageCount - 1
  pls : ∀ i, placedIdx [aId] st i →
    (areaD st i).outImage < st.outImageCount - 1
  slot : imgAt st (st.outImageCount - 1) = dImg

/-- The geometric invariant of a search state. -/
structure GInv (arr0 : Array CFitArea) (dead : List Nat) (st : SState) :
    Prop where
  sz : st.areas.size = arr0.size
  dims : ∀ i, (areaD st i).width = (arr0.getD i dArea).width ∧
    (areaD st i).height = (arr0.getD i dArea).height
  unfit : ∀ i ∈ st.unfitted, i < st.areas.size
  nodup : st.unfitted.Nodup
  cnt0 : 0 ≤ st.outImageCount
  cntsz : st.outImageCount.toNat ≤ st.outImages.size
  imgs_nn : ∀ k : Int, 0 ≤ k → k < st.outImageCount →
    0 ≤ (imgAt st k).width ∧ 0 ≤ (imgAt st k).height
  imgs_sz : ∀ k : Int, 0 ≤ k → k < st.outImageCount →
    (imgAt st k).size = (imgAt st k).width * (imgAt st k).height
  osum : st.outSize =
    ∑ k ∈ Finset.range st.outImageCount.toNat, (st.outImages.getD k dImg).size
  reg_wf : ∀ r ∈ st.outChain,
    0 ≤ r.x ∧ 0 ≤ r.y ∧ 0 ≤ r.outImage ∧ r.outImage < st.outImageCount
  pl_good : ∀ i, placedIdx dead st i → GoodPlace st (areaD st i)
  pl_pl : ∀ i j, placedIdx dead st i → placedIdx dead st j → i ≠ j →
    (areaD st i).outImage = (areaD st j).outImage →
    Disjoint (aPts (areaD st i)) (aPts (areaD st j))
  pl_reg : ∀ i, placedIdx dead st i → ∀ r ∈ st.outChain,
    (areaD st i).outImage = r.outImage →
    Disjoint (aPts (areaD st i)) (rPts r)
  reg_reg : st.outChain.Pairwise
    (fun r s => r.outImage = s.outImage → Disjoint (rPts r) (rPts s))
  pub : PubInv arr0 st

/-- Entry image count after a completed call (a live synthesized image is
unwound by `after`). -/
def countPost : Call → SState → Int
  | .trial _ _ _ wasAdded _, st =>
    if wasAdded then st.outImageCount - 1 else st.outImageCount
  | .after _ _ _ wasAdded, st =>
    if wasAdded then st.outImageCount - 1 else st.outImageCount
  | _, st => st.outImageCount

/-- Entry free-region chain after a completed call (the synthesized region
at `prevPos` is unlinked by `after`). -/
def chainPost : Call → SState → List COutArea
  | .trial _ prevPos _ wasAdded _, st =>
    if wasAdded then st.outChain.eraseIdx prevPos else st.outChain
  | .after _ prevPos _ wasAdded, st =>
    if wasAdded then st.outChain.eraseIdx prevPos else st.outChain
  | _, st => st.outChain

/-- The in-flight area of each entry point. -/
def deadOf : Call → List Nat
  | .outer _ => []
  | .detach _ _ => []
  | .region aId _ _ => [aId]
  | .trial aId _ _ _ _ => [aId]
  | .after aId _ _ _ => [aId]

/-- Restoration discipline: what a completed (non-aborting) call leaves
unchanged relative to its entry state. -/
structure SPost (c : Call) (st st2 : SState) : Prop where
  unfit : st2.unfitted = st.unfitted
  asz : st2.areas.size = st.areas.size
  cnt : st2.outImageCount = countPost c st
  osize : st2.outSize = st.outSize
  imgs : ∀ k : Nat, k < st.outImageCount.toNat →
    st2.outImages.getD k dImg = st.outImages.getD k dImg
  iszge : st.outImages.size ≤ st2.outImages.size
  areas : ∀ i, i ∉ st.unfitted → i ∉ deadOf c →
    st2.areas.getD i dArea = st.areas.getD i dArea
  chain : st2.outChain = chainPost c st

/-- Geometric precondition of each entry point. -/
def GPre : Call → SState → Prop
  | .outer _, _ => True
  | .detach areaPos aId, st => st.unfitted.get? areaPos = some aId
  | .region aId _ _, st => aId < st.areas.size ∧ aId ∉ st.unfitted
  | .trial aId prevPos _ wasAdded cur, st =>
    aId < st.areas.size ∧ aId ∉ st.unfitted ∧
    st.outChain.get? prevPos = some cur ∧
    (wasAdded = true → WExtra aId prevPos st ∧
      (areaD st aId).width ≤ cur.width ∧ (areaD st aId).height ≤ cur.height)
  | .after aId prevPos _ wasAdded, st =>
    aId < st.areas.size ∧ aId ∉ st.unfitted ∧
    (wasAdded = true → WExtra aId prevPos st)

/-! ### Array access lemmas -/

theorem getD_setD {α : Type} (arr : Array α) (i j : Nat) (v d : α) :
    (arr.setD i v).getD j d =
      if j = i ∧ i < arr.size then v else arr.getD j d := by
  unfold Array.setD
  split
  · rename_i hi
    rw [Array.getD_eq_get?]
    by_cases hj : j = i
    · subst hj
      rw [Array.getElem?_eq_getElem (by simpa using hi), Array.get_set_eq]
      simp [hi]
    · rw [if_neg (by tauto)]
      by_cases hjs : j < arr.size
      · rw [Array.getElem?_eq_getElem (by simpa using hjs),
          Array.get_set_ne _ _ _ _ (fun h => hj h.symm),
          Array.getD_eq_get?, Array.getElem?_eq_getElem hjs]
      · have e1 : (arr.set ⟨i, hi⟩ v)[j]? = none := by
          simpa [Array.getElem?_eq_none_iff] using hjs
        have e2 : arr[j]? = none := by
          simpa [Array.getElem?_eq_none_iff] using hjs
        rw [e1, Array.getD_eq_get?, e2]
  · rename_i hi
    rw [if_neg (by tauto)]

theorem getD_push {α : Type} (arr : Array α) (j : Nat) (v d : α) :
    (arr.push v).getD j d =
      if j = arr.size then v else arr.getD j d := by
  rw [Array.getD_eq_get?, Array.getElem?_push]
  by_cases hj : j = arr.size
  · simp [hj]
  · rw [if_neg hj, if_neg hj, Array.getD_eq_get?]

theorem getD_writeImg (arr : Array COutImage) (i j : Nat) (v d : COutImage)
    (h : i ≤ arr.size) :
    (writeImg arr i v).getD j d = if j = i then v else arr.getD j d := by
  unfold writeImg
  split
  · rename_i hi
    rw [getD_setD]
    by_cases hj : j = i
    · simp [hj, hi]
    · simp [hj]
  · rename_i hi
    have hieq : i = arr.size := by omega
    rw [getD_push, hieq]

theorem size_writeImg_ge (arr : Array COutImage) (i : Nat) (v : COutImage) :
    arr.size ≤ (writeImg arr i v).size := by
  unfold writeImg
  split
  · rw [Array.size_setD]
  · rw [Array.size_push]
    omega

theorem size_setD_eq {α : Type} (arr : Array α) (i : Nat) (v : α) :
    (arr.setD i v).size = arr.size := Array.size_setD arr i v

theorem toList_getD {α : Type} (arr : Array α) (i : Nat) (d : α) :
    arr.toList.getD i d = arr.getD i d := by
  rw [List.getD_eq_getElem?_getD, Array.getD_eq_get?]
  rfl

theorem mem_toList_iff {α : Type} (arr : Array α) (a d : α) :
    a ∈ arr.toList ↔ ∃ i, i < arr.size ∧ arr.getD i d = a := by
  rw [List.mem_iff_getElem]
  constructor
  · rintro ⟨i, hi, hget⟩
    refine ⟨i, by simpa using hi, ?_⟩
    rw [Array.getD_eq_get?,
      Array.getElem?_eq_getElem (by simpa using hi)]
    simpa [Array.getElem_toList] using hget
  · rintro ⟨i, hi, hget⟩
    refine ⟨i, by simpa using hi, ?_⟩
    rw [Array.getElem_toList]
    rw [Array.getD_eq_get?,
      Array.getElem?_eq_getElem hi] at hget
    simpa using hget

theorem toList_toArray_getD {α : Type} (l : List α) (i : Nat) (d : α) :
    l.toArray.getD i d = l.getD i d := by
  rw [Array.getD_eq_get?, List.getElem?_toArray,
    List.getD_eq_getElem?_getD]

/-! ### Membership in an erased chain -/

theorem mem_eraseIdx_of_ne {α : Type} :
    ∀ (l : List α) (n : Nat) (a x : α), l.get? n = some a → x ∈ l →
      x ≠ a → x ∈ l.eraseIdx n
  | [], n, a, x, h, hx, hne => by simp at hx
  | b :: l, 0, a, x, h, hx, hne => by
    simp only [List.get?] at h
    injection h with h
    subst h
    rcases List.mem_cons.mp hx with h1 | h1
    · exact absurd h1 hne
    · simpa [List.eraseIdx] using h1
  | b :: l, n + 1, a, x, h, hx, hne => by
    simp only [List.get?] at h
    rcases List.mem_cons.mp hx with h1 | h1
    · subst h1
      simp [List.eraseIdx]
    · simp only [List.eraseIdx, List.mem_cons]
      exact Or.inr (mem_eraseIdx_of_ne l n a x h h1 hne)

/-- From a pairwise chain with a symmetric relation, the element at
position `n` relates to every element of the chain with position `n`
erased. -/
theorem pairwise_rel_eraseIdx {α : Type} {R : α → α → Prop}
    (hsymm : ∀ a b, R a b → R b a) :
    ∀ (l : List α) (n : Nat) (a : α), l.Pairwise R → l.get? n = some a →
      ∀ b ∈ l.eraseIdx n, R a b
  | [], n, a, _, h => by simp at h
  | c :: l, 0, a, hp, h => by
    simp only [List.get?] at h
    injection h with h
    subst h
    rw [List.pairwise_cons] at hp
    intro b hb
    exact hp.1 b (by simpa [List.eraseIdx] using hb)
  | c :: l, n + 1, a, hp, h => by
    simp only [List.get?] at h
    rw [List.pairwise_cons] at hp
    intro b hb
    simp only [List.eraseIdx, List.mem_cons] at hb
    rcases hb with h1 | h1
    · subst h1
      have : a ∈ l := by
        have := List.get?_mem h
        exact this
      exact hsymm _ _ (hp.1 a this)
    · exact pairwise_rel_eraseIdx hsymm l n a hp.2 h b h1

/-! ### Sums over ranges and lists -/

theorem list_range_sum (f : Nat → Int) :
    ∀ n : Nat, ((List.range n).map f).sum = ∑ k ∈ Finset.range n, f k := by
  intro n
  induction n with
  | zero => simp
  | succ n ih =>
    rw [List.range_succ, Finset.sum_range_succ, List.map_append,
      List.sum_append, ih]
    simp

theorem map_getD_range {α : Type} (d : α) (f : α → Int) :
    ∀ l : List α, l.map f = (List.range l.length).map
      (fun i => f (l.getD i d))
  | [] => by simp
  | a :: l => by
    rw [List.map_cons, List.length_cons, List.range_succ_eq_map,
      List.map_cons, map_getD_range d f l, List.map_map]
    rfl

theorem sumAreas_eq_range (l : List CFitArea) :
    sumAreas l = ∑ i ∈ Finset.range l.length,
      ((l.getD i dArea).width * (l.getD i dArea).height) := by
  unfold sumAreas
  rw [map_getD_range dArea _ l, ← list_range_sum]

theorem sumSizes_eq_range (l : List COutImage) :
    sumSizes l = ∑ k ∈ Finset.range l.length,
      ((l.getD k dImg).width * (l.getD k dImg).height) := by
  unfold sumSizes
  rw [map_getD_range dImg _ l, ← list_range_sum]

/-! ### `takeImgs` access -/

theorem takeImgs_size (arr : Array COutImage) (n : Nat) :
    (takeImgs arr n).size = n := by
  simp [takeImgs]

theorem takeImgs_getD (arr : Array COutImage) (n k : Nat) (hk : k < n) :
    (takeImgs arr n).getD k dImg = arr.getD k dImg := by
  unfold takeImgs
  rw [toList_toArray_getD]
  rw [List.getD_eq_getElem?_getD, List.getElem?_map]
  simp [List.getElem?_range, hk]

theorem takeImgs_toList (arr : Array COutImage) (n : Nat) :
    (takeImgs arr n).toList = (List.range n).map (fun i => arr.getD i dImg) := by
  simp [takeImgs]

/-! ### Field-preservation of the publication and restore helpers -/

theorem publishBest_frame (st : SState) :
    (publishBest st).unfitted = st.unfitted ∧
    (publishBest st).areas = st.areas ∧
    (publishBest st).outChain = st.outChain ∧
    (publishBest st).outImages = st.outImages ∧
    (publishBest st).outImageCount = st.outImageCount ∧
    (publishBest st).outSize = st.outSize := by
  unfold publishBest
  split <;> exact ⟨rfl, rfl, rfl, rfl, rfl, rfl⟩

theorem restoreIf_frame (chk : CheckFit) (cur : COutArea) (st : SState) :
    (restoreIf chk cur st).unfitted = st.unfitted ∧
    (restoreIf chk cur st).areas = st.areas ∧
    (restoreIf chk cur st).outChain = st.outChain ∧
    (restoreIf chk cur st).outImageCount = st.outImageCount ∧
    (restoreIf chk cur st).gBestOutSize = st.gBestOutSize ∧
    (restoreIf chk cur st).gBestOutImages = st.gBestOutImages ∧
    (restoreIf chk cur st).gBestFittedAreas = st.gBestFittedAreas := by
  unfold restoreIf
  split <;> exact ⟨rfl, rfl, rfl, rfl, rfl, rfl, rfl⟩

theorem publishBest_pub (st : SState) :
    (publishBest st).gBestOutSize = st.gBestOutSize ∨
    (publishBest st).gBestOutSize = st.outSize := by
  unfold publishBest
  split
  · exact Or.inr rfl
  · exact Or.inl rfl

/-! ### Transport lemmas for the invariant -/

theorem imgAt_congr {st st2 : SState}
    (hcnt : st2.outImageCount = st.outImageCount)
    (himgs : ∀ k : Nat, k < st.outImageCount.toNat →
      st2.outImages.getD k dImg = st.outImages.getD k dImg)
    {k : Int} (h0 : 0 ≤ k) (hk : k < st.outImageCount) :
    imgAt st2 k = imgAt st k := by
  unfold imgAt
  exact himgs k.toNat (by omega)

theorem GoodPlace_congr {st st2 : SState} {a : CFitArea}
    (hcnt : st.outImageCount ≤ st2.outImageCount)
    (himgs : ∀ k : Nat, k < st.outImageCount.toNat →
      st2.outImages.getD k dImg = st.outImages.getD k dImg)
    (hG : GoodPlace st a) : GoodPlace st2 a := by
  have he : imgAt st2 a.outImage = imgAt st a.outImage := by
    unfold imgAt
    exact himgs a.outImage.toNat (by have := hG.hi0; have := hG.hic; omega)
  refine ⟨hG.hx, hG.hy, hG.hi0, ?_, ?_, ?_⟩
  · have := hG.hic
    omega
  · rw [he]
    exact hG.hw
  · rw [he]
    exact hG.hh

theorem placedIdx_congr {dead : List Nat} {st st2 : SState}
    (hunf : st2.unfitted = st.unfitted) (hsz : st2.areas.size = st.areas.size)
    {i : Nat} (h : placedIdx dead st2 i) : placedIdx dead st i := by
  obtain ⟨h1, h2, h3⟩ := h
  exact ⟨by omega, by rw [hunf] at h2; exact h2, h3⟩

/-- The geometric invariant only depends on the state through the
quantities below; this congruence does most of the restore bookkeeping. -/
theorem GInv_congr {arr0 : Array CFitArea} {dead : List Nat}
    {st st2 : SState} (hG : GInv arr0 dead st)
    (hunf : st2.unfitted = st.unfitted)
    (hsz : st2.areas.size = st.areas.size)
    (hdims : ∀ i, (areaD st2 i).width = (areaD st i).width ∧
      (areaD st2 i).height = (areaD st i).height)
    (hpl : ∀ i, i ∉ st.unfitted → i ∉ dead → areaD st2 i = areaD st i)
    (hchain : st2.outChain = st.outChain)
    (hcnt : st2.outImageCount = st.outImageCount)
    (hosz : st2.outSize = st.outSize)
    (himgs : ∀ k : Nat, k < st.outImageCount.toNat →
      st2.outImages.getD k dImg = st.outImages.getD k dImg)
    (hiszge : st.outImages.size ≤ st2.outImages.size)
    (hpub : PubInv arr0 st2) :
    GInv arr0 dead st2 := by
  have hplaced : ∀ i, placedIdx dead st2 i →
      placedIdx dead st i ∧ areaD st2 i = areaD st i := by
    intro i hi
    have h1 := placedIdx_congr hunf hsz hi
    exact ⟨h1, hpl i h1.2.1 h1.2.2⟩
  refine ⟨?_, ?_, ?_, by rw [hunf]; exact hG.nodup, ?_, ?_, ?_, ?_, ?_,
    ?_, ?_, ?_, ?_, ?_, hpub⟩
  · have := hG.sz
    omega
  · intro i
    exact ⟨(hdims i).1.trans (hG.dims i).1, (hdims i).2.trans (hG.dims i).2⟩
  · intro i hi
    rw [hunf] at hi
    have := hG.unfit i hi
    omega
  · rw [hcnt]
    exact hG.cnt0
  · have h1 := hG.cntsz
    rw [hcnt]
    omega
  · intro k h0 hk
    rw [hcnt] at hk
    rw [imgAt_congr hcnt himgs h0 hk]
    exact hG.imgs_nn k h0 hk
  · intro k h0 hk
    rw [hcnt] at hk
    rw [imgAt_congr hcnt himgs h0 hk]
    exact hG.imgs_sz k h0 hk
  · rw [hosz, hcnt, hG.osum]
    refine Finset.sum_congr rfl ?_
    intro k hk
    rw [himgs k (Finset.mem_range.mp hk)]
  · rw [hchain, hcnt]
    exact hG.reg_wf
  · intro i hi
    obtain ⟨h1, h2⟩ := hplaced i hi
    rw [h2]
    exact GoodPlace_congr (le_of_eq hcnt.symm) himgs (hG.pl_good i h1)
  · intro i j hi hj hne
    obtain ⟨hi1, hi2⟩ := hplaced i hi
    obtain ⟨hj1, hj2⟩ := hplaced j hj
    rw [hi2, hj2]
    exact hG.pl_pl i j hi1 hj1 hne
  · intro i hi r hr himg
    obtain ⟨hi1, hi2⟩ := hplaced i hi
    rw [hi2] at himg ⊢
    rw [hchain] at hr
    exact hG.pl_reg i hi1 r hr himg
  · rw [hchain]
    exact hG.reg_reg


/-- Detaching the current area from the unfitted chain (the step of
`detach`): the invariant continues to hold with the area marked dead. -/
theorem GInv_detach {arr0 : Array CFitArea} {st : SState}
    {areaPos aId : Nat} (hG : GInv arr0 [] st)
    (hg : st.unfitted.get? areaPos = some aId) :
    GInv arr0 [aId] { st with
      fitCallsLeft := st.fitCallsLeft - 1
      attempts := st.attempts + 1
      unfitted := st.unfitted.eraseIdx areaPos } := by
  have hplaced : ∀ i, placedIdx [aId]
      { st with
        fitCallsLeft := st.fitCallsLeft - 1
        attempts := st.attempts + 1
        unfitted := st.unfitted.eraseIdx areaPos } i → placedIdx [] st i := by
    intro i hi
    obtain ⟨h1, h2, h3⟩ := hi
    refine ⟨h1, ?_, by simp⟩
    intro hmem
    exact h2 (mem_eraseIdx_of_ne st.unfitted areaPos aId i hg hmem
      (by simpa using h3))
  have hnd : (st.unfitted.eraseIdx areaPos).Nodup :=
    List.Nodup.sublist (List.eraseIdx_sublist _ _) hG.nodup
  refine ⟨hG.sz, hG.dims, ?_, hnd,
    hG.cnt0, hG.cntsz, hG.imgs_nn, hG.imgs_sz,
    hG.osum, hG.reg_wf, ?_, ?_, ?_, hG.reg_reg, hG.pub⟩
  · intro i hi
    exact hG.unfit i (mem_of_mem_eraseIdx hi)
  · intro i hi
    refine GoodPlace_congr ?_ ?_ (hG.pl_good i (hplaced i hi))
    · rfl
    · intro k _
      rfl
  · intro i j hi hj
    exact hG.pl_pl i j (hplaced i hi) (hplaced j hj)
  · intro i hi
    exact hG.pl_reg i (hplaced i hi)

/-- Re-attaching the current area into the unfitted chain (end of
`detach`): the invariant holds again with no dead area. -/
theorem GInv_relink {arr0 : Array CFitArea} {st : SState}
    {areaPos aId : Nat} (hG : GInv arr0 [aId] st)
    (haid : aId < st.areas.size) (hlen : areaPos ≤ st.unfitted.length)
    (hnotin : aId ∉ st.unfitted) :
    GInv arr0 [] { st with
      unfitted := st.unfitted.insertIdx areaPos aId } := by
  have hplaced : ∀ i, placedIdx []
      { st with unfitted := st.unfitted.insertIdx areaPos aId } i →
      placedIdx [aId] st i := by
    intro i hi
    obtain ⟨h1, h2, _⟩ := hi
    rw [List.mem_insertIdx hlen] at h2
    push_neg at h2
    exact ⟨h1, h2.2, by simpa using h2.1⟩
  have hnd : (st.unfitted.insertIdx areaPos aId).Nodup :=
    ((List.perm_insertIdx aId st.unfitted hlen).nodup_iff).mpr
      (List.nodup_cons.mpr ⟨hnotin, hG.nodup⟩)
  refine ⟨hG.sz, hG.dims, ?_, hnd,
    hG.cnt0, hG.cntsz, hG.imgs_nn, hG.imgs_sz,
    hG.osum, hG.reg_wf, ?_, ?_, ?_, hG.reg_reg, hG.pub⟩
  · intro i hi
    rw [List.mem_insertIdx hlen] at hi
    rcases hi with h1 | h1
    · subst h1
      exact haid
    · exact hG.unfit i h1
  · intro i hi
    refine GoodPlace_congr ?_ ?_ (hG.pl_good i (hplaced i hi))
    · rfl
    · intro k _
      rfl
  · intro i j hi hj
    exact hG.pl_pl i j (hplaced i hi) (hplaced j hj)
  · intro i hi
    exact hG.pl_reg i (hplaced i hi)

/-- Erasing any region from the chain preserves the invariant. -/
theorem GInv_chainErase {arr0 : Array CFitArea} {dead : List Nat}
    {st : SState} (n : Nat) (hG : GInv arr0 dead st) :
    GInv arr0 dead { st with outChain := st.outChain.eraseIdx n } := by
  refine ⟨hG.sz, hG.dims, hG.unfit, hG.nodup, hG.cnt0, hG.cntsz, hG.imgs_nn,
    hG.imgs_sz, hG.osum, ?_, ?_, hG.pl_pl, ?_, ?_, hG.pub⟩
  · intro r hr
    exact hG.reg_wf r (mem_of_mem_eraseIdx hr)
  · intro i hi
    refine GoodPlace_congr ?_ ?_ (hG.pl_good i hi)
    · exact le_refl _
    · intro k _
      rfl
  · intro i hi r hr
    exact hG.pl_reg i hi r (mem_of_mem_eraseIdx hr)
  · exact pairwise_eraseIdx n hG.reg_reg

/-- Inserting a well-formed region that is disjoint from every live
placement and every chain region (on its image) preserves the invariant. -/
theorem GInv_chainInsert {arr0 : Array CFitArea} {dead : List Nat}
    {st : SState} (a : COutArea) (hG : GInv arr0 dead st)
    (hwf : 0 ≤ a.x ∧ 0 ≤ a.y ∧ 0 ≤ a.outImage ∧
      a.outImage < st.outImageCount)
    (hdp : ∀ i, placedIdx dead st i →
      (areaD st i).outImage = a.outImage →
      Disjoint (aPts (areaD st i)) (rPts a))
    (hdr : ∀ r ∈ st.outChain, a.outImage = r.outImage →
      Disjoint (rPts a) (rPts r)) :
    GInv arr0 dead { st with outChain := (insertOutArea st.outChain a).2 } := by
  refine ⟨hG.sz, hG.dims, hG.unfit, hG.nodup, hG.cnt0, hG.cntsz, hG.imgs_nn,
    hG.imgs_sz, hG.osum, ?_, ?_, hG.pl_pl, ?_, ?_, hG.pub⟩
  · intro r hr
    rw [show ({ st with outChain := (insertOutArea st.outChain a).2 } :
      SState).outChain = (insertOutArea st.outChain a).2 from rfl,
      insertOutArea_mem] at hr
    rcases hr with h1 | h1
    · subst h1
      exact hwf
    · exact hG.reg_wf r h1
  · intro i hi
    refine GoodPlace_congr ?_ ?_ (hG.pl_good i hi)
    · exact le_refl _
    · intro k _
      rfl
  · intro i hi r hr himg
    rw [show ({ st with outChain := (insertOutArea st.outChain a).2 } :
      SState).outChain = (insertOutArea st.outChain a).2 from rfl,
      insertOutArea_mem] at hr
    rcases hr with h1 | h1
    · subst h1
      exact hdp i hi himg
    · exact hG.pl_reg i hi r h1 himg
  · rw [show ({ st with outChain := (insertOutArea st.outChain a).2 } :
      SState).outChain = (insertOutArea st.outChain a).2 from rfl,
      insertOutArea_snd]
    refine pairwise_insertIdx ?_ (insertOutArea_le _ _) ?_ hG.reg_reg
    · intro x y hxy himg
      exact (hxy himg.symm).symm
    · intro b hb himg
      exact hdr b hb himg

/-- Promoting the in-flight area to a live placement, given its goodness
and disjointness facts. -/
theorem GInv_undead {arr0 : Array CFitArea} {aId : Nat} {st : SState}
    (hG : GInv arr0 [aId] st)
    (hgood : GoodPlace st (areaD st aId))
    (hdp : ∀ j, placedIdx [aId] st j →
      (areaD st aId).outImage = (areaD st j).outImage →
      Disjoint (aPts (areaD st aId)) (aPts (areaD st j)))
    (hdr : ∀ r ∈ st.outChain, (areaD st aId).outImage = r.outImage →
      Disjoint (aPts (areaD st aId)) (rPts r)) :
    GInv arr0 [] st := by
  have hsplit : ∀ i, placedIdx [] st i → i = aId ∨ placedIdx [aId] st i := by
    intro i hi
    by_cases h : i = aId
    · exact Or.inl h
    · exact Or.inr ⟨hi.1, hi.2.1, by simpa using h⟩
  refine ⟨hG.sz, hG.dims, hG.unfit, hG.nodup, hG.cnt0, hG.cntsz, hG.imgs_nn,
    hG.imgs_sz, hG.osum, hG.reg_wf, ?_, ?_, ?_, hG.reg_reg, hG.pub⟩
  · intro i hi
    rcases hsplit i hi with h | h
    · subst h
      exact hgood
    · exact hG.pl_good i h
  · intro i j hi hj hne himg
    rcases hsplit i hi with h1 | h1 <;> rcases hsplit j hj with h2 | h2
    · subst h1; subst h2
      exact absurd rfl hne
    · subst h1
      exact hdp j h2 himg
    · subst h2
      exact (hdp i h1 himg.symm).symm
    · exact hG.pl_pl i j h1 h2 hne himg
  · intro i hi r hr himg
    rcases hsplit i hi with h1 | h1
    · subst h1
      exact hdr r hr himg
    · exact hG.pl_reg i h1 r hr himg


/-- `GoodPlace` survives growing the images (monotone transport). -/
theorem GoodPlace_grow {st st2 : SState} {a : CFitArea}
    (hcnt : st.outImageCount ≤ st2.outImageCount)
    (himgs : ∀ k : Nat, k < st.outImageCount.toNat →
      (st.outImages.getD k dImg).width ≤ (st2.outImages.getD k dImg).width ∧
      (st.outImages.getD k dImg).height ≤ (st2.outImages.getD k dImg).height)
    (hG : GoodPlace st a) : GoodPlace st2 a := by
  have hk : a.outImage.toNat < st.outImageCount.toNat := by
    have := hG.hi0
    have := hG.hic
    omega
  refine ⟨hG.hx, hG.hy, hG.hi0, ?_, ?_, ?_⟩
  · have := hG.hic
    omega
  · have := (himgs a.outImage.toNat hk).1
    have := hG.hw
    unfold imgAt at *
    omega
  · have := (himgs a.outImage.toNat hk).2
    have := hG.hh
    unfold imgAt at *
    omega

/-- Unwinding a synthesized output image (the `WasOutImageAdded` branch of
the trial epilogue, lines 1787-1792): un-link its region and decrement the
image count. -/
theorem GInv_unwind {arr0 : Array CFitArea} {aId prevPos : Nat} {st : SState}
    (hG : GInv arr0 [aId] st) (hex : WExtra aId prevPos st) :
    GInv arr0 [aId] { st with
      outChain := st.outChain.eraseIdx prevPos
      outImageCount := st.outImageCount - 1 } := by
  have hc1 := hex.cnt1
  refine ⟨hG.sz, hG.dims, hG.unfit, hG.nodup, by dsimp only; omega, ?_, ?_, ?_, ?_,
    ?_, ?_, hG.pl_pl, ?_, pairwise_eraseIdx prevPos hG.reg_reg, hG.pub⟩
  · have := hG.cntsz
    dsimp only
    omega
  · intro k h0 hk
    dsimp only at hk
    exact hG.imgs_nn k h0 (by omega)
  · intro k h0 hk
    dsimp only at hk
    exact hG.imgs_sz k h0 (by omega)
  · dsimp only
    have hsucc : st.outImageCount.toNat = (st.outImageCount - 1).toNat + 1 := by
      omega
    have hzero : (st.outImages.getD (st.outImageCount - 1).toNat dImg).size = 0 := by
      have := hex.slot
      unfold imgAt at this
      rw [this]
      rfl
    rw [hG.osum, hsucc, Finset.sum_range_succ, hzero, add_zero]
  · intro r hr
    have h1 := hG.reg_wf r (mem_of_mem_eraseIdx hr)
    have h2 := hex.regs r hr
    exact ⟨h1.1, h1.2.1, h1.2.2.1, h2⟩
  · intro i hi
    have hi' : placedIdx [aId] st i := hi
    have hgp := hG.pl_good i hi'
    exact ⟨hgp.hx, hgp.hy, hgp.hi0, hex.pls i hi', hgp.hw, hgp.hh⟩
  · intro i hi r hr himg
    exact hG.pl_reg i hi r (mem_of_mem_eraseIdx hr) himg

/-- Folding chain erasures preserves the invariant. -/
theorem GInv_chainFold {arr0 : Array CFitArea} {dead : List Nat} :
    ∀ (l : List Nat) (st : SState), GInv arr0 dead st →
      GInv arr0 dead { st with
        outChain := l.foldl (fun ch p => ch.eraseIdx p) st.outChain }
  | [], st, hG => hG
  | p :: l, st, hG =>
    GInv_chainFold l { st with outChain := st.outChain.eraseIdx p }
      (GInv_chainErase p hG)

/-- Removing any set of recorded children preserves the invariant. -/
theorem GInv_removeChildren {arr0 : Array CFitArea} {dead : List Nat}
    (ps : List Nat) {st : SState} (hG : GInv arr0 dead st) :
    GInv arr0 dead { st with outChain := removeChildren ps st.outChain } :=
  GInv_chainFold ps.reverse st hG

/-- Removing the configuration-1 children restores the chain they were
inserted into. -/
theorem removeChildren_insertConfig1 (host : COutArea)
    (aW aH minW minH remR remB : Int) (chain : List COutArea) :
    removeChildren (insertConfig1 host aW aH minW minH remR remB chain).1
      (insertConfig1 host aW aH minW minH remR remB chain).2 = chain := by
  unfold insertConfig1 removeChildren
  by_cases h1 : remR ≥ minW ∧ host.height ≥ minH <;>
    by_cases h2 : aW ≥ minW ∧ remB ≥ minH <;>
      simp [h1, h2, insertOutArea_erase]

/-- Removing the configuration-2 children restores the chain they were
inserted into. -/
theorem removeChildren_insertConfig2 (host : COutArea)
    (aW aH minW minH remR remB : Int) (chain : List COutArea) :
    removeChildren (insertConfig2 host aW aH minW minH remR remB chain).1
      (insertConfig2 host aW aH minW minH remR remB chain).2 = chain := by
  unfold insertConfig2 removeChildren
  by_cases h1 : remR ≥ minW ∧ aH ≥ minH <;>
    by_cases h2 : host.width ≥ minW ∧ remB ≥ minH <;>
      simp [h1, h2, insertOutArea_erase]


theorem size_writeImg (arr : Array COutImage) (i : Nat) (v : COutImage) :
    (writeImg arr i v).size =
      if i < arr.size then arr.size else arr.size + 1 := by
  unfold writeImg
  split
  · rw [Array.size_setD]
  · rw [Array.size_push]

/-- Synthesizing a new output image (lines 1505-1533): a zero-sized image
slot is claimed and a full-size free region on it is chained in; the
invariant holds and the `WExtra` facts are set up. -/
theorem GInv_synth {arr0 : Array CFitArea} {aId : Nat} {st : SState}
    (hG : GInv arr0 [aId] st) (r : COutArea)
    (hri : r.outImage = st.outImageCount) (hrx : r.x = 0) (hry : r.y = 0) :
    GInv arr0 [aId] { st with
      outChain := (insertOutArea st.outChain r).2
      outImages := writeImg st.outImages st.outImageCount.toNat dImg
      outImageCount := st.outImageCount + 1 } ∧
    WExtra aId (insertOutArea st.outChain r).1 { st with
      outChain := (insertOutArea st.outChain r).2
      outImages := writeImg st.outImages st.outImageCount.toNat dImg
      outImageCount := st.outImageCount + 1 } := by
  have hc0 := hG.cnt0
  have hcsz := hG.cntsz
  have hw : ∀ j, (writeImg st.outImages st.outImageCount.toNat dImg).getD j dImg =
      if j = st.outImageCount.toNat then dImg else st.outImages.getD j dImg :=
    fun j => getD_writeImg st.outImages st.outImageCount.toNat j dImg dImg hcsz
  constructor
  · refine ⟨hG.sz, hG.dims, hG.unfit, hG.nodup, by dsimp only; omega, ?_, ?_, ?_, ?_,
      ?_, ?_, hG.pl_pl, ?_, ?_, hG.pub⟩
    · dsimp only
      rw [size_writeImg]
      split <;> omega
    · intro k h0 hk
      dsimp only at hk
      unfold imgAt
      dsimp only
      rw [hw]
      split
      · exact ⟨le_refl 0, le_refl 0⟩
      · rename_i hne
        have hklt : k < st.outImageCount := by omega
        have := hG.imgs_nn k h0 hklt
        unfold imgAt at this
        exact this
    · intro k h0 hk
      dsimp only at hk
      unfold imgAt
      dsimp only
      rw [hw]
      split
      · rfl
      · rename_i hne
        have hklt : k < st.outImageCount := by omega
        have := hG.imgs_sz k h0 hklt
        unfold imgAt at this
        exact this
    · dsimp only
      have hsucc : (st.outImageCount + 1).toNat = st.outImageCount.toNat + 1 := by
        omega
      rw [hsucc, Finset.sum_range_succ]
      have hz : (writeImg st.outImages st.outImageCount.toNat dImg).getD
          st.outImageCount.toNat dImg = dImg := by
        rw [hw, if_pos rfl]
      rw [hz]
      have hrest : ∑ k ∈ Finset.range st.outImageCount.toNat,
          ((writeImg st.outImages st.outImageCount.toNat dImg).getD k dImg).size =
          ∑ k ∈ Finset.range st.outImageCount.toNat,
            (st.outImages.getD k dImg).size := by
        refine Finset.sum_congr rfl ?_
        intro k hk
        rw [hw, if_neg (by have := Finset.mem_range.mp hk; omega)]
      rw [hrest]
      have hdz : dImg.size = 0 := rfl
      rw [hdz, add_zero]
      exact hG.osum
    · intro s hs
      dsimp only at hs
      rw [insertOutArea_mem] at hs
      dsimp only
      rcases hs with h1 | h1
      · subst h1
        rw [hri, hrx, hry]
        exact ⟨le_refl 0, le_refl 0, hc0, by omega⟩
      · have := hG.reg_wf s h1
        exact ⟨this.1, this.2.1, this.2.2.1, by omega⟩
    · intro i hi
      have hi' : placedIdx [aId] st i := hi
      refine GoodPlace_congr ?_ ?_ (hG.pl_good i hi')
      · dsimp only
        omega
      · intro k hk
        dsimp only
        rw [hw, if_neg (by omega)]
    · intro i hi s hs himg
      have hi' : placedIdx [aId] st i := hi
      dsimp only at hs
      rw [insertOutArea_mem] at hs
      rcases hs with h1 | h1
      · subst h1
        have h2 := (hG.pl_good i hi').hic
        have himg' : (areaD st i).outImage = st.outImageCount := by
          rw [← hri]
          exact himg
        omega
      · exact hG.pl_reg i hi' s h1 himg
    · dsimp only
      rw [insertOutArea_snd]
      refine pairwise_insertIdx ?_ (insertOutArea_le _ _) ?_ hG.reg_reg
      · intro x y hxy himg
        exact (hxy himg.symm).symm
      · intro b hb himg
        have := (hG.reg_wf b hb).2.2.2
        rw [hri] at himg
        omega
  · refine ⟨by dsimp only; omega, ?_, ?_, ?_⟩
    · intro s hs
      dsimp only at hs ⊢
      rw [insertOutArea_erase] at hs
      have := (hG.reg_wf s hs).2.2.2
      omega
    · intro i hi
      have hi' : placedIdx [aId] st i := hi
      have h2 := (hG.pl_good i hi').hic
      show (areaD st i).outImage < st.outImageCount + 1 - 1
      omega
    · unfold imgAt
      dsimp only
      rw [show (st.outImageCount + 1 - 1 : Int) = st.outImageCount by omega]
      rw [hw, if_pos rfl]

/-- Committing a grown (or unchanged) image slot together with the
placement of the in-flight area preserves the invariant.  `fresh` is the
updated record of the in-flight area, given by its components. -/
theorem GInv_commit {arr0 : Array CFitArea} {aId : Nat} {st : SState}
    (hG : GInv arr0 [aId] st) (haid : aId < st.areas.size)
    (cur : COutArea) (hcm : cur ∈ st.outChain) (v : COutImage) (nsz : Int)
    (fresh : CFitArea)
    (hfw : fresh.width = (areaD st aId).width)
    (hfh : fresh.height = (areaD st aId).height)
    (hvw : (st.outImages.getD cur.outImage.toNat dImg).width ≤ v.width)
    (hvh : (st.outImages.getD cur.outImage.toNat dImg).height ≤ v.height)
    (hv0w : 0 ≤ v.width) (hv0h : 0 ≤ v.height)
    (hvsz : v.size = v.width * v.height)
    (hnsz : nsz = st.outSize + v.size -
      (st.outImages.getD cur.outImage.toNat dImg).size) :
    GInv arr0 [aId] { st with
      outImages := writeImg st.outImages cur.outImage.toNat v
      outSize := nsz
      areas := st.areas.setD aId fresh } := by
  have hcwf := hG.reg_wf cur hcm
  have hc0 := hG.cnt0
  have hcsz := hG.cntsz
  have hslotlt : cur.outImage.toNat < st.outImageCount.toNat := by omega
  have hslotle : cur.outImage.toNat ≤ st.outImages.size := by omega
  have hwp : ∀ j, (writeImg st.outImages cur.outImage.toNat v).getD j dImg =
      if j = cur.outImage.toNat then v else st.outImages.getD j dImg :=
    fun j => getD_writeImg _ _ _ _ _ hslotle
  have haeq : ∀ m, m ≠ aId →
      (st.areas.setD aId fresh).getD m dArea = st.areas.getD m dArea := by
    intro m hm
    rw [getD_setD, if_neg (by tauto)]
  refine ⟨?_, ?_, ?_, hG.nodup, hG.cnt0, ?_, ?_, ?_, ?_, ?_, ?_, ?_, ?_,
    hG.reg_reg, hG.pub⟩
  · dsimp only
    rw [Array.size_setD]
    exact hG.sz
  · intro i
    unfold areaD
    dsimp only
    rw [getD_setD]
    split
    · rename_i hcond
      rw [show fresh.width = (areaD st aId).width from hfw,
        show fresh.height = (areaD st aId).height from hfh, hcond.1]
      exact hG.dims aId
    · exact hG.dims i
  · intro i hi
    dsimp only at hi ⊢
    rw [Array.size_setD]
    exact hG.unfit i hi
  · dsimp only
    rw [size_writeImg]
    split <;> omega
  · intro k h0 hk
    dsimp only at hk
    unfold imgAt
    dsimp only
    rw [hwp]
    split
    · exact ⟨hv0w, hv0h⟩
    · have h1 := hG.imgs_nn k h0 hk
      unfold imgAt at h1
      exact h1
  · intro k h0 hk
    dsimp only at hk
    unfold imgAt
    dsimp only
    rw [hwp]
    split
    · exact hvsz
    · have h1 := hG.imgs_sz k h0 hk
      unfold imgAt at h1
      exact h1
  · dsimp only
    have hcong : ∀ k, k < st.outImageCount.toNat → k ≠ cur.outImage.toNat →
        ((writeImg st.outImages cur.outImage.toNat v).getD k dImg).size =
        (st.outImages.getD k dImg).size := by
      intro k hk hkne
      rw [hwp, if_neg hkne]
    have hupd := sum_range_update st.outImageCount.toNat cur.outImage.toNat
      (fun k => (st.outImages.getD k dImg).size)
      (fun k => ((writeImg st.outImages cur.outImage.toNat v).getD k
        dImg).size)
      hslotlt hcong
    rw [hupd]
    dsimp only
    rw [← hG.osum, hwp, if_pos rfl, hnsz]
    ring
  · intro r hr
    exact hG.reg_wf r hr
  · intro i hi
    have hine : i ≠ aId := by simpa using hi.2.2
    have hi' : placedIdx [aId] st i := by
      refine ⟨?_, hi.2.1, hi.2.2⟩
      have h1 := hi.1
      dsimp only at h1
      rw [Array.size_setD] at h1
      exact h1
    have h2 : areaD { st with
        outImages := writeImg st.outImages cur.outImage.toNat v
        outSize := nsz
        areas := st.areas.setD aId fresh } i = areaD st i := haeq i hine
    rw [h2]
    refine GoodPlace_grow ?_ ?_ (hG.pl_good i hi')
    · exact le_refl _
    · intro k hk
      dsimp only
      rw [hwp]
      split
      · rename_i hke
        rw [hke]
        exact ⟨hvw, hvh⟩
      · exact ⟨le_refl _, le_refl _⟩
  · intro i j hi hj hne
    have hine : i ≠ aId := by simpa using hi.2.2
    have hjne : j ≠ aId := by simpa using hj.2.2
    have h2 : ∀ m, m ≠ aId → areaD { st with
        outImages := writeImg st.outImages cur.outImage.toNat v
        outSize := nsz
        areas := st.areas.setD aId fresh } m = areaD st m :=
      fun m hm => haeq m hm
    rw [h2 i hine, h2 j hjne]
    refine hG.pl_pl i j ?_ ?_ hne
    · refine ⟨?_, hi.2.1, hi.2.2⟩
      have h1 := hi.1
      dsimp only at h1
      rw [Array.size_setD] at h1
      exact h1
    · refine ⟨?_, hj.2.1, hj.2.2⟩
      have h1 := hj.1
      dsimp only at h1
      rw [Array.size_setD] at h1
      exact h1
  · intro i hi r hr
    have hine : i ≠ aId := by simpa using hi.2.2
    have h2 : areaD { st with
        outImages := writeImg st.outImages cur.outImage.toNat v
        outSize := nsz
        areas := st.areas.setD aId fresh } i = areaD st i := haeq i hine
    rw [h2]
    refine hG.pl_reg i ?_ r hr
    refine ⟨?_, hi.2.1, hi.2.2⟩
    have h1 := hi.1
    dsimp only at h1
    rw [Array.size_setD] at h1
    exact h1

/-- The accepted-placement step of a trial (lines 1552-1566): the invariant
for the committed state, goodness and disjointness of the fresh placement,
and the save/restore bookkeeping of `checkAreaFitAgainstBest`. -/
theorem commit_place {arr0 : Array CFitArea} {aId prevPos : Nat} {st : SState}
    {cur : COutArea} {maxS tried : Int}
    (hG : GInv arr0 [aId] st) (haid : aId < st.areas.size)
    (hcur : st.outChain.get? prevPos = some cur)
    (hremR : (areaD st aId).width ≤ cur.width)
    (hremB : (areaD st aId).height ≤ cur.height)
    {chk : CheckFit}
    (hchk : chk = checkAreaFitAgainstBest (cur.x + (areaD st aId).width)
      (cur.y + (areaD st aId).height)
      (st.outImages.getD cur.outImage.toNat dImg) false dImg 0
      st.outSize st.bestOutSize maxS tried)
    (hok : chk.ok = true)
    (fresh : CFitArea)
    (hfw : fresh.width = (areaD st aId).width)
    (hfh : fresh.height = (areaD st aId).height)
    (hfi : fresh.outImage = cur.outImage)
    (hfx : fresh.outX = cur.x)
    (hfy : fresh.outY = cur.y) :
    GInv arr0 [aId] { st with
      outImages := writeImg st.outImages cur.outImage.toNat chk.outImage
      outSize := chk.outSize
      areas := st.areas.setD aId fresh } ∧
    areaD { st with
      outImages := writeImg st.outImages cur.outImage.toNat chk.outImage
      outSize := chk.outSize
      areas := st.areas.setD aId fresh } aId = fresh ∧
    GoodPlace { st with
      outImages := writeImg st.outImages cur.outImage.toNat chk.outImage
      outSize := chk.outSize
      areas := st.areas.setD aId fresh } fresh ∧
    aPts fresh ⊆ rPts cur ∧
    (∀ j, placedIdx [aId] { st with
        outImages := writeImg st.outImages cur.outImage.toNat chk.outImage
        outSize := chk.outSize
        areas := st.areas.setD aId fresh } j →
      fresh.outImage = (areaD st j).outImage →
      Disjoint (aPts fresh) (aPts (areaD st j))) ∧
    (∀ s ∈ st.outChain.eraseIdx prevPos, fresh.outImage = s.outImage →
      Disjoint (aPts fresh) (rPts s)) ∧
    (∀ k : Nat, k < st.outImageCount.toNat → k ≠ cur.outImage.toNat →
      (writeImg st.outImages cur.outImage.toNat chk.outImage).getD k dImg =
        st.outImages.getD k dImg) ∧
    (chk.doOutImageRestore = true →
      chk.outImageSave = st.outImages.getD cur.outImage.toNat dImg ∧
      chk.outSizeSave = st.outSize) ∧
    (chk.doOutImageRestore = false →
      chk.outImage = st.outImages.getD cur.outImage.toNat dImg ∧
      chk.outSize = st.outSize) := by
  obtain ⟨c1, c2, c3, c4⟩ := checkAreaFit_cases (cur.x + (areaD st aId).width)
    (cur.y + (areaD st aId).height)
    (st.outImages.getD cur.outImage.toNat dImg) false dImg 0
    st.outSize st.bestOutSize maxS tried
  have hcm : cur ∈ st.outChain := List.get?_mem hcur
  have hcwf := hG.reg_wf cur hcm
  have hc0 := hG.cnt0
  have hcsz := hG.cntsz
  have himg0 := hG.imgs_nn cur.outImage hcwf.2.2.1 hcwf.2.2.2
  have himgsz := hG.imgs_sz cur.outImage hcwf.2.2.1 hcwf.2.2.2
  have himgat : imgAt st cur.outImage =
      st.outImages.getD cur.outImage.toNat dImg := rfl
  rw [himgat] at himg0 himgsz
  have hslotle : cur.outImage.toNat ≤ st.outImages.size := by omega
  have hcore : GInv arr0 [aId] { st with
      outImages := writeImg st.outImages cur.outImage.toNat chk.outImage
      outSize := chk.outSize
      areas := st.areas.setD aId fresh } ∧
      cur.x + (areaD st aId).width ≤ chk.outImage.width ∧
      cur.y + (areaD st aId).height ≤ chk.outImage.height ∧
      (chk.doOutImageRestore = true →
        chk.outImageSave = st.outImages.getD cur.outImage.toNat dImg ∧
        chk.outSizeSave = st.outSize) ∧
      (chk.doOutImageRestore = false →
        chk.outImage = st.outImages.getD cur.outImage.toNat dImg ∧
        chk.outSize = st.outSize) := by
    by_cases hg : cur.x + (areaD st aId).width >
        (st.outImages.getD cur.outImage.toNat dImg).width ∨
        cur.y + (areaD st aId).height >
        (st.outImages.getD cur.outImage.toNat dImg).height
    · by_cases hs : (if cur.x + (areaD st aId).width >
          (st.outImages.getD cur.outImage.toNat dImg).width then
            cur.x + (areaD st aId).width
          else (st.outImages.getD cur.outImage.toNat dImg).width) *
          (if cur.y + (areaD st aId).height >
            (st.outImages.getD cur.outImage.toNat dImg).height then
            cur.y + (areaD st aId).height
          else (st.outImages.getD cur.outImage.toNat dImg).height) > maxS
      · rw [hchk, c1 hg hs] at hok
        exact absurd hok (by simp)
      · by_cases hb : st.outSize +
            (if cur.x + (areaD st aId).width >
              (st.outImages.getD cur.outImage.toNat dImg).width then
                cur.x + (areaD st aId).width
              else (st.outImages.getD cur.outImage.toNat dImg).width) *
              (if cur.y + (areaD st aId).height >
                (st.outImages.getD cur.outImage.toNat dImg).height then
                cur.y + (areaD st aId).height
              else (st.outImages.getD cur.outImage.toNat dImg).height) -
            (st.outImages.getD cur.outImage.toNat dImg).size ≥
            st.bestOutSize
        · rw [hchk, c2 hg hs hb] at hok
          exact absurd hok (by simp)
        · have hchk3 := hchk.trans (c3 hg hs hb)
          subst hchk3
          refine ⟨?_, ?_, ?_, fun _ => ⟨rfl, rfl⟩, fun hf => absurd hf
            (by simp)⟩
          · refine GInv_commit hG haid cur hcm _ _ fresh hfw hfh ?_ ?_ ?_ ?_
              ?_ ?_
            all_goals first
              | rfl
              | ((try dsimp only); first | (split <;> omega) | ring)
          · dsimp only
            split <;> omega
          · dsimp only
            split <;> omega
    · have hchk4 := hchk.trans (c4 hg)
      subst hchk4
      push_neg at hg
      refine ⟨?_, by dsimp only; omega, by dsimp only; omega,
        fun hf => absurd hf (by simp), fun _ => ⟨rfl, rfl⟩⟩
      refine GInv_commit hG haid cur hcm _ _ fresh hfw hfh (le_refl _)
        (le_refl _) himg0.1 himg0.2 himgsz ?_
      dsimp only
      ring
  obtain ⟨hGI, hfitw, hfith, hrt, hrf⟩ := hcore
  have hwp : ∀ j, (writeImg st.outImages cur.outImage.toNat
      chk.outImage).getD j dImg =
      if j = cur.outImage.toNat then chk.outImage
      else st.outImages.getD j dImg :=
    fun j => getD_writeImg _ _ _ _ _ hslotle
  have hfd : areaD { st with
      outImages := writeImg st.outImages cur.outImage.toNat chk.outImage
      outSize := chk.outSize
      areas := st.areas.setD aId fresh } aId = fresh := by
    unfold areaD
    dsimp only
    rw [getD_setD, if_pos ⟨rfl, haid⟩]
  have hsub : aPts fresh ⊆ rPts cur := by
    unfold aPts rPts
    rw [hfx, hfy, hfw, hfh]
    exact pts_subset (le_refl _) (by omega) (le_refl _) (by omega)
  refine ⟨hGI, hfd, ?_, hsub, ?_, ?_, ?_, hrt, hrf⟩
  · refine ⟨?_, ?_, ?_, ?_, ?_, ?_⟩
    · rw [hfx]
      exact hcwf.1
    · rw [hfy]
      exact hcwf.2.1
    · rw [hfi]
      exact hcwf.2.2.1
    · rw [hfi]
      exact hcwf.2.2.2
    · rw [hfx, hfw, hfi]
      show cur.x + (areaD st aId).width ≤
        ((writeImg st.outImages cur.outImage.toNat chk.outImage).getD
          cur.outImage.toNat dImg).width
      rw [hwp, if_pos rfl]
      exact hfitw
    · rw [hfy, hfh, hfi]
      show cur.y + (areaD st aId).height ≤
        ((writeImg st.outImages cur.outImage.toNat chk.outImage).getD
          cur.outImage.toNat dImg).height
      rw [hwp, if_pos rfl]
      exact hfith
  · intro j hj himg
    have hjne : j ≠ aId := by simpa using hj.2.2
    have hj' : placedIdx [aId] st j := by
      refine ⟨?_, hj.2.1, hj.2.2⟩
      have h1 := hj.1
      dsimp only at h1
      rw [Array.size_setD] at h1
      exact h1
    rw [hfi] at himg
    have hd := (hG.pl_reg j hj' cur hcm himg.symm).symm
    exact hd.mono_left hsub
  · intro s hs himg
    rw [hfi] at himg
    have hrel := pairwise_rel_eraseIdx
      (fun a b h hab => (h hab.symm).symm) st.outChain prevPos cur
      hG.reg_reg hcur s hs
    exact (hrel himg).mono_left hsub
  · intro k hk hkne
    rw [hwp, if_neg hkne]

/-- The counting argument: when every area is placed, the summed input
area is at most the summed image size, because placements are pairwise
disjoint lattice-point sets inside their images. -/
theorem sumAreas_le_outSize {arr0 : Array CFitArea} {dead : List Nat}
    {st : SState} (hG : GInv arr0 dead st)
    (hnn : ∀ i : Nat, 0 ≤ (arr0.getD i dArea).width ∧
      0 ≤ (arr0.getD i dArea).height)
    (hall : ∀ i, i < st.areas.size → GoodPlace st (areaD st i))
    (halldp : ∀ i j, i < st.areas.size → j < st.areas.size → i ≠ j →
      (areaD st i).outImage = (areaD st j).outImage →
      Disjoint (aPts (areaD st i)) (aPts (areaD st j))) :
    sumAreas st.areas.toList ≤ st.outSize := by
  classical
  have hwnn : ∀ i, 0 ≤ (areaD st i).width ∧ 0 ≤ (areaD st i).height := by
    intro i
    rw [(hG.dims i).1, (hG.dims i).2]
    exact hnn i
  have hlen : st.areas.toList.length = st.areas.size := Array.length_toList
  have h1 : sumAreas st.areas.toList = ∑ i ∈ Finset.range st.areas.size,
      (areaD st i).width * (areaD st i).height := by
    rw [sumAreas_eq_range, hlen]
    refine Finset.sum_congr rfl ?_
    intro i hi
    rw [toList_getD]
    rfl
  have hmaps : ∀ i ∈ Finset.range st.areas.size,
      (areaD st i).outImage.toNat ∈ Finset.range st.outImageCount.toNat := by
    intro i hi
    have hgp := hall i (Finset.mem_range.mp hi)
    have h2 := hgp.hi0
    have h3 := hgp.hic
    exact Finset.mem_range.mpr (by omega)
  have hpart := Finset.sum_fiberwise_of_maps_to hmaps
    (fun i => (areaD st i).width * (areaD st i).height)
  rw [h1, ← hpart, hG.osum]
  refine Finset.sum_le_sum ?_
  intro k hk
  have hkc : k < st.outImageCount.toNat := Finset.mem_range.mp hk
  have hk0 : (0 : Int) ≤ (k : Int) := Int.natCast_nonneg k
  have hklt : (k : Int) < st.outImageCount := by omega
  have hWnn := hG.imgs_nn (k : Int) hk0 hklt
  have hWsz := hG.imgs_sz (k : Int) hk0 hklt
  have himgk : imgAt st (k : Int) = st.outImages.getD k dImg := rfl
  have hdisj : ∀ i ∈ (Finset.range st.areas.size).filter
      (fun i => (areaD st i).outImage.toNat = k),
      ∀ j ∈ (Finset.range st.areas.size).filter
      (fun i => (areaD st i).outImage.toNat = k), i ≠ j →
      Disjoint (aPts (areaD st i)) (aPts (areaD st j)) := by
    intro i hi j hj hne
    obtain ⟨hi1, hi2⟩ := Finset.mem_filter.mp hi
    obtain ⟨hj1, hj2⟩ := Finset.mem_filter.mp hj
    have hii := (hall i (Finset.mem_range.mp hi1)).hi0
    have hjj := (hall j (Finset.mem_range.mp hj1)).hi0
    refine halldp i j (Finset.mem_range.mp hi1)
      (Finset.mem_range.mp hj1) hne ?_
    omega
  have hcard := Finset.card_biUnion hdisj
  have hsub : ((Finset.range st.areas.size).filter
      (fun i => (areaD st i).outImage.toNat = k)).biUnion
      (fun i => aPts (areaD st i)) ⊆
      pts 0 0 (imgAt st (k : Int)).width (imgAt st (k : Int)).height := by
    intro q hq
    obtain ⟨i, hi, hqi⟩ := Finset.mem_biUnion.mp hq
    obtain ⟨hi1, hi2⟩ := Finset.mem_filter.mp hi
    have hgp := hall i (Finset.mem_range.mp hi1)
    have hieq : (areaD st i).outImage = (k : Int) := by
      have := hgp.hi0
      omega
    have hw := hgp.hw
    have hh := hgp.hh
    rw [hieq] at hw hh
    refine pts_subset hgp.hx (by omega) hgp.hy (by omega) hqi
  have hle := Finset.card_le_card hsub
  rw [card_pts, hcard] at hle
  have hgc : ∀ i ∈ (Finset.range st.areas.size).filter
      (fun i => (areaD st i).outImage.toNat = k),
      (areaD st i).width * (areaD st i).height =
      ((aPts (areaD st i)).card : Int) := by
    intro i hi
    unfold aPts
    rw [card_pts, Nat.cast_mul, Int.toNat_of_nonneg (hwnn i).1,
      Int.toNat_of_nonneg (hwnn i).2]
  rw [Finset.sum_congr rfl hgc]
  have h4 : (∑ i ∈ (Finset.range st.areas.size).filter
      (fun i => (areaD st i).outImage.toNat = k),
      ((aPts (areaD st i)).card : Int)) =
      ((∑ i ∈ (Finset.range st.areas.size).filter
      (fun i => (areaD st i).outImage.toNat = k),
      (aPts (areaD st i)).card : Nat) : Int) := by
    push_cast
    rfl
  rw [h4, ← himgk]
  rw [hWsz]
  calc ((∑ i ∈ (Finset.range st.areas.size).filter
      (fun i => (areaD st i).outImage.toNat = k),
      (aPts (areaD st i)).card : Nat) : Int)
      ≤ (((imgAt st (k : Int)).width.toNat *
        (imgAt st (k : Int)).height.toNat : Nat) : Int) := by
        exact_mod_cast hle
    _ = (imgAt st (k : Int)).width * (imgAt st (k : Int)).height := by
        rw [Nat.cast_mul, Int.toNat_of_nonneg hWnn.1,
          Int.toNat_of_nonneg hWnn.2]

/-- The publication block (lines 1568-1608) preserves the invariant: if it
publishes, the published best is geometrically sound; otherwise the local
bounds are refreshed and the stored best is untouched. -/
theorem publishBest_inv {arr0 : Array CFitArea} {aId : Nat} {st : SState}
    (hG : GInv arr0 [aId] st)
    (hnn : ∀ i : Nat, 0 ≤ (arr0.getD i dArea).width ∧
      0 ≤ (arr0.getD i dArea).height)
    (hunf : st.unfitted = []) (haid : aId < st.areas.size)
    (hgood : GoodPlace st (areaD st aId))
    (hdp : ∀ j, placedIdx [aId] st j →
      (areaD st aId).outImage = (areaD st j).outImage →
      Disjoint (aPts (areaD st aId)) (aPts (areaD st j))) :
    GInv arr0 [aId] (publishBest st) := by
  classical
  have hall : ∀ i, i < st.areas.size → GoodPlace st (areaD st i) := by
    intro i hi
    by_cases he : i = aId
    · rw [he]
      exact hgood
    · refine hG.pl_good i ⟨hi, ?_, by simpa using he⟩
      rw [hunf]
      simp
  have halldp : ∀ i j, i < st.areas.size → j < st.areas.size → i ≠ j →
      (areaD st i).outImage = (areaD st j).outImage →
      Disjoint (aPts (areaD st i)) (aPts (areaD st j)) := by
    intro i j hi hj hne himg
    by_cases hei : i = aId
    · by_cases hej : j = aId
      · rw [hei, hej] at hne
        exact absurd rfl hne
      · rw [hei] at himg ⊢
        refine hdp j ⟨hj, ?_, by simpa using hej⟩ himg
        rw [hunf]
        simp
    · by_cases hej : j = aId
      · rw [hej] at himg ⊢
        refine (hdp i ⟨hi, ?_, by simpa using hei⟩ himg.symm).symm
        rw [hunf]
        simp
      · refine hG.pl_pl i j ⟨hi, ?_, by simpa using hei⟩
          ⟨hj, ?_, by simpa using hej⟩ hne himg <;>
          (rw [hunf]; simp)
  have harle := sumAreas_le_outSize hG hnn hall halldp
  have hlen : st.areas.toList.length = st.areas.size := Array.length_toList
  have hget : ∀ (i : Nat) (h : i < st.areas.toList.length),
      st.areas.toList.get ⟨i, h⟩ = areaD st i := by
    intro i h
    have h2 : i < st.areas.size := by omega
    unfold areaD
    rw [Array.getD_eq_get?, Array.getElem?_eq_getElem h2]
    simp [List.get_eq_getElem, Array.getElem_toList]
  have hpgood : PubGood arr0 st.outSize st.areas
      (takeImgs st.outImages st.outImageCount.toNat) := by
    refine ⟨hG.sz, ?_, ?_, ?_, ?_, ?_, harle⟩
    · intro a ha
      obtain ⟨i, hi, heq⟩ := (mem_toList_iff st.areas a dArea).mp ha
      have hg := hall i hi
      rw [show st.areas.getD i dArea = areaD st i from rfl] at heq
      subst heq
      have h1 := hg.hi0
      have h2 := hg.hic
      have h3 := hG.cnt0
      refine ⟨hg.hx, hg.hy, h1, ?_, ?_, ?_⟩
      · rw [takeImgs_size]
        omega
      · rw [takeImgs_getD _ _ _ (by omega)]
        exact hg.hw
      · rw [takeImgs_getD _ _ _ (by omega)]
        exact hg.hh
    · rw [List.pairwise_iff_get]
      intro i j hij himg
      have hi2 : (i : Nat) < st.areas.size := by
        have := i.isLt
        omega
      have hj2 : (j : Nat) < st.areas.size := by
        have := j.isLt
        omega
      rw [hget i i.isLt, hget j j.isLt] at himg ⊢
      exact halldp i j hi2 hj2 (by omega) himg
    · intro im him
      obtain ⟨k, hk, heq⟩ := (mem_toList_iff _ im dImg).mp him
      rw [takeImgs_size] at hk
      rw [takeImgs_getD _ _ _ hk] at heq
      subst heq
      have hk0 : (0 : Int) ≤ (k : Int) := Int.natCast_nonneg k
      have hklt : (k : Int) < st.outImageCount := by omega
      have h1 := hG.imgs_sz (k : Int) hk0 hklt
      have h2 := hG.imgs_nn (k : Int) hk0 hklt
      exact ⟨h1, h2.1, h2.2⟩
    · rw [sumSizes_eq_range]
      have hl : (takeImgs st.outImages st.outImageCount.toNat).toList.length =
          st.outImageCount.toNat := by
        rw [Array.length_toList, takeImgs_size]
      rw [hl, hG.osum]
      refine Finset.sum_congr rfl ?_
      intro k hk
      have hk2 := Finset.mem_range.mp hk
      rw [toList_getD, takeImgs_getD _ _ _ hk2]
      have hk0 : (0 : Int) ≤ (k : Int) := Int.natCast_nonneg k
      have hklt : (k : Int) < st.outImageCount := by omega
      exact hG.imgs_sz (k : Int) hk0 hklt
    · rw [sumAreas_eq_range, sumAreas_eq_range, Array.length_toList,
        Array.length_toList, hG.sz]
      refine Finset.sum_congr rfl ?_
      intro i hi
      rw [toList_getD, toList_getD]
      have h1 := (hG.dims i).1
      have h2 := (hG.dims i).2
      unfold areaD at h1 h2
      rw [h1, h2]
  unfold publishBest
  split
  · refine GInv_congr hG rfl rfl (fun i => ⟨rfl, rfl⟩) (fun i _ _ => rfl)
      rfl rfl rfl (fun k _ => rfl) (le_refl _) ?_
    exact Or.inr hpgood
  · refine GInv_congr hG rfl rfl (fun i => ⟨rfl, rfl⟩) (fun i _ _ => rfl)
      rfl rfl rfl (fun k _ => rfl) (le_refl _) ?_
    exact hG.pub

/-- Marking one more area dead only weakens the invariant. -/
theorem GInv_dead_weaken {arr0 : Array CFitArea} {aId : Nat} {st : SState}
    (hG : GInv arr0 [] st) : GInv arr0 [aId] st := by
  have hsub : ∀ i, placedIdx [aId] st i → placedIdx [] st i := by
    intro i hi
    exact ⟨hi.1, hi.2.1, by simp⟩
  refine ⟨hG.sz, hG.dims, hG.unfit, hG.nodup, hG.cnt0, hG.cntsz, hG.imgs_nn,
    hG.imgs_sz, hG.osum, hG.reg_wf, ?_, ?_, ?_, hG.reg_reg, hG.pub⟩
  · intro i hi
    exact hG.pl_good i (hsub i hi)
  · intro i j hi hj hne
    exact hG.pl_pl i j (hsub i hi) (hsub j hj) hne
  · intro i hi
    exact hG.pl_reg i (hsub i hi)

/-- Inserting a well-formed disjoint region at an arbitrary chain position
preserves the invariant. -/
theorem GInv_chainInsertIdx {arr0 : Array CFitArea} {dead : List Nat}
    {st : SState} (a : COutArea) (n : Nat) (hn : n ≤ st.outChain.length)
    (hG : GInv arr0 dead st)
    (hwf : 0 ≤ a.x ∧ 0 ≤ a.y ∧ 0 ≤ a.outImage ∧
      a.outImage < st.outImageCount)
    (hdp : ∀ i, placedIdx dead st i →
      (areaD st i).outImage = a.outImage →
      Disjoint (aPts (areaD st i)) (rPts a))
    (hdr : ∀ r ∈ st.outChain, a.outImage = r.outImage →
      Disjoint (rPts a) (rPts r)) :
    GInv arr0 dead { st with outChain := st.outChain.insertIdx n a } := by
  have hmem : ∀ r, r ∈ st.outChain.insertIdx n a → r = a ∨ r ∈ st.outChain :=
    fun r hr => (List.mem_insertIdx hn).mp hr
  refine ⟨hG.sz, hG.dims, hG.unfit, hG.nodup, hG.cnt0, hG.cntsz, hG.imgs_nn,
    hG.imgs_sz, hG.osum, ?_, ?_, hG.pl_pl, ?_, ?_, hG.pub⟩
  · intro r hr
    rcases hmem r hr with h1 | h1
    · subst h1
      exact hwf
    · exact hG.reg_wf r h1
  · intro i hi
    refine GoodPlace_congr ?_ ?_ (hG.pl_good i hi)
    · exact le_refl _
    · intro k _
      rfl
  · intro i hi r hr himg
    rcases hmem r hr with h1 | h1
    · subst h1
      exact hdp i hi himg
    · exact hG.pl_reg i hi r h1 himg
  · refine pairwise_insertIdx ?_ hn ?_ hG.reg_reg
    · intro x y hxy himg
      exact (hxy himg.symm).symm
    · intro b hb himg
      exact hdr b hb himg

/-- `WExtra` only depends on the state through the quantities below. -/
theorem WExtra_congr {aId prevPos : Nat} {st st2 : SState}
    (hunf : st2.unfitted = st.unfitted)
    (hsz : st2.areas.size = st.areas.size)
    (hpl : ∀ i, placedIdx [aId] st i →
      (areaD st2 i).outImage = (areaD st i).outImage)
    (hchain : st2.outChain = st.outChain)
    (hcnt : st2.outImageCount = st.outImageCount)
    (himgs : ∀ k : Nat, k < st.outImageCount.toNat →
      st2.outImages.getD k dImg = st.outImages.getD k dImg)
    (hex : WExtra aId prevPos st) : WExtra aId prevPos st2 := by
  have hc1 := hex.cnt1
  refine ⟨by omega, ?_, ?_, ?_⟩
  · intro r hr
    rw [hchain] at hr
    rw [hcnt]
    exact hex.regs r hr
  · intro i hi
    have h1 := hi.1
    have h2 := hi.2.1
    rw [hunf] at h2
    have hi' : placedIdx [aId] st i := ⟨by omega, h2, hi.2.2⟩
    rw [hcnt, hpl i hi']
    exact hex.pls i hi'
  · unfold imgAt
    rw [hcnt]
    rw [himgs (st.outImageCount - 1).toNat (by omega)]
    exact hex.slot

/-- Inserting the configuration-1 children (a right column and a bottom
strip under the placed area) preserves the invariant: both children lie
inside the host region `cur` and avoid the fresh placement. -/
theorem GInv_insertConfig1 {arr0 : Array CFitArea} {aId : Nat} {st : SState}
    (hG : GInv arr0 [] st) (cur : COutArea) (aW aH minW minH : Int)
    (haW : 0 ≤ aW) (haH : 0 ≤ aH)
    (haWle : aW ≤ cur.width) (haHle : aH ≤ cur.height)
    (hcwf : 0 ≤ cur.x ∧ 0 ≤ cur.y ∧ 0 ≤ cur.outImage ∧
      cur.outImage < st.outImageCount)
    (hfx : (areaD st aId).outX = cur.x) (hfy : (areaD st aId).outY = cur.y)
    (hfw : (areaD st aId).width = aW) (hfh : (areaD st aId).height = aH)
    (hdp : ∀ i, placedIdx [] st i → i ≠ aId →
      (areaD st i).outImage = cur.outImage →
      Disjoint (aPts (areaD st i)) (rPts cur))
    (hdr : ∀ r ∈ st.outChain, cur.outImage = r.outImage →
      Disjoint (rPts cur) (rPts r)) :
    GInv arr0 [] { st with
      outChain := (insertConfig1 cur aW aH minW minH (cur.width - aW)
        (cur.height - aH) st.outChain).2 } := by
  have hsub1 : rPts ⟨cur.outImage, cur.x + aW, cur.y, cur.width - aW,
      cur.height⟩ ⊆ rPts cur := by
    unfold rPts
    dsimp only
    exact pts_subset (by omega) (by omega) (by omega) (by omega)
  have hsub2 : rPts ⟨cur.outImage, cur.x, cur.y + aH, aW,
      cur.height - aH⟩ ⊆ rPts cur := by
    unfold rPts
    dsimp only
    exact pts_subset (by omega) (by omega) (by omega) (by omega)
  have hfsub : aPts (areaD st aId) =
      pts cur.x cur.y aW aH := by
    unfold aPts
    rw [hfx, hfy, hfw, hfh]
  have hd1 : ∀ i, placedIdx [] st i →
      (areaD st i).outImage = cur.outImage →
      Disjoint (aPts (areaD st i))
        (rPts ⟨cur.outImage, cur.x + aW, cur.y, cur.width - aW,
          cur.height⟩) := by
    intro i hi himg
    by_cases he : i = aId
    · rw [he, hfsub]
      unfold rPts
      exact pts_disjoint (by dsimp only; omega)
    · exact (hdp i hi he himg).mono_right hsub1
  have hd2 : ∀ i, placedIdx [] st i →
      (areaD st i).outImage = cur.outImage →
      Disjoint (aPts (areaD st i))
        (rPts ⟨cur.outImage, cur.x, cur.y + aH, aW,
          cur.height - aH⟩) := by
    intro i hi himg
    by_cases he : i = aId
    · rw [he, hfsub]
      unfold rPts
      exact pts_disjoint (by dsimp only; omega)
    · exact (hdp i hi he himg).mono_right hsub2
  have hdd : Disjoint
      (rPts ⟨cur.outImage, cur.x, cur.y + aH, aW, cur.height - aH⟩)
      (rPts ⟨cur.outImage, cur.x + aW, cur.y, cur.width - aW,
        cur.height⟩) := by
    unfold rPts
    exact pts_disjoint (by dsimp only; omega)
  unfold insertConfig1
  by_cases h1 : cur.width - aW ≥ minW ∧ cur.height ≥ minH <;>
    by_cases h2 : aW ≥ minW ∧ cur.height - aH ≥ minH <;>
      simp only [h1, h2, if_pos, if_neg, not_false_iff, and_true] <;>
      (try simp only [if_true]) <;> (try simp only [if_false]) <;>
      (try dsimp only)
  · refine GInv_chainInsert _ (GInv_chainInsert _ hG ?_ ?_ ?_) ?_ ?_ ?_
    · exact ⟨by (try dsimp only); omega, by (try dsimp only); omega,
        by (try dsimp only); omega, by (try dsimp only); omega⟩
    · intro i hi himg
      exact hd1 i hi himg
    · intro r hr himg
      exact ((hdr r hr (by simpa using himg)).mono_left hsub1).symm.symm
    · exact ⟨by (try dsimp only); omega, by (try dsimp only); omega,
        by (try dsimp only); omega, by (try dsimp only); omega⟩
    · intro i hi himg
      have hi' : placedIdx [] st i := ⟨by
          have h3 := hi.1
          dsimp only at h3
          exact h3, hi.2.1, hi.2.2⟩
      have haeq : areaD { st with
          outChain := (insertOutArea st.outChain
            ⟨cur.outImage, cur.x + aW, cur.y, cur.width - aW,
              cur.height⟩).2 } i = areaD st i := rfl
      rw [haeq] at himg ⊢
      exact hd2 i hi' himg
    · intro r hr himg
      rw [show ({ st with outChain := (insertOutArea st.outChain
          ⟨cur.outImage, cur.x + aW, cur.y, cur.width - aW,
            cur.height⟩).2 } : SState).outChain = (insertOutArea st.outChain
          ⟨cur.outImage, cur.x + aW, cur.y, cur.width - aW,
            cur.height⟩).2 from rfl, insertOutArea_mem] at hr
      rcases hr with h3 | h3
      · subst h3
        exact hdd
      · exact ((hdr r h3 (by simpa using himg)).mono_left hsub2)
  · refine GInv_chainInsert _ hG ?_ ?_ ?_
    · exact ⟨by (try dsimp only); omega, by (try dsimp only); omega,
        by (try dsimp only); omega, by (try dsimp only); omega⟩
    · intro i hi himg
      exact hd1 i hi himg
    · intro r hr himg
      exact ((hdr r hr (by simpa using himg)).mono_left hsub1)
  · refine GInv_chainInsert _ hG ?_ ?_ ?_
    · exact ⟨by (try dsimp only); omega, by (try dsimp only); omega,
        by (try dsimp only); omega, by (try dsimp only); omega⟩
    · intro i hi himg
      exact hd2 i hi himg
    · intro r hr himg
      exact ((hdr r hr (by simpa using himg)).mono_left hsub2)
  · exact hG

/-- Inserting the configuration-2 children (a short right column beside the
placed area and a full-width bottom strip) preserves the invariant. -/
theorem GInv_insertConfig2 {arr0 : Array CFitArea} {aId : Nat} {st : SState}
    (hG : GInv arr0 [] st) (cur : COutArea) (aW aH minW minH : Int)
    (haW : 0 ≤ aW) (haH : 0 ≤ aH)
    (haWle : aW ≤ cur.width) (haHle : aH ≤ cur.height)
    (hcwf : 0 ≤ cur.x ∧ 0 ≤ cur.y ∧ 0 ≤ cur.outImage ∧
      cur.outImage < st.outImageCount)
    (hfx : (areaD st aId).outX = cur.x) (hfy : (areaD st aId).outY = cur.y)
    (hfw : (areaD st aId).width = aW) (hfh : (areaD st aId).height = aH)
    (hdp : ∀ i, placedIdx [] st i → i ≠ aId →
      (areaD st i).outImage = cur.outImage →
      Disjoint (aPts (areaD st i)) (rPts cur))
    (hdr : ∀ r ∈ st.outChain, cur.outImage = r.outImage →
      Disjoint (rPts cur) (rPts r)) :
    GInv arr0 [] { st with
      outChain := (insertConfig2 cur aW aH minW minH (cur.width - aW)
        (cur.height - aH) st.outChain).2 } := by
  have hsub1 : rPts ⟨cur.outImage, cur.x + aW, cur.y, cur.width - aW,
      aH⟩ ⊆ rPts cur := by
    unfold rPts
    dsimp only
    exact pts_subset (by omega) (by omega) (by omega) (by omega)
  have hsub2 : rPts ⟨cur.outImage, cur.x, cur.y + aH, cur.width,
      cur.height - aH⟩ ⊆ rPts cur := by
    unfold rPts
    dsimp only
    exact pts_subset (by omega) (by omega) (by omega) (by omega)
  have hfsub : aPts (areaD st aId) =
      pts cur.x cur.y aW aH := by
    unfold aPts
    rw [hfx, hfy, hfw, hfh]
  have hd1 : ∀ i, placedIdx [] st i →
      (areaD st i).outImage = cur.outImage →
      Disjoint (aPts (areaD st i))
        (rPts ⟨cur.outImage, cur.x + aW, cur.y, cur.width - aW, aH⟩) := by
    intro i hi himg
    by_cases he : i = aId
    · rw [he, hfsub]
      unfold rPts
      exact pts_disjoint (by (try dsimp only); omega)
    · exact (hdp i hi he himg).mono_right hsub1
  have hd2 : ∀ i, placedIdx [] st i →
      (areaD st i).outImage = cur.outImage →
      Disjoint (aPts (areaD st i))
        (rPts ⟨cur.outImage, cur.x, cur.y + aH, cur.width,
          cur.height - aH⟩) := by
    intro i hi himg
    by_cases he : i = aId
    · rw [he, hfsub]
      unfold rPts
      exact pts_disjoint (by (try dsimp only); omega)
    · exact (hdp i hi he himg).mono_right hsub2
  have hdd : Disjoint
      (rPts ⟨cur.outImage, cur.x, cur.y + aH, cur.width, cur.height - aH⟩)
      (rPts ⟨cur.outImage, cur.x + aW, cur.y, cur.width - aW, aH⟩) := by
    unfold rPts
    exact pts_disjoint (by (try dsimp only); omega)
  unfold insertConfig2
  by_cases h1 : cur.width - aW ≥ minW ∧ aH ≥ minH <;>
    by_cases h2 : cur.width ≥ minW ∧ cur.height - aH ≥ minH <;>
      simp only [h1, h2, if_pos, if_neg, not_false_iff, and_true] <;>
      (try simp only [if_true]) <;> (try simp only [if_false]) <;>
      (try dsimp only)
  · refine GInv_chainInsert _ (GInv_chainInsert _ hG ?_ ?_ ?_) ?_ ?_ ?_
    · exact ⟨by (try dsimp only); omega, by (try dsimp only); omega,
        by (try dsimp only); omega, by (try dsimp only); omega⟩
    · intro i hi himg
      exact hd1 i hi himg
    · intro r hr himg
      exact ((hdr r hr (by simpa using himg)).mono_left hsub1)
    · exact ⟨by (try dsimp only); omega, by (try dsimp only); omega,
        by (try dsimp only); omega, by (try dsimp only); omega⟩
    · intro i hi himg
      have hi2 : placedIdx [] st i := ⟨by
          have h3 := hi.1
          dsimp only at h3
          exact h3, hi.2.1, hi.2.2⟩
      have haeq : areaD { st with
          outChain := (insertOutArea st.outChain
            ⟨cur.outImage, cur.x + aW, cur.y, cur.width - aW,
              aH⟩).2 } i = areaD st i := rfl
      rw [haeq] at himg ⊢
      exact hd2 i hi2 himg
    · intro r hr himg
      rw [show ({ st with outChain := (insertOutArea st.outChain
          ⟨cur.outImage, cur.x + aW, cur.y, cur.width - aW,
            aH⟩).2 } : SState).outChain = (insertOutArea st.outChain
          ⟨cur.outImage, cur.x + aW, cur.y, cur.width - aW,
            aH⟩).2 from rfl, insertOutArea_mem] at hr
      rcases hr with h3 | h3
      · subst h3
        exact hdd
      · exact ((hdr r h3 (by simpa using himg)).mono_left hsub2)
  · refine GInv_chainInsert _ hG ?_ ?_ ?_
    · exact ⟨by (try dsimp only); omega, by (try dsimp only); omega,
        by (try dsimp only); omega, by (try dsimp only); omega⟩
    · intro i hi himg
      exact hd1 i hi himg
    · intro r hr himg
      exact ((hdr r hr (by simpa using himg)).mono_left hsub1)
  · refine GInv_chainInsert _ hG ?_ ?_ ?_
    · exact ⟨by (try dsimp only); omega, by (try dsimp only); omega,
        by (try dsimp only); omega, by (try dsimp only); omega⟩
    · intro i hi himg
      exact hd2 i hi himg
    · intro r hr himg
      exact ((hdr r hr (by simpa using himg)).mono_left hsub2)
  · exact hG

/-- The initial state built by `fitAreas` satisfies the invariant: nothing
is placed, the seed images are zero-sized, one full-size region per seed
image is chained, and nothing is published. -/
theorem GInv_init (sorted : List CFitArea)
    (minCount fitCallsLimit maxW maxH : Int) (hmc : 0 ≤ minCount) :
    GInv sorted.toArray []
      (initState sorted minCount fitCallsLimit maxW maxH) := by
  have hnop : ∀ i, ¬ placedIdx []
      (initState sorted minCount fitCallsLimit maxW maxH) i := by
    intro i hi
    have h1 := hi.1
    have h2 := hi.2.1
    unfold initState at h1 h2
    dsimp only at h1 h2
    rw [Array.size_toArray] at h1
    exact h2 (List.mem_range.mpr h1)
  have hgetimg : ∀ j : Nat,
      (initState sorted minCount fitCallsLimit maxW
        maxH).outImages.getD j dImg = dImg := by
    intro j
    unfold initState
    dsimp only
    rw [toList_toArray_getD]
    exact getD_replicate dImg minCount.toNat j
  have hchain : (initState sorted minCount fitCallsLimit maxW
      maxH).outChain = (List.range minCount.toNat).map (fun i : Nat =>
      (⟨(i : Int), 0, 0, maxW, maxH⟩ : COutArea)) := by
    unfold initState seedChain
    dsimp only
    rw [List.length_replicate]
    refine List.map_congr_left ?_
    intro i hi
    rw [getD_replicate]
    simp [dImg]
  refine ⟨rfl, fun i => ⟨rfl, rfl⟩, ?_, by exact List.nodup_range _, hmc,
    ?_, ?_, ?_, ?_, ?_, ?_, ?_, ?_, ?_, Or.inl rfl⟩
  · intro i hi
    unfold initState at hi ⊢
    dsimp only at hi ⊢
    rw [Array.size_toArray]
    exact List.mem_range.mp hi
  · unfold initState
    dsimp only
    rw [Array.size_toArray, List.length_replicate]
  · intro k h0 hk
    unfold imgAt
    rw [hgetimg]
    exact ⟨le_refl 0, le_refl 0⟩
  · intro k h0 hk
    unfold imgAt
    rw [hgetimg]
    rfl
  · show (0 : Int) = _
    symm
    refine Finset.sum_eq_zero ?_
    intro k hk
    rw [hgetimg]
    rfl
  · intro r hr
    rw [hchain] at hr
    obtain ⟨i, hi, heq⟩ := List.mem_map.mp hr
    have hilt := List.mem_range.mp hi
    rw [← heq]
    refine ⟨le_refl 0, le_refl 0, Int.natCast_nonneg i, ?_⟩
    show (i : Int) < minCount
    omega
  · intro i hi
    exact absurd hi (hnop i)
  · intro i j hi
    exact absurd hi (hnop i)
  · intro i hi
    exact absurd hi (hnop i)
  · rw [hchain]
    rw [List.pairwise_map]
    refine List.Pairwise.imp ?_ (List.pairwise_lt_range minCount.toNat)
    intro a b hab himg
    exfalso
    have : (a : Int) = (b : Int) := himg
    omega

/-- With no duplicates, the element read at position `n` does not survive
erasing position `n`. -/
theorem not_mem_eraseIdx_self {α : Type} :
    ∀ (l : List α) (n : Nat) (a : α), l.Nodup → l.get? n = some a →
      a ∉ l.eraseIdx n
  | [], n, a, _, h => by simp at h
  | b :: l, 0, a, hnd, h => by
    simp only [List.get?] at h
    injection h with h
    subst h
    simp only [List.eraseIdx]
    exact (List.nodup_cons.mp hnd).1
  | b :: l, n + 1, a, hnd, h => by
    simp only [List.get?] at h
    simp only [List.eraseIdx, List.mem_cons]
    rintro (h1 | h1)
    · subst h1
      exact (List.nodup_cons.mp hnd).1 (List.get?_mem h)
    · exact not_mem_eraseIdx_self l n a (List.nodup_cons.mp hnd).2 h h1

/-- A rejecting `checkAreaFitAgainstBest` leaves the image and the summed
size unchanged. -/
theorem checkAreaFit_reject (nW nH : Int) (img : COutImage)
    (outSize best maxS tried : Int)
    (hok : (checkAreaFitAgainstBest nW nH img false dImg 0 outSize best maxS
      tried).ok = false) :
    (checkAreaFitAgainstBest nW nH img false dImg 0 outSize best maxS
      tried).outImage = img ∧
    (checkAreaFitAgainstBest nW nH img false dImg 0 outSize best maxS
      tried).outSize = outSize := by
  obtain ⟨c1, c2, c3, c4⟩ :=
    checkAreaFit_cases nW nH img false dImg 0 outSize best maxS tried
  by_cases hg : nW > img.width ∨ nH > img.height
  · by_cases hs : (if nW > img.width then nW else img.width) *
        (if nH > img.height then nH else img.height) > maxS
    · rw [c1 hg hs]
      exact ⟨rfl, rfl⟩
    · by_cases hb : outSize + (if nW > img.width then nW else img.width) *
          (if nH > img.height then nH else img.height) - img.size ≥ best
      · rw [c2 hg hs hb]
        exact ⟨rfl, rfl⟩
      · rw [c3 hg hs hb] at hok
        exact absurd hok (by simp)
  · rw [c4 hg] at hok
    exact absurd hok (by simp)

/-- What every path through a trial has restored by the time the epilogue
(`after`) runs, relative to the trial entry state (the in-flight area
record itself is the one exception). -/
structure TrialEq (aId : Nat) (st stZ : SState) : Prop where
  unfit : stZ.unfitted = st.unfitted
  asz : stZ.areas.size = st.areas.size
  areas : ∀ i, i ∉ st.unfitted → i ≠ aId →
    stZ.areas.getD i dArea = st.areas.getD i dArea
  chain : stZ.outChain = st.outChain
  cnt : stZ.outImageCount = st.outImageCount
  osize : stZ.outSize = st.outSize
  imgs : ∀ k : Nat, k < st.outImageCount.toNat →
    stZ.outImages.getD k dImg = st.outImages.getD k dImg
  iszge : st.outImages.size ≤ stZ.outImages.size

/-- The epilogue precondition holds at any state restored per `TrialEq`. -/
theorem after_pre {aId prevPos : Nat} {tried2 : Int} {wasAdded : Bool}
    {st stZ : SState} (hE : TrialEq aId st stZ)
    (haid : aId < st.areas.size) (hnotin : aId ∉ st.unfitted)
    (hw : wasAdded = true → WExtra aId prevPos st) :
    GPre (.after aId prevPos tried2 wasAdded) stZ := by
  have h1 := hE.asz
  refine ⟨by omega, by rw [hE.unfit]; exact hnotin, fun hwa => ?_⟩
  refine WExtra_congr hE.unfit hE.asz ?_ hE.chain hE.cnt hE.imgs (hw hwa)
  intro i hi
  have hne : i ≠ aId := by simpa using hi.2.2
  unfold areaD
  rw [hE.areas i hi.2.1 hne]

/-- Composing the epilogue's restoration promise with `TrialEq` yields the
trial's own restoration promise. -/
theorem trial_compose {aId prevPos : Nat} {tried tried2 : Int}
    {wasAdded : Bool} {cur : COutArea} {st stZ r2 : SState}
    (hE : TrialEq aId st stZ)
    (hS : SPost (.after aId prevPos tried2 wasAdded) stZ r2) :
    SPost (.trial aId prevPos tried wasAdded cur) st r2 := by
  refine ⟨?_, ?_, ?_, ?_, ?_, ?_, ?_, ?_⟩
  · rw [hS.unfit, hE.unfit]
  · rw [hS.asz, hE.asz]
  · cases wasAdded
    · have h1 : r2.outImageCount = stZ.outImageCount := hS.cnt
      show r2.outImageCount = st.outImageCount
      rw [h1, hE.cnt]
    · have h1 : r2.outImageCount = stZ.outImageCount - 1 := hS.cnt
      show r2.outImageCount = st.outImageCount - 1
      rw [h1, hE.cnt]
  · rw [hS.osize, hE.osize]
  · intro k hk
    rw [hS.imgs k (by rw [hE.cnt]; exact hk), hE.imgs k hk]
  · exact le_trans hE.iszge hS.iszge
  · intro i h1 h2
    have h2a : i ∉ ([aId] : List Nat) := h2
    have hne : i ≠ aId := by simpa using h2a
    have h2b : i ∉ ([aId] : List Nat) := by simpa using hne
    rw [hS.areas i (by rw [hE.unfit]; exact h1) h2b, hE.areas i h1 hne]
  · cases wasAdded
    · have h1 : r2.outChain = stZ.outChain := hS.chain
      show r2.outChain = st.outChain
      rw [h1, hE.chain]
    · have h1 : r2.outChain = stZ.outChain.eraseIdx prevPos := hS.chain
      show r2.outChain = st.outChain.eraseIdx prevPos
      rw [h1, hE.chain]

/-- The invariant transports along `TrialEq` (given dimension preservation
and soundness of the published best in the restored state). -/
theorem GInv_of_trialEq {arr0 : Array CFitArea} {aId : Nat} {st stZ : SState}
    (hG : GInv arr0 [aId] st) (hE : TrialEq aId st stZ)
    (hdims : ∀ i, (areaD stZ i).width = (areaD st i).width ∧
      (areaD stZ i).height = (areaD st i).height)
    (hpub : PubInv arr0 stZ) : GInv arr0 [aId] stZ := by
  refine GInv_congr hG hE.unfit hE.asz hdims ?_ hE.chain hE.cnt hE.osize
    hE.imgs hE.iszge hpub
  intro i h1 h2
  have hne : i ≠ aId := by simpa using h2
  exact hE.areas i h1 hne

theorem refill_frame (st : SState) :
    (refill st).unfitted = st.unfitted ∧ (refill st).areas = st.areas ∧
    (refill st).outChain = st.outChain ∧
    (refill st).outImages = st.outImages ∧
    (refill st).outImageCount = st.outImageCount ∧
    (refill st).outSize = st.outSize := by
  unfold refill
  split <;> exact ⟨rfl, rfl, rfl, rfl, rfl, rfl⟩

theorem GInv_refill {arr0 : Array CFitArea} {dead : List Nat} {st : SState}
    (hG : GInv arr0 dead st) : GInv arr0 dead (refill st) := by
  unfold refill
  split <;> exact GInv_congr hG rfl rfl (fun i => ⟨rfl, rfl⟩)
    (fun i _ _ => rfl) rfl rfl rfl (fun k _ => rfl) (le_refl _) hG.pub

/-- Induction hypothesis of the geometric soundness proof: at fuel `fuel`,
every completed call preserves the invariant and the restoration
discipline, and every result state has a sound published best. -/
def GeomOk (p : Params) (arr0 : Array CFitArea) (fuel : Nat) : Prop :=
  ∀ (c : Call) (st : SState) (r : Bool × SState),
    search p fuel c st = some r →
    GInv arr0 (deadOf c) st → GPre c st →
    PubInv arr0 r.2 ∧
    (r.1 = false → GInv arr0 (deadOf c) r.2 ∧ SPost c st r.2)

theorem geom_outer {p : Params} {arr0 : Array CFitArea} {fuel : Nat}
    (ih : GeomOk p arr0 fuel) (areaPos : Nat) (st : SState)
    (r : Bool × SState) (hG : GInv arr0 [] st)
    (h : search p (fuel + 1) (.outer areaPos) st = some r) :
    PubInv arr0 r.2 ∧
    (r.1 = false → GInv arr0 [] r.2 ∧ SPost (.outer areaPos) st r.2) := by
  simp only [search] at h
  rcases hg : st.unfitted.get? areaPos with _ | aId <;> simp only [hg] at h
  · injection h with h
    subst h
    exact ⟨hG.pub, fun _ => ⟨hG, ⟨rfl, rfl, rfl, rfl, fun _ _ => rfl,
      le_refl _, fun _ _ _ => rfl, rfl⟩⟩⟩
  · split_ifs at h with h1 h2 h3 h4
    · injection h with h
      subst h
      exact ⟨hG.pub, fun _ => ⟨hG, ⟨rfl, rfl, rfl, rfl, fun _ _ => rfl,
        le_refl _, fun _ _ _ => rfl, rfl⟩⟩⟩
    · injection h with h
      subst h
      refine ⟨hG.pub, fun _ => ?_⟩
      refine ⟨GInv_congr hG rfl rfl (fun i => ⟨rfl, rfl⟩) (fun i _ _ => rfl)
        rfl rfl rfl (fun k _ => rfl) (le_refl _) hG.pub,
        ⟨rfl, rfl, rfl, rfl, fun _ _ => rfl, le_refl _, fun _ _ _ => rfl,
          rfl⟩⟩
    · injection h with h
      subst h
      exact ⟨hG.pub, by simp⟩
    · have hGr : GInv arr0 [] (refill st) := GInv_refill hG
      have hf1 := refill_frame st
      have hpre2 : GPre (.detach areaPos aId) (refill st) := by
        show (refill st).unfitted.get? areaPos = some aId
        rw [hf1.1]
        exact hg
      obtain ⟨hp, hrest⟩ := ih (.detach areaPos aId) _ _ h hGr hpre2
      refine ⟨hp, fun hf => ?_⟩
      obtain ⟨hGi, hS⟩ := hrest hf
      refine ⟨hGi, ?_, ?_, ?_, ?_, ?_, ?_, ?_, ?_⟩
      · rw [hS.unfit, hf1.1]
      · rw [hS.asz, hf1.2.1]
      · have h5 : r.2.outImageCount = (refill st).outImageCount := hS.cnt
        rw [h5, hf1.2.2.2.2.1]
        rfl
      · have h5 : r.2.outSize = (refill st).outSize := hS.osize
        rw [h5, hf1.2.2.2.2.2]
      · intro k hk
        have h5 := hS.imgs k (by rw [hf1.2.2.2.2.1]; exact hk)
        rw [hf1.2.2.2.1] at h5
        exact h5
      · have h5 := hS.iszge
        rw [hf1.2.2.2.1] at h5
        exact h5
      · intro i hi hd
        have h5 := hS.areas i (by rw [hf1.1]; exact hi) hd
        rw [hf1.2.1] at h5
        exact h5
      · have h5 : r.2.outChain = (refill st).outChain := hS.chain
        rw [h5, hf1.2.2.1]
        rfl
    · have hpre2 : GPre (.detach areaPos aId) st := hg
      obtain ⟨hp, hrest⟩ := ih (.detach areaPos aId) _ _ h hG hpre2
      refine ⟨hp, fun hf => ?_⟩
      obtain ⟨hGi, hS⟩ := hrest hf
      exact ⟨hGi, hS.unfit, hS.asz, hS.cnt, hS.osize, hS.imgs, hS.iszge,
        hS.areas, hS.chain⟩

theorem geom_detach {p : Params} {arr0 : Array CFitArea} {fuel : Nat}
    (ih : GeomOk p arr0 fuel) (areaPos aId : Nat) (st : SState)
    (r : Bool × SState) (hG : GInv arr0 [] st)
    (hpre : st.unfitted.get? areaPos = some aId)
    (h : search p (fuel + 1) (.detach areaPos aId) st = some r) :
    PubInv arr0 r.2 ∧
    (r.1 = false → GInv arr0 [] r.2 ∧
      SPost (.detach areaPos aId) st r.2) := by
  simp only [search] at h
  have hmem : aId ∈ st.unfitted := List.get?_mem hpre
  have haid : aId < st.areas.size := hG.unfit aId hmem
  have hlt : areaPos < st.unfitted.length := by
    rw [List.get?_eq_some] at hpre
    exact hpre.1
  have hpre' : st.unfitted.get? areaPos = some aId := hpre
  have hG1 : GInv arr0 [aId] { st with
      fitCallsLeft := st.fitCallsLeft - 1
      attempts := st.attempts + 1
      unfitted := st.unfitted.eraseIdx areaPos } := GInv_detach hG hpre
  have hnotin1 : aId ∉ st.unfitted.eraseIdx areaPos :=
    not_mem_eraseIdx_self _ _ _ hG.nodup hpre
  have hpre1 : GPre (.region aId 0 0) { st with
      fitCallsLeft := st.fitCallsLeft - 1
      attempts := st.attempts + 1
      unfitted := st.unfitted.eraseIdx areaPos } := ⟨haid, hnotin1⟩
  split at h
  · exact absurd h (by simp)
  · rename_i st2 heq
    injection h with h
    subst h
    obtain ⟨hp, _⟩ := ih (.region aId 0 0) _ _ heq hG1 hpre1
    exact ⟨hp, by simp⟩
  · rename_i st2 heq
    obtain ⟨hp2, hrest2⟩ := ih (.region aId 0 0) _ _ heq hG1 hpre1
    obtain ⟨hG2, hS2⟩ := hrest2 rfl
    have hsz2 : st2.areas.size = st.areas.size := hS2.asz
    have hunf2 : st2.unfitted = st.unfitted.eraseIdx areaPos := hS2.unfit
    have hlen2 : areaPos ≤ st2.unfitted.length := by
      rw [hunf2, List.length_eraseIdx]
      simp only [hlt, if_true]
      omega
    have hnotin2 : aId ∉ st2.unfitted := by
      rw [hunf2]
      exact hnotin1
    have hG3 : GInv arr0 [] { st2 with
        unfitted := st2.unfitted.insertIdx areaPos aId } :=
      GInv_relink hG2 (by omega) hlen2 hnotin2
    obtain ⟨hp3, hrest3⟩ := ih (.outer (areaPos + 1)) _ _ h hG3 trivial
    refine ⟨hp3, fun hf => ?_⟩
    obtain ⟨hG4, hS4⟩ := hrest3 hf
    have h6c : st2.outImageCount = st.outImageCount := hS2.cnt
    have h6o : st2.outSize = st.outSize := hS2.osize
    have h6ch : st2.outChain = st.outChain := hS2.chain
    refine ⟨hG4, ?_, ?_, ?_, ?_, ?_, ?_, ?_, ?_⟩
    · have h5 : r.2.unfitted = st2.unfitted.insertIdx areaPos aId :=
        hS4.unfit
      rw [h5, hunf2, insertIdx_eraseIdx_self _ _ _ hpre]
    · have h5 : r.2.areas.size = st2.areas.size := hS4.asz
      rw [h5, hsz2]
    · have h5 : r.2.outImageCount = st2.outImageCount := hS4.cnt
      rw [h5, h6c]
      rfl
    · have h5 : r.2.outSize = st2.outSize := hS4.osize
      rw [h5, h6o]
    · intro k hk
      have h5 := hS4.imgs k (by show k < st2.outImageCount.toNat; omega)
      have h7 := hS2.imgs k (by exact hk)
      rw [show r.2.outImages.getD k dImg = st2.outImages.getD k dImg from h5,
        show st2.outImages.getD k dImg = st.outImages.getD k dImg from h7]
    · have h5 : st2.outImages.size ≤ r.2.outImages.size := hS4.iszge
      have h7 : st.outImages.size ≤ st2.outImages.size := hS2.iszge
      omega
    · intro i h1 h2
      have hne : i ≠ aId := fun he => h1 (he ▸ hmem)
      have hi1 : i ∉ st.unfitted.eraseIdx areaPos :=
        fun hm2 => h1 (mem_of_mem_eraseIdx hm2)
      have h5 := hS4.areas i (by
        show i ∉ st2.unfitted.insertIdx areaPos aId
        rw [List.mem_insertIdx hlen2]
        rintro (he | hm2)
        · exact hne he
        · rw [hunf2] at hm2
          exact hi1 hm2) (by simp [deadOf])
      have h7 := hS2.areas i (by exact hi1) (by
        show i ∉ ([aId] : List Nat)
        simpa using hne)
      rw [show r.2.areas.getD i dArea = st2.areas.getD i dArea from h5,
        show st2.areas.getD i dArea = st.areas.getD i dArea from h7]
    · have h5 : r.2.outChain = st2.outChain := hS4.chain
      rw [h5, h6ch]
      rfl

theorem geom_region {p : Params} {arr0 : Array CFitArea} {fuel : Nat}
    (ih : GeomOk p arr0 fuel) (aId prevPos : Nat) (tried : Int)
    (st : SState) (r : Bool × SState) (hG : GInv arr0 [aId] st)
    (hpre : GPre (.region aId prevPos tried) st)
    (h : search p (fuel + 1) (.region aId prevPos tried) st = some r) :
    PubInv arr0 r.2 ∧
    (r.1 = false → GInv arr0 [aId] r.2 ∧
      SPost (.region aId prevPos tried) st r.2) := by
  simp only [search] at h
  rcases hg : st.outChain.get? prevPos with _ | cur <;> simp only [hg] at h
  · split at h
    · injection h with h
      subst h
      exact ⟨hG.pub, fun _ => ⟨hG, ⟨rfl, rfl, rfl, rfl, fun _ _ => rfl,
        le_refl _, fun _ _ _ => rfl, rfl⟩⟩⟩
    · split at h
      · injection h with h
        subst h
        exact ⟨hG.pub, fun _ => ⟨hG, ⟨rfl, rfl, rfl, rfl, fun _ _ => rfl,
          le_refl _, fun _ _ _ => rfl, rfl⟩⟩⟩
      · obtain ⟨haid, hnotin⟩ : aId < st.areas.size ∧ aId ∉ st.unfitted :=
          hpre
        obtain ⟨hGs, hWs⟩ := GInv_synth hG
          ⟨st.outImageCount, 0, 0,
            if (st.areas.getD aId dArea).width > p.maxW then
              (st.areas.getD aId dArea).width else p.maxW,
            if (st.areas.getD aId dArea).height > p.maxH then
              (st.areas.getD aId dArea).height else p.maxH⟩ rfl rfl rfl
        have hc0 := hG.cnt0
        have hcsz := hG.cntsz
        have hpre1 : GPre (.trial aId
            (insertOutArea st.outChain
              ⟨st.outImageCount, 0, 0,
                if (st.areas.getD aId dArea).width > p.maxW then
                  (st.areas.getD aId dArea).width else p.maxW,
                if (st.areas.getD aId dArea).height > p.maxH then
                  (st.areas.getD aId dArea).height else p.maxH⟩).1
            tried true
            ⟨st.outImageCount, 0, 0,
              if (st.areas.getD aId dArea).width > p.maxW then
                (st.areas.getD aId dArea).width else p.maxW,
              if (st.areas.getD aId dArea).height > p.maxH then
                (st.areas.getD aId dArea).height else p.maxH⟩) { st with
            outChain := (insertOutArea st.outChain
              ⟨st.outImageCount, 0, 0,
                if (st.areas.getD aId dArea).width > p.maxW then
                  (st.areas.getD aId dArea).width else p.maxW,
                if (st.areas.getD aId dArea).height > p.maxH then
                  (st.areas.getD aId dArea).height else p.maxH⟩).2
            outImages := writeImg st.outImages st.outImageCount.toNat dImg
            outImageCount := st.outImageCount + 1 } := by
          refine ⟨haid, hnotin, insertOutArea_get _ _, fun _ => ⟨hWs, ?_, ?_⟩⟩
          · show (st.areas.getD aId dArea).width ≤ _
            dsimp only
            split <;> omega
          · show (st.areas.getD aId dArea).height ≤ _
            dsimp only
            split <;> omega
        obtain ⟨hp, hrest⟩ := ih _ _ _ h hGs hpre1
        refine ⟨hp, fun hf => ?_⟩
        obtain ⟨hGt, hSt⟩ := hrest hf
        refine ⟨hGt, ?_, ?_, ?_, ?_, ?_, ?_, ?_, ?_⟩
        · have h5 : r.2.unfitted = st.unfitted := hSt.unfit
          exact h5
        · have h5 : r.2.areas.size = st.areas.size := hSt.asz
          exact h5
        · have h5 : r.2.outImageCount = st.outImageCount + 1 - 1 := hSt.cnt
          show r.2.outImageCount = st.outImageCount
          omega
        · have h5 : r.2.outSize = st.outSize := hSt.osize
          exact h5
        · intro k hk
          have h5 := hSt.imgs k (by
            show k < (st.outImageCount + 1).toNat
            omega)
          have h7 : (writeImg st.outImages st.outImageCount.toNat dImg).getD k
              dImg = st.outImages.getD k dImg := by
            rw [getD_writeImg _ _ _ _ _ hcsz, if_neg (by omega)]
          rw [show r.2.outImages.getD k dImg =
            (writeImg st.outImages st.outImageCount.toNat dImg).getD k dImg
            from h5, h7]
        · have h5 : (writeImg st.outImages st.outImageCount.toNat dImg).size ≤
              r.2.outImages.size := hSt.iszge
          have h7 := size_writeImg_ge st.outImages st.outImageCount.toNat dImg
          omega
        · intro i h1 h2
          exact hSt.areas i (by exact h1) h2
        · have h5 : r.2.outChain = (insertOutArea st.outChain
              ⟨st.outImageCount, 0, 0,
                if (st.areas.getD aId dArea).width > p.maxW then
                  (st.areas.getD aId dArea).width else p.maxW,
                if (st.areas.getD aId dArea).height > p.maxH then
                  (st.areas.getD aId dArea).height else p.maxH⟩).2.eraseIdx
              (insertOutArea st.outChain
              ⟨st.outImageCount, 0, 0,
                if (st.areas.getD aId dArea).width > p.maxW then
                  (st.areas.getD aId dArea).width else p.maxW,
                if (st.areas.getD aId dArea).height > p.maxH then
                  (st.areas.getD aId dArea).height else p.maxH⟩).1 := hSt.chain
          rw [h5, insertOutArea_erase]
          rfl
  · obtain ⟨haid, hnotin⟩ : aId < st.areas.size ∧ aId ∉ st.unfitted := hpre
    have hpre1 : GPre (.trial aId prevPos tried false cur) st :=
      ⟨haid, hnotin, hg, fun hw => nomatch hw⟩
    obtain ⟨hp, hrest⟩ := ih (.trial aId prevPos tried false cur) _ _ h hG
      hpre1
    refine ⟨hp, fun hf => ?_⟩
    obtain ⟨hGt, hSt⟩ := hrest hf
    refine ⟨hGt, hSt.unfit, hSt.asz, ?_, hSt.osize, hSt.imgs, hSt.iszge,
      hSt.areas, ?_⟩
    · have h5 : r.2.outImageCount = st.outImageCount := hSt.cnt
      exact h5
    · have h5 : r.2.outChain = st.outChain := hSt.chain
      exact h5

theorem geom_after {p : Params} {arr0 : Array CFitArea} {fuel : Nat}
    (ih : GeomOk p arr0 fuel) (aId prevPos : Nat) (tried : Int)
    (wasAdded : Bool) (st : SState) (r : Bool × SState)
    (hG : GInv arr0 [aId] st)
    (hpre : GPre (.after aId prevPos tried wasAdded) st)
    (h : search p (fuel + 1) (.after aId prevPos tried wasAdded) st =
      some r) :
    PubInv arr0 r.2 ∧
    (r.1 = false → GInv arr0 [aId] r.2 ∧
      SPost (.after aId prevPos tried wasAdded) st r.2) := by
  simp only [search] at h
  split_ifs at h with h1 h2
  · injection h with h
    subst h
    obtain ⟨haid, hnotin, hw⟩ :
        aId < st.areas.size ∧ aId ∉ st.unfitted ∧
        (wasAdded = true → WExtra aId prevPos st) := hpre
    have hGu := GInv_unwind hG (hw h1)
    refine ⟨hG.pub, fun _ => ⟨hGu, ⟨rfl, rfl, ?_, rfl, fun _ _ => rfl,
      le_refl _, fun _ _ _ => rfl, ?_⟩⟩⟩
    · show st.outImageCount - 1 = _
      simp only [countPost, h1, if_true]
    · show st.outChain.eraseIdx prevPos = _
      simp only [chainPost, h1, if_true]
  · injection h with h
    subst h
    have hfalse : wasAdded = false := Bool.not_eq_true wasAdded ▸ h1
    refine ⟨hG.pub, fun _ => ⟨hG, ⟨rfl, rfl, ?_, rfl, fun _ _ => rfl,
      le_refl _, fun _ _ _ => rfl, ?_⟩⟩⟩
    · show st.outImageCount = _
      simp [countPost, hfalse]
    · show st.outChain = _
      simp [chainPost, hfalse]
  · have hfalse : wasAdded = false := Bool.not_eq_true wasAdded ▸ h1
    obtain ⟨haid, hnotin, hw⟩ :
        aId < st.areas.size ∧ aId ∉ st.unfitted ∧
        (wasAdded = true → WExtra aId prevPos st) := hpre
    obtain ⟨hp, hrest⟩ := ih (.region aId (prevPos + 1) tried) _ _ h hG
      ⟨haid, hnotin⟩
    refine ⟨hp, fun hf => ?_⟩
    obtain ⟨hGr, hSr⟩ := hrest hf
    refine ⟨hGr, hSr.unfit, hSr.asz, ?_, hSr.osize, hSr.imgs, hSr.iszge,
      hSr.areas, ?_⟩
    · have h5 : r.2.outImageCount = st.outImageCount := hSr.cnt
      rw [h5]
      simp [countPost, hfalse]
    · have h5 : r.2.outChain = st.outChain := hSr.chain
      rw [h5]
      simp [chainPost, hfalse]

theorem PubInv_congr {arr0 : Array CFitArea} {st st2 : SState}
    (h1 : st2.gBestOutSize = st.gBestOutSize)
    (h2 : st2.gBestFittedAreas = st.gBestFittedAreas)
    (h3 : st2.gBestOutImages = st.gBestOutImages)
    (hp : PubInv arr0 st) : PubInv arr0 st2 := by
  unfold PubInv
  rw [h1, h2, h3]
  exact hp

/-- The image-dimension restore re-establishes the trial-entry images and
summed size, whatever `checkAreaFitAgainstBest` did. -/
theorem restore_TrialEq {aId : Nat} {st STy : SState}
    {chk : CheckFit} {cur : COutArea}
    (hrt : chk.doOutImageRestore = true →
      chk.outImageSave = st.outImages.getD cur.outImage.toNat dImg ∧
      chk.outSizeSave = st.outSize)
    (hrf : chk.doOutImageRestore = false →
      chk.outImage = st.outImages.getD cur.outImage.toNat dImg ∧
      chk.outSize = st.outSize)
    (hunf : STy.unfitted = st.unfitted)
    (hasz : STy.areas.size = st.areas.size)
    (hareas : ∀ i, i ∉ st.unfitted → i ≠ aId →
      STy.areas.getD i dArea = st.areas.getD i dArea)
    (hchain : STy.outChain = st.outChain)
    (hcnt : STy.outImageCount = st.outImageCount)
    (hosz : STy.outSize = chk.outSize)
    (himgs : ∀ k : Nat, k < st.outImageCount.toNat →
      k ≠ cur.outImage.toNat →
      STy.outImages.getD k dImg = st.outImages.getD k dImg)
    (hslot : STy.outImages.getD cur.outImage.toNat dImg = chk.outImage)
    (hslotle : cur.outImage.toNat ≤ STy.outImages.size)
    (hiszge : st.outImages.size ≤ STy.outImages.size) :
    TrialEq aId st (restoreIf chk cur STy) := by
  unfold restoreIf
  split
  · rename_i hdr
    obtain ⟨hs1, hs2⟩ := hrt hdr
    refine ⟨hunf, hasz, hareas, hchain, hcnt, hs2, ?_, ?_⟩
    · intro k hk
      dsimp only
      rw [getD_writeImg _ _ _ _ _ hslotle]
      split
      · rename_i hke
        rw [hs1, hke]
      · exact himgs k hk (by rename_i hke; exact hke)
    · dsimp only
      exact le_trans hiszge (size_writeImg_ge _ _ _)
  · rename_i hdr
    obtain ⟨hs1, hs2⟩ := hrf (by
      cases hx : chk.doOutImageRestore
      · rfl
      · exact absurd hx hdr)
    refine ⟨hunf, hasz, hareas, hchain, hcnt, by rw [hosz, hs2], ?_,
      hiszge⟩
    intro k hk
    by_cases hke : k = cur.outImage.toNat
    · rw [hke, hslot, hs1]
    · exact himgs k hk hke

/-- Re-linking the host region `cur` at its old position restores the
invariant with the in-flight area dead again. -/
theorem GInv_reinsert {arr0 : Array CFitArea} {aId prevPos : Nat}
    {st stX : SState} {cur : COutArea}
    (hGX : GInv arr0 [] stX)
    (hX : stX.outChain = st.outChain.eraseIdx prevPos)
    (hcur : st.outChain.get? prevPos = some cur)
    (hcnt : stX.outImageCount = st.outImageCount)
    (hGe : GInv arr0 [aId] st)
    (hunfX : stX.unfitted = st.unfitted)
    (hszX : stX.areas.size = st.areas.size)
    (hareasX : ∀ i, i ∉ st.unfitted → i ≠ aId →
      stX.areas.getD i dArea = st.areas.getD i dArea) :
    GInv arr0 [aId] { stX with
      outChain := stX.outChain.insertIdx prevPos cur } := by
  have hcm : cur ∈ st.outChain := List.get?_mem hcur
  have hcwf := hGe.reg_wf cur hcm
  have hplt : prevPos < st.outChain.length := by
    rw [List.get?_eq_some] at hcur
    exact hcur.1
  refine GInv_chainInsertIdx cur prevPos ?_ (GInv_dead_weaken hGX) ?_ ?_ ?_
  · rw [hX, List.length_eraseIdx]
    simp only [hplt, if_true]
    omega
  · exact ⟨hcwf.1, hcwf.2.1, hcwf.2.2.1, by omega⟩
  · intro i hi himg
    have hine : i ≠ aId := by simpa using hi.2.2
    have hnu : i ∉ st.unfitted := by
      rw [← hunfX]
      exact hi.2.1
    have haeq : areaD stX i = areaD st i := hareasX i hnu hine
    rw [haeq] at himg ⊢
    refine hGe.pl_reg i ⟨?_, hnu, by simpa using hine⟩ cur hcm himg
    have := hi.1
    omega
  · intro r hr himg
    rw [hX] at hr
    have hrel := pairwise_rel_eraseIdx
      (fun a b hab h2 => (hab h2.symm).symm) st.outChain prevPos cur
      hGe.reg_reg hcur r hr
    exact hrel himg

set_option maxHeartbeats 1000000 in
theorem geom_trial {p : Params} {arr0 : Array CFitArea} {fuel : Nat}
    (hnn : ∀ i : Nat, 0 ≤ (arr0.getD i dArea).width ∧
      0 ≤ (arr0.getD i dArea).height)
    (ih : GeomOk p arr0 fuel) (aId prevPos : Nat) (tried : Int)
    (wasAdded : Bool) (cur : COutArea) (st : SState) (r : Bool × SState)
    (hG : GInv arr0 [aId] st)
    (hpre : GPre (.trial aId prevPos tried wasAdded cur) st)
    (h : search p (fuel + 1) (.trial aId prevPos tried wasAdded cur) st =
      some r) :
    PubInv arr0 r.2 ∧
    (r.1 = false → GInv arr0 [aId] r.2 ∧
      SPost (.trial aId prevPos tried wasAdded cur) st r.2) := by
  simp only [search] at h
  split at h
  · -- does not fit: back to the region loop
    rename_i hlt
    obtain ⟨haid, hnotin, hcur, hwx⟩ :
        aId < st.areas.size ∧ aId ∉ st.unfitted ∧
        st.outChain.get? prevPos = some cur ∧
        (wasAdded = true → WExtra aId prevPos st ∧
          (areaD st aId).width ≤ cur.width ∧
          (areaD st aId).height ≤ cur.height) := hpre
    have hfalse : wasAdded = false := by
      cases hwa : wasAdded
      · rfl
      · exfalso
        obtain ⟨_, hdw, hdh⟩ := hwx hwa
        unfold areaD at hdw hdh
        omega
    subst hfalse
    obtain ⟨hp, hrest⟩ := ih (.region aId (prevPos + 1) tried) _ _ h hG
      ⟨haid, hnotin⟩
    refine ⟨hp, fun hf => ?_⟩
    obtain ⟨hGr, hSr⟩ := hrest hf
    have h5c : r.2.outImageCount = st.outImageCount := hSr.cnt
    have h5ch : r.2.outChain = st.outChain := hSr.chain
    exact ⟨hGr, hSr.unfit, hSr.asz, h5c, hSr.osize, hSr.imgs, hSr.iszge,
      hSr.areas, h5ch⟩
  · rename_i hge
    split at h
    · -- accepted
      rename_i hok
      split at h
      · -- complete placement: publish and epilogue
        rename_i hemp
        generalize hchk : checkAreaFitAgainstBest
          (cur.x + (st.areas.getD aId dArea).width)
          (cur.y + (st.areas.getD aId dArea).height)
          (st.outImages.getD cur.outImage.toNat dImg) false dImg 0
          st.outSize st.bestOutSize p.maxS tried = chk at hok h
        obtain ⟨haid, hnotin, hcur, hwx⟩ :
            aId < st.areas.size ∧ aId ∉ st.unfitted ∧
            st.outChain.get? prevPos = some cur ∧
            (wasAdded = true → WExtra aId prevPos st ∧
              (areaD st aId).width ≤ cur.width ∧
              (areaD st aId).height ≤ cur.height) := hpre
        have hremR : (areaD st aId).width ≤ cur.width := by
          unfold areaD
          omega
        have hremB : (areaD st aId).height ≤ cur.height := by
          unfold areaD
          omega
        obtain ⟨hGc, hfd, hgood, hsub, hdp, hdr, himgsC, hrt, hrf⟩ :=
          commit_place hG haid hcur hremR hremB hchk.symm hok
            ⟨(st.areas.getD aId dArea).object, (st.areas.getD aId dArea).width,
              (st.areas.getD aId dArea).height, cur.outImage, cur.x, cur.y⟩
            rfl rfl rfl rfl rfl
        have hunf0 : st.unfitted = [] := List.isEmpty_iff.mp hemp
        have hcm := List.get?_mem hcur
        have hcwf := hG.reg_wf cur hcm
        have hc0 := hG.cnt0
        have hcsz := hG.cntsz
        have hslotle0 : cur.outImage.toNat ≤ st.outImages.size := by omega
        have hGp := publishBest_inv hGc hnn (by exact hunf0)
          (by dsimp only; rw [Array.size_setD]; exact haid)
          (by rw [hfd]; exact hgood)
          (by
            intro j hj himg
            have hjne : j ≠ aId := by simpa using hj.2.2
            have haeqj : areaD { st with
                outImages := writeImg st.outImages cur.outImage.toNat
                  chk.outImage
                outSize := chk.outSize
                areas := st.areas.setD aId
                  ⟨(st.areas.getD aId dArea).object, (st.areas.getD aId dArea).width,
                    (st.areas.getD aId dArea).height, cur.outImage, cur.x,
                    cur.y⟩ } j =
                areaD st j := by
              unfold areaD
              dsimp only
              rw [getD_setD, if_neg (by tauto)]
            rw [hfd, haeqj] at himg ⊢
            exact hdp j hj himg)
        have hPf := publishBest_frame { st with
          outImages := writeImg st.outImages cur.outImage.toNat chk.outImage
          outSize := chk.outSize
          areas := st.areas.setD aId
            ⟨(st.areas.getD aId dArea).object, (st.areas.getD aId dArea).width,
              (st.areas.getD aId dArea).height, cur.outImage, cur.x, cur.y⟩ }
        have hE : TrialEq aId st (restoreIf chk cur (publishBest { st with
            outImages := writeImg st.outImages cur.outImage.toNat
              chk.outImage
            outSize := chk.outSize
            areas := st.areas.setD aId
              ⟨(st.areas.getD aId dArea).object, (st.areas.getD aId dArea).width,
                (st.areas.getD aId dArea).height, cur.outImage, cur.x,
                cur.y⟩ })) := by
          refine restore_TrialEq hrt hrf ?_ ?_ ?_ ?_ ?_ ?_ ?_ ?_ ?_ ?_
          · rw [hPf.1]
          · rw [hPf.2.1]
            dsimp only
            rw [Array.size_setD]
          · intro i h1 h2
            rw [hPf.2.1]
            show (st.areas.setD aId _).getD i dArea = _
            rw [getD_setD, if_neg (by tauto)]
          · rw [hPf.2.2.1]
          · rw [hPf.2.2.2.2.1]
          · rw [hPf.2.2.2.2.2]
          · intro k hk hkne
            rw [hPf.2.2.2.1]
            exact himgsC k hk hkne
          · rw [hPf.2.2.2.1]
            show (writeImg st.outImages cur.outImage.toNat
              chk.outImage).getD cur.outImage.toNat dImg = chk.outImage
            rw [getD_writeImg _ _ _ _ _ hslotle0, if_pos rfl]
          · rw [hPf.2.2.2.1]
            have := size_writeImg_ge st.outImages cur.outImage.toNat
              chk.outImage
            dsimp only
            omega
          · rw [hPf.2.2.2.1]
            exact size_writeImg_ge _ _ _
        have hRf := restoreIf_frame chk cur (publishBest { st with
          outImages := writeImg st.outImages cur.outImage.toNat chk.outImage
          outSize := chk.outSize
          areas := st.areas.setD aId
            ⟨(st.areas.getD aId dArea).object, (st.areas.getD aId dArea).width,
              (st.areas.getD aId dArea).height, cur.outImage, cur.x, cur.y⟩ })
        have hGZ : GInv arr0 [aId] (restoreIf chk cur (publishBest { st with
            outImages := writeImg st.outImages cur.outImage.toNat
              chk.outImage
            outSize := chk.outSize
            areas := st.areas.setD aId
              ⟨(st.areas.getD aId dArea).object, (st.areas.getD aId dArea).width,
                (st.areas.getD aId dArea).height, cur.outImage, cur.x,
                cur.y⟩ })) := by
          refine GInv_of_trialEq hG hE ?_ ?_
          · intro i
            have hZar := hRf.2.1
            rw [hPf.2.1] at hZar
            have e : areaD (restoreIf chk cur (publishBest { st with
                outImages := writeImg st.outImages cur.outImage.toNat
                  chk.outImage
                outSize := chk.outSize
                areas := st.areas.setD aId
                  ⟨(st.areas.getD aId dArea).object,
                    (st.areas.getD aId dArea).width,
                    (st.areas.getD aId dArea).height, cur.outImage, cur.x,
                    cur.y⟩ })) i = areaD { st with
                outImages := writeImg st.outImages cur.outImage.toNat
                  chk.outImage
                outSize := chk.outSize
                areas := st.areas.setD aId
                  ⟨(st.areas.getD aId dArea).object,
                    (st.areas.getD aId dArea).width,
                    (st.areas.getD aId dArea).height, cur.outImage, cur.x,
                    cur.y⟩ } i := by
              unfold areaD
              rw [hZar]
            constructor
            · rw [e, (hGc.dims i).1, ← (hG.dims i).1]
            · rw [e, (hGc.dims i).2, ← (hG.dims i).2]
          · exact PubInv_congr hRf.2.2.2.2.1 hRf.2.2.2.2.2.2
              hRf.2.2.2.2.2.1 hGp.pub
        have hpreZ := @after_pre aId prevPos chk.outAreasTried wasAdded st
          _ hE haid hnotin (fun hw => (hwx hw).1)
        obtain ⟨hp, hrest⟩ := ih (.after aId prevPos chk.outAreasTried
          wasAdded) _ _ h hGZ hpreZ
        refine ⟨hp, fun hf => ?_⟩
        obtain ⟨hGa, hSa⟩ := hrest hf
        exact ⟨hGa, trial_compose hE hSa⟩
      · rename_i hemp
        split at h
        · exact absurd h (by simp)
        · rename_i st4 heq1
          injection h with h
          subst h
          generalize hchk : checkAreaFitAgainstBest (cur.x + (st.areas.getD aId dArea).width) (cur.y + (st.areas.getD aId dArea).height) (st.outImages.getD cur.outImage.toNat dImg) false dImg 0 st.outSize st.bestOutSize p.maxS tried = chk at hok heq1
          generalize hmw : minWH { st with outImages := writeImg st.outImages cur.outImage.toNat chk.outImage, outSize := chk.outSize, areas := st.areas.setD aId ⟨(st.areas.getD aId dArea).object, (st.areas.getD aId dArea).width, (st.areas.getD aId dArea).height, cur.outImage, cur.x, cur.y⟩ } = mwh at heq1
          generalize hC1 : insertConfig1 cur (st.areas.getD aId dArea).width (st.areas.getD aId dArea).height mwh.1 mwh.2 (cur.width - (st.areas.getD aId dArea).width) (cur.height - (st.areas.getD aId dArea).height) (st.outChain.eraseIdx prevPos) = C1 at heq1
          obtain ⟨haid, hnotin, hcur, hwx⟩ :
              aId < st.areas.size ∧ aId ∉ st.unfitted ∧
              st.outChain.get? prevPos = some cur ∧
              (wasAdded = true → WExtra aId prevPos st ∧
                (areaD st aId).width ≤ cur.width ∧
                (areaD st aId).height ≤ cur.height) := hpre
          have hremR : (areaD st aId).width ≤ cur.width := by
            unfold areaD
            omega
          have hremB : (areaD st aId).height ≤ cur.height := by
            unfold areaD
            omega
          obtain ⟨hGc, hfd, hgood, hsub, hdp, hdr, himgsC, hrt, hrf⟩ :=
            commit_place hG haid hcur hremR hremB hchk.symm hok ⟨(st.areas.getD aId dArea).object, (st.areas.getD aId dArea).width, (st.areas.getD aId dArea).height, cur.outImage, cur.x, cur.y⟩ rfl rfl rfl rfl rfl
          have hcm := List.get?_mem hcur
          have hcwf := hG.reg_wf cur hcm
          have hc0 := hG.cnt0
          have hcsz := hG.cntsz
          have hslotle0 : cur.outImage.toNat ≤ st.outImages.size := by omega
          have hplt : prevPos < st.outChain.length := by
            have hcur2 := hcur
            rw [List.get?_eq_some] at hcur2
            exact hcur2.1
          have hG3 : GInv arr0 [aId] { st with outImages := writeImg st.outImages cur.outImage.toNat chk.outImage, outSize := chk.outSize, areas := st.areas.setD aId ⟨(st.areas.getD aId dArea).object, (st.areas.getD aId dArea).width, (st.areas.getD aId dArea).height, cur.outImage, cur.x, cur.y⟩, outChain := st.outChain.eraseIdx prevPos } := by
            have h0 := GInv_chainErase prevPos hGc
            exact h0
          have hfd3 : areaD { st with outImages := writeImg st.outImages cur.outImage.toNat chk.outImage, outSize := chk.outSize, areas := st.areas.setD aId ⟨(st.areas.getD aId dArea).object, (st.areas.getD aId dArea).width, (st.areas.getD aId dArea).height, cur.outImage, cur.x, cur.y⟩, outChain := st.outChain.eraseIdx prevPos } aId = ⟨(st.areas.getD aId dArea).object, (st.areas.getD aId dArea).width, (st.areas.getD aId dArea).height, cur.outImage, cur.x, cur.y⟩ := hfd
          have hG3u : GInv arr0 [] { st with outImages := writeImg st.outImages cur.outImage.toNat chk.outImage, outSize := chk.outSize, areas := st.areas.setD aId ⟨(st.areas.getD aId dArea).object, (st.areas.getD aId dArea).width, (st.areas.getD aId dArea).height, cur.outImage, cur.x, cur.y⟩, outChain := st.outChain.eraseIdx prevPos } := by
            refine GInv_undead hG3 ?_ ?_ ?_
            · rw [hfd3]
              exact ⟨hgood.hx, hgood.hy, hgood.hi0, hgood.hic, hgood.hw, hgood.hh⟩
            · intro j hj himg
              have hjne : j ≠ aId := by simpa using hj.2.2
              have haeqj : areaD { st with outImages := writeImg st.outImages cur.outImage.toNat chk.outImage, outSize := chk.outSize, areas := st.areas.setD aId ⟨(st.areas.getD aId dArea).object, (st.areas.getD aId dArea).width, (st.areas.getD aId dArea).height, cur.outImage, cur.x, cur.y⟩, outChain := st.outChain.eraseIdx prevPos } j = areaD st j := by
                unfold areaD
                dsimp only
                rw [getD_setD, if_neg (by tauto)]
              rw [hfd3, haeqj] at himg ⊢
              exact hdp j (by exact hj) himg
            · intro s hs himg
              rw [hfd3] at himg ⊢
              exact hdr s (by exact hs) himg
          have haW : 0 ≤ (st.areas.getD aId dArea).width := by
            have h1 := (hG.dims aId).1
            have h2 := (hnn aId).1
            unfold areaD at h1
            omega
          have haH : 0 ≤ (st.areas.getD aId dArea).height := by
            have h1 := (hG.dims aId).2
            have h2 := (hnn aId).2
            unfold areaD at h1
            omega
          have hG3c : GInv arr0 [] { st with outImages := writeImg st.outImages cur.outImage.toNat chk.outImage, outSize := chk.outSize, areas := st.areas.setD aId ⟨(st.areas.getD aId dArea).object, (st.areas.getD aId dArea).width, (st.areas.getD aId dArea).height, cur.outImage, cur.x, cur.y⟩, outChain := C1.2 } := by
            rw [← hC1]
            refine GInv_insertConfig1 hG3u cur _ _ mwh.1 mwh.2 haW haH (by unfold areaD at hremR; exact hremR) (by unfold areaD at hremB; exact hremB) (by exact hcwf) (by rw [hfd3]) (by rw [hfd3]) (by rw [hfd3]) (by rw [hfd3]) ?_ ?_
            · intro i hi hine himg
              have haeqi : areaD { st with outImages := writeImg st.outImages cur.outImage.toNat chk.outImage, outSize := chk.outSize, areas := st.areas.setD aId ⟨(st.areas.getD aId dArea).object, (st.areas.getD aId dArea).width, (st.areas.getD aId dArea).height, cur.outImage, cur.x, cur.y⟩, outChain := st.outChain.eraseIdx prevPos } i = areaD st i := by
                unfold areaD
                dsimp only
                rw [getD_setD, if_neg (by tauto)]
              rw [haeqi] at himg ⊢
              refine hG.pl_reg i ⟨?_, hi.2.1, by simpa using hine⟩ cur hcm himg
              have h1 := hi.1
              dsimp only at h1
              rw [Array.size_setD] at h1
              exact h1
            · intro rg hrg himg
              exact pairwise_rel_eraseIdx (fun a b hab h2 => (hab h2.symm).symm) st.outChain prevPos cur hG.reg_reg hcur rg (by exact hrg) himg
          obtain ⟨hp4, _⟩ := ih (.outer 0) _ _ heq1 hG3c trivial
          exact ⟨hp4, by simp⟩
        · rename_i st4 heq1
          split at h
          · rename_i hbound
            split at h
            · rename_i hlen
              split at h
              · exact absurd h (by simp)
              · rename_i st6 heq2
                injection h with h
                subst h
                generalize hchk : checkAreaFitAgainstBest (cur.x + (st.areas.getD aId dArea).width) (cur.y + (st.areas.getD aId dArea).height) (st.outImages.getD cur.outImage.toNat dImg) false dImg 0 st.outSize st.bestOutSize p.maxS tried = chk at hok heq1 heq2
                generalize hmw : minWH { st with outImages := writeImg st.outImages cur.outImage.toNat chk.outImage, outSize := chk.outSize, areas := st.areas.setD aId ⟨(st.areas.getD aId dArea).object, (st.areas.getD aId dArea).width, (st.areas.getD aId dArea).height, cur.outImage, cur.x, cur.y⟩ } = mwh at heq1 heq2
                generalize hC1 : insertConfig1 cur (st.areas.getD aId dArea).width (st.areas.getD aId dArea).height mwh.1 mwh.2 (cur.width - (st.areas.getD aId dArea).width) (cur.height - (st.areas.getD aId dArea).height) (st.outChain.eraseIdx prevPos) = C1 at heq1 heq2
                obtain ⟨haid, hnotin, hcur, hwx⟩ :
                    aId < st.areas.size ∧ aId ∉ st.unfitted ∧
                    st.outChain.get? prevPos = some cur ∧
                    (wasAdded = true → WExtra aId prevPos st ∧
                      (areaD st aId).width ≤ cur.width ∧
                      (areaD st aId).height ≤ cur.height) := hpre
                have hremR : (areaD st aId).width ≤ cur.width := by
                  unfold areaD
                  omega
                have hremB : (areaD st aId).height ≤ cur.height := by
                  unfold areaD
                  omega
                obtain ⟨hGc, hfd, hgood, hsub, hdp, hdr, himgsC, hrt, hrf⟩ :=
                  commit_place hG haid hcur hremR hremB hchk.symm hok ⟨(st.areas.getD aId dArea).object, (st.areas.getD aId dArea).width, (st.areas.getD aId dArea).height, cur.outImage, cur.x, cur.y⟩ rfl rfl rfl rfl rfl
                have hcm := List.get?_mem hcur
                have hcwf := hG.reg_wf cur hcm
                have hc0 := hG.cnt0
                have hcsz := hG.cntsz
                have hslotle0 : cur.outImage.toNat ≤ st.outImages.size := by omega
                have hplt : prevPos < st.outChain.length := by
                  have hcur2 := hcur
                  rw [List.get?_eq_some] at hcur2
                  exact hcur2.1
                have hG3 : GInv arr0 [aId] { st with outImages := writeImg st.outImages cur.outImage.toNat chk.outImage, outSize := chk.outSize, areas := st.areas.setD aId ⟨(st.areas.getD aId dArea).object, (st.areas.getD aId dArea).width, (st.areas.getD aId dArea).height, cur.outImage, cur.x, cur.y⟩, outChain := st.outChain.eraseIdx prevPos } := by
                  have h0 := GInv_chainErase prevPos hGc
                  exact h0
                have hfd3 : areaD { st with outImages := writeImg st.outImages cur.outImage.toNat chk.outImage, outSize := chk.outSize, areas := st.areas.setD aId ⟨(st.areas.getD aId dArea).object, (st.areas.getD aId dArea).width, (st.areas.getD aId dArea).height, cur.outImage, cur.x, cur.y⟩, outChain := st.outChain.eraseIdx prevPos } aId = ⟨(st.areas.getD aId dArea).object, (st.areas.getD aId dArea).width, (st.areas.getD aId dArea).height, cur.outImage, cur.x, cur.y⟩ := hfd
                have hG3u : GInv arr0 [] { st with outImages := writeImg st.outImages cur.outImage.toNat chk.outImage, outSize := chk.outSize, areas := st.areas.setD aId ⟨(st.areas.getD aId dArea).object, (st.areas.getD aId dArea).width, (st.areas.getD aId dArea).height, cur.outImage, cur.x, cur.y⟩, outChain := st.outChain.eraseIdx prevPos } := by
                  refine GInv_undead hG3 ?_ ?_ ?_
                  · rw [hfd3]
                    exact ⟨hgood.hx, hgood.hy, hgood.hi0, hgood.hic, hgood.hw, hgood.hh⟩
                  · intro j hj himg
                    have hjne : j ≠ aId := by simpa using hj.2.2
                    have haeqj : areaD { st with outImages := writeImg st.outImages cur.outImage.toNat chk.outImage, outSize := chk.outSize, areas := st.areas.setD aId ⟨(st.areas.getD aId dArea).object, (st.areas.getD aId dArea).width, (st.areas.getD aId dArea).height, cur.outImage, cur.x, cur.y⟩, outChain := st.outChain.eraseIdx prevPos } j = areaD st j := by
                      unfold areaD
                      dsimp only
                      rw [getD_setD, if_neg (by tauto)]
                    rw [hfd3, haeqj] at himg ⊢
                    exact hdp j (by exact hj) himg
                  · intro s hs himg
                    rw [hfd3] at himg ⊢
                    exact hdr s (by exact hs) himg
                have haW : 0 ≤ (st.areas.getD aId dArea).width := by
                  have h1 := (hG.dims aId).1
                  have h2 := (hnn aId).1
                  unfold areaD at h1
                  omega
                have haH : 0 ≤ (st.areas.getD aId dArea).height := by
                  have h1 := (hG.dims aId).2
                  have h2 := (hnn aId).2
                  unfold areaD at h1
                  omega
                have hG3c : GInv arr0 [] { st with outImages := writeImg st.outImages cur.outImage.toNat chk.outImage, outSize := chk.outSize, areas := st.areas.setD aId ⟨(st.areas.getD aId dArea).object, (st.areas.getD aId dArea).width, (st.areas.getD aId dArea).height, cur.outImage, cur.x, cur.y⟩, outChain := C1.2 } := by
                  rw [← hC1]
                  refine GInv_insertConfig1 hG3u cur _ _ mwh.1 mwh.2 haW haH (by unfold areaD at hremR; exact hremR) (by unfold areaD at hremB; exact hremB) (by exact hcwf) (by rw [hfd3]) (by rw [hfd3]) (by rw [hfd3]) (by rw [hfd3]) ?_ ?_
                  · intro i hi hine himg
                    have haeqi : areaD { st with outImages := writeImg st.outImages cur.outImage.toNat chk.outImage, outSize := chk.outSize, areas := st.areas.setD aId ⟨(st.areas.getD aId dArea).object, (st.areas.getD aId dArea).width, (st.areas.getD aId dArea).height, cur.outImage, cur.x, cur.y⟩, outChain := st.outChain.eraseIdx prevPos } i = areaD st i := by
                      unfold areaD
                      dsimp only
                      rw [getD_setD, if_neg (by tauto)]
                    rw [haeqi] at himg ⊢
                    refine hG.pl_reg i ⟨?_, hi.2.1, by simpa using hine⟩ cur hcm himg
                    have h1 := hi.1
                    dsimp only at h1
                    rw [Array.size_setD] at h1
                    exact h1
                  · intro rg hrg himg
                    exact pairwise_rel_eraseIdx (fun a b hab h2 => (hab h2.symm).symm) st.outChain prevPos cur hG.reg_reg hcur rg (by exact hrg) himg
                obtain ⟨hp4, hrest4⟩ := ih (.outer 0) _ _ heq1 hG3c trivial
                obtain ⟨hG4, SP4⟩ := hrest4 rfl
                have hch4 : st4.outChain = C1.2 := SP4.chain
                have hch5 : removeChildren C1.1 st4.outChain = st.outChain.eraseIdx prevPos := by
                  rw [hch4, ← hC1, removeChildren_insertConfig1]
                have hunf4 : st4.unfitted = st.unfitted := SP4.unfit
                have hsz4 : st4.areas.size = st.areas.size := by
                  have h1 : st4.areas.size = (st.areas.setD aId ⟨(st.areas.getD aId dArea).object, (st.areas.getD aId dArea).width, (st.areas.getD aId dArea).height, cur.outImage, cur.x, cur.y⟩).size := SP4.asz
                  rw [Array.size_setD] at h1
                  exact h1
                have hcnt4 : st4.outImageCount = st.outImageCount := SP4.cnt
                have hosz4 : st4.outSize = chk.outSize := SP4.osize
                have himgs4 : ∀ k : Nat, k < st.outImageCount.toNat → st4.outImages.getD k dImg = (writeImg st.outImages cur.outImage.toNat chk.outImage).getD k dImg :=
                  fun k hk => SP4.imgs k (by exact hk)
                have hfd4 : st4.areas.getD aId dArea = ⟨(st.areas.getD aId dArea).object, (st.areas.getD aId dArea).width, (st.areas.getD aId dArea).height, cur.outImage, cur.x, cur.y⟩ := by
                  have h1 : st4.areas.getD aId dArea = (st.areas.setD aId ⟨(st.areas.getD aId dArea).object, (st.areas.getD aId dArea).width, (st.areas.getD aId dArea).height, cur.outImage, cur.x, cur.y⟩).getD aId dArea := SP4.areas aId (by exact hnotin) (by exact List.not_mem_nil _)
                  rw [h1, getD_setD, if_pos ⟨rfl, haid⟩]
                have hareas4 : ∀ i, i ∉ st.unfitted → i ≠ aId → st4.areas.getD i dArea = st.areas.getD i dArea := by
                  intro i h1 h2
                  have h3 : st4.areas.getD i dArea = (st.areas.setD aId ⟨(st.areas.getD aId dArea).object, (st.areas.getD aId dArea).width, (st.areas.getD aId dArea).height, cur.outImage, cur.x, cur.y⟩).getD i dArea := SP4.areas i (by exact h1) (by exact List.not_mem_nil _)
                  rw [h3, getD_setD, if_neg (by tauto)]
                have hiszge4 : st.outImages.size ≤ st4.outImages.size :=
                  le_trans (size_writeImg_ge _ _ _) (by exact SP4.iszge)
                have hG5 : GInv arr0 [] { st4 with outChain := removeChildren C1.1 st4.outChain } :=
                  GInv_removeChildren _ hG4
                generalize hC2 : insertConfig2 cur (st.areas.getD aId dArea).width (st.areas.getD aId dArea).height mwh.1 mwh.2 (cur.width - (st.areas.getD aId dArea).width) (cur.height - (st.areas.getD aId dArea).height) (removeChildren C1.1 st4.outChain) = C2 at heq2
                have hG5c : GInv arr0 [] { st4 with outChain := C2.2 } := by
                  rw [← hC2]
                  refine @GInv_insertConfig2 arr0 aId _ hG5 cur _ _ mwh.1 mwh.2 haW haH (by unfold areaD at hremR; exact hremR) (by unfold areaD at hremB; exact hremB) ?_ ?_ ?_ ?_ ?_ ?_ ?_
                  · exact ⟨hcwf.1, hcwf.2.1, hcwf.2.2.1, by
                      show cur.outImage < st4.outImageCount
                      omega⟩
                  · show (st4.areas.getD aId dArea).outX = cur.x
                    rw [hfd4]
                  · show (st4.areas.getD aId dArea).outY = cur.y
                    rw [hfd4]
                  · show (st4.areas.getD aId dArea).width = _
                    rw [hfd4]
                  · show (st4.areas.getD aId dArea).height = _
                    rw [hfd4]
                  · intro i hi hine himg
                    have h2 : i ∉ st4.unfitted := hi.2.1
                    have h1 : i ∉ st.unfitted := by
                      rw [← hunf4]
                      exact h2
                    have himg2 : (st.areas.getD i dArea).outImage = cur.outImage := by
                      rw [← hareas4 i h1 hine]
                      exact himg
                    have h3 : i < st4.areas.size := hi.1
                    have hd := hG.pl_reg i ⟨by omega, h1, by simpa using hine⟩ cur hcm (by exact himg2)
                    have hfin : areaD st i = st4.areas.getD i dArea := (hareas4 i h1 hine).symm
                    have hd2 : Disjoint (aPts (st4.areas.getD i dArea)) (rPts cur) := by
                      rw [← hfin]
                      exact hd
                    exact hd2
                  · intro rg hrg himg
                    have hrg2 : rg ∈ st.outChain.eraseIdx prevPos := by
                      rw [← hch5]
                      exact hrg
                    exact pairwise_rel_eraseIdx (fun a b hab h2 => (hab h2.symm).symm) st.outChain prevPos cur hG.reg_reg hcur rg hrg2 himg
                obtain ⟨hp6, _⟩ := ih (.outer 0) _ _ heq2 hG5c trivial
                exact ⟨hp6, by simp⟩
              · rename_i st6 heq2
                generalize hchk : checkAreaFitAgainstBest (cur.x + (st.areas.getD aId dArea).width) (cur.y + (st.areas.getD aId dArea).height) (st.outImages.getD cur.outImage.toNat dImg) false dImg 0 st.outSize st.bestOutSize p.maxS tried = chk at hok h heq1 heq2
                generalize hmw : minWH { st with outImages := writeImg st.outImages cur.outImage.toNat chk.outImage, outSize := chk.outSize, areas := st.areas.setD aId ⟨(st.areas.getD aId dArea).object, (st.areas.getD aId dArea).width, (st.areas.getD aId dArea).height, cur.outImage, cur.x, cur.y⟩ } = mwh at h heq1 heq2
                generalize hC1 : insertConfig1 cur (st.areas.getD aId dArea).width (st.areas.getD aId dArea).height mwh.1 mwh.2 (cur.width - (st.areas.getD aId dArea).width) (cur.height - (st.areas.getD aId dArea).height) (st.outChain.eraseIdx prevPos) = C1 at h heq1 heq2
                obtain ⟨haid, hnotin, hcur, hwx⟩ :
                    aId < st.areas.size ∧ aId ∉ st.unfitted ∧
                    st.outChain.get? prevPos = some cur ∧
                    (wasAdded = true → WExtra aId prevPos st ∧
                      (areaD st aId).width ≤ cur.width ∧
                      (areaD st aId).height ≤ cur.height) := hpre
                have hremR : (areaD st aId).width ≤ cur.width := by
                  unfold areaD
                  omega
                have hremB : (areaD st aId).height ≤ cur.height := by
                  unfold areaD
                  omega
                obtain ⟨hGc, hfd, hgood, hsub, hdp, hdr, himgsC, hrt, hrf⟩ :=
                  commit_place hG haid hcur hremR hremB hchk.symm hok ⟨(st.areas.getD aId dArea).object, (st.areas.getD aId dArea).width, (st.areas.getD aId dArea).height, cur.outImage, cur.x, cur.y⟩ rfl rfl rfl rfl rfl
                have hcm := List.get?_mem hcur
                have hcwf := hG.reg_wf cur hcm
                have hc0 := hG.cnt0
                have hcsz := hG.cntsz
                have hslotle0 : cur.outImage.toNat ≤ st.outImages.size := by omega
                have hplt : prevPos < st.outChain.length := by
                  have hcur2 := hcur
                  rw [List.get?_eq_some] at hcur2
                  exact hcur2.1
                have hG3 : GInv arr0 [aId] { st with outImages := writeImg st.outImages cur.outImage.toNat chk.outImage, outSize := chk.outSize, areas := st.areas.setD aId ⟨(st.areas.getD aId dArea).object, (st.areas.getD aId dArea).width, (st.areas.getD aId dArea).height, cur.outImage, cur.x, cur.y⟩, outChain := st.outChain.eraseIdx prevPos } := by
                  have h0 := GInv_chainErase prevPos hGc
                  exact h0
                have hfd3 : areaD { st with outImages := writeImg st.outImages cur.outImage.toNat chk.outImage, outSize := chk.outSize, areas := st.areas.setD aId ⟨(st.areas.getD aId dArea).object, (st.areas.getD aId dArea).width, (st.areas.getD aId dArea).height, cur.outImage, cur.x, cur.y⟩, outChain := st.outChain.eraseIdx prevPos } aId = ⟨(st.areas.getD aId dArea).object, (st.areas.getD aId dArea).width, (st.areas.getD aId dArea).height, cur.outImage, cur.x, cur.y⟩ := hfd
                have hG3u : GInv arr0 [] { st with outImages := writeImg st.outImages cur.outImage.toNat chk.outImage, outSize := chk.outSize, areas := st.areas.setD aId ⟨(st.areas.getD aId dArea).object, (st.areas.getD aId dArea).width, (st.areas.getD aId dArea).height, cur.outImage, cur.x, cur.y⟩, outChain := st.outChain.eraseIdx prevPos } := by
                  refine GInv_undead hG3 ?_ ?_ ?_
                  · rw [hfd3]
                    exact ⟨hgood.hx, hgood.hy, hgood.hi0, hgood.hic, hgood.hw, hgood.hh⟩
                  · intro j hj himg
                    have hjne : j ≠ aId := by simpa using hj.2.2
                    have haeqj : areaD { st with outImages := writeImg st.outImages cur.outImage.toNat chk.outImage, outSize := chk.outSize, areas := st.areas.setD aId ⟨(st.areas.getD aId dArea).object, (st.areas.getD aId dArea).width, (st.areas.getD aId dArea).height, cur.outImage, cur.x, cur.y⟩, outChain := st.outChain.eraseIdx prevPos } j = areaD st j := by
                      unfold areaD
                      dsimp only
                      rw [getD_setD, if_neg (by tauto)]
                    rw [hfd3, haeqj] at himg ⊢
                    exact hdp j (by exact hj) himg
                  · intro s hs himg
                    rw [hfd3] at himg ⊢
                    exact hdr s (by exact hs) himg
                have haW : 0 ≤ (st.areas.getD aId dArea).width := by
                  have h1 := (hG.dims aId).1
                  have h2 := (hnn aId).1
                  unfold areaD at h1
                  omega
                have haH : 0 ≤ (st.areas.getD aId dArea).height := by
                  have h1 := (hG.dims aId).2
                  have h2 := (hnn aId).2
                  unfold areaD at h1
                  omega
                have hG3c : GInv arr0 [] { st with outImages := writeImg st.outImages cur.outImage.toNat chk.outImage, outSize := chk.outSize, areas := st.areas.setD aId ⟨(st.areas.getD aId dArea).object, (st.areas.getD aId dArea).width, (st.areas.getD aId dArea).height, cur.outImage, cur.x, cur.y⟩, outChain := C1.2 } := by
                  rw [← hC1]
                  refine GInv_insertConfig1 hG3u cur _ _ mwh.1 mwh.2 haW haH (by unfold areaD at hremR; exact hremR) (by unfold areaD at hremB; exact hremB) (by exact hcwf) (by rw [hfd3]) (by rw [hfd3]) (by rw [hfd3]) (by rw [hfd3]) ?_ ?_
                  · intro i hi hine himg
                    have haeqi : areaD { st with outImages := writeImg st.outImages cur.outImage.toNat chk.outImage, outSize := chk.outSize, areas := st.areas.setD aId ⟨(st.areas.getD aId dArea).object, (st.areas.getD aId dArea).width, (st.areas.getD aId dArea).height, cur.outImage, cur.x, cur.y⟩, outChain := st.outChain.eraseIdx prevPos } i = areaD st i := by
                      unfold areaD
                      dsimp only
                      rw [getD_setD, if_neg (by tauto)]
                    rw [haeqi] at himg ⊢
                    refine hG.pl_reg i ⟨?_, hi.2.1, by simpa using hine⟩ cur hcm himg
                    have h1 := hi.1
                    dsimp only at h1
                    rw [Array.size_setD] at h1
                    exact h1
                  · intro rg hrg himg
                    exact pairwise_rel_eraseIdx (fun a b hab h2 => (hab h2.symm).symm) st.outChain prevPos cur hG.reg_reg hcur rg (by exact hrg) himg
                obtain ⟨hp4, hrest4⟩ := ih (.outer 0) _ _ heq1 hG3c trivial
                obtain ⟨hG4, SP4⟩ := hrest4 rfl
                have hch4 : st4.outChain = C1.2 := SP4.chain
                have hch5 : removeChildren C1.1 st4.outChain = st.outChain.eraseIdx prevPos := by
                  rw [hch4, ← hC1, removeChildren_insertConfig1]
                have hunf4 : st4.unfitted = st.unfitted := SP4.unfit
                have hsz4 : st4.areas.size = st.areas.size := by
                  have h1 : st4.areas.size = (st.areas.setD aId ⟨(st.areas.getD aId dArea).object, (st.areas.getD aId dArea).width, (st.areas.getD aId dArea).height, cur.outImage, cur.x, cur.y⟩).size := SP4.asz
                  rw [Array.size_setD] at h1
                  exact h1
                have hcnt4 : st4.outImageCount = st.outImageCount := SP4.cnt
                have hosz4 : st4.outSize = chk.outSize := SP4.osize
                have himgs4 : ∀ k : Nat, k < st.outImageCount.toNat → st4.outImages.getD k dImg = (writeImg st.outImages cur.outImage.toNat chk.outImage).getD k dImg :=
                  fun k hk => SP4.imgs k (by exact hk)
                have hfd4 : st4.areas.getD aId dArea = ⟨(st.areas.getD aId dArea).object, (st.areas.getD aId dArea).width, (st.areas.getD aId dArea).height, cur.outImage, cur.x, cur.y⟩ := by
                  have h1 : st4.areas.getD aId dArea = (st.areas.setD aId ⟨(st.areas.getD aId dArea).object, (st.areas.getD aId dArea).width, (st.areas.getD aId dArea).height, cur.outImage, cur.x, cur.y⟩).getD aId dArea := SP4.areas aId (by exact hnotin) (by exact List.not_mem_nil _)
                  rw [h1, getD_setD, if_pos ⟨rfl, haid⟩]
                have hareas4 : ∀ i, i ∉ st.unfitted → i ≠ aId → st4.areas.getD i dArea = st.areas.getD i dArea := by
                  intro i h1 h2
                  have h3 : st4.areas.getD i dArea = (st.areas.setD aId ⟨(st.areas.getD aId dArea).object, (st.areas.getD aId dArea).width, (st.areas.getD aId dArea).height, cur.outImage, cur.x, cur.y⟩).getD i dArea := SP4.areas i (by exact h1) (by exact List.not_mem_nil _)
                  rw [h3, getD_setD, if_neg (by tauto)]
                have hiszge4 : st.outImages.size ≤ st4.outImages.size :=
                  le_trans (size_writeImg_ge _ _ _) (by exact SP4.iszge)
                have hG5 : GInv arr0 [] { st4 with outChain := removeChildren C1.1 st4.outChain } :=
                  GInv_removeChildren _ hG4
                generalize hC2 : insertConfig2 cur (st.areas.getD aId dArea).width (st.areas.getD aId dArea).height mwh.1 mwh.2 (cur.width - (st.areas.getD aId dArea).width) (cur.height - (st.areas.getD aId dArea).height) (removeChildren C1.1 st4.outChain) = C2 at h heq2
                have hG5c : GInv arr0 [] { st4 with outChain := C2.2 } := by
                  rw [← hC2]
                  refine @GInv_insertConfig2 arr0 aId _ hG5 cur _ _ mwh.1 mwh.2 haW haH (by unfold areaD at hremR; exact hremR) (by unfold areaD at hremB; exact hremB) ?_ ?_ ?_ ?_ ?_ ?_ ?_
                  · exact ⟨hcwf.1, hcwf.2.1, hcwf.2.2.1, by
                      show cur.outImage < st4.outImageCount
                      omega⟩
                  · show (st4.areas.getD aId dArea).outX = cur.x
                    rw [hfd4]
                  · show (st4.areas.getD aId dArea).outY = cur.y
                    rw [hfd4]
                  · show (st4.areas.getD aId dArea).width = _
                    rw [hfd4]
                  · show (st4.areas.getD aId dArea).height = _
                    rw [hfd4]
                  · intro i hi hine himg
                    have h2 : i ∉ st4.unfitted := hi.2.1
                    have h1 : i ∉ st.unfitted := by
                      rw [← hunf4]
                      exact h2
                    have himg2 : (st.areas.getD i dArea).outImage = cur.outImage := by
                      rw [← hareas4 i h1 hine]
                      exact himg
                    have h3 : i < st4.areas.size := hi.1
                    have hd := hG.pl_reg i ⟨by omega, h1, by simpa using hine⟩ cur hcm (by exact himg2)
                    have hfin : areaD st i = st4.areas.getD i dArea := (hareas4 i h1 hine).symm
                    have hd2 : Disjoint (aPts (st4.areas.getD i dArea)) (rPts cur) := by
                      rw [← hfin]
                      exact hd
                    exact hd2
                  · intro rg hrg himg
                    have hrg2 : rg ∈ st.outChain.eraseIdx prevPos := by
                      rw [← hch5]
                      exact hrg
                    exact pairwise_rel_eraseIdx (fun a b hab h2 => (hab h2.symm).symm) st.outChain prevPos cur hG.reg_reg hcur rg hrg2 himg
                obtain ⟨hp6, hrest6⟩ := ih (.outer 0) _ _ heq2 hG5c trivial
                obtain ⟨hG6, SP6⟩ := hrest6 rfl
                have hch6a : st6.outChain = C2.2 := SP6.chain
                have hch6 : removeChildren C2.1 st6.outChain = st.outChain.eraseIdx prevPos := by
                  rw [hch6a, ← hC2, removeChildren_insertConfig2]
                  exact hch5
                have hunf6 : st6.unfitted = st.unfitted := by
                  have h1 : st6.unfitted = st4.unfitted := SP6.unfit
                  rw [h1, hunf4]
                have hsz6 : st6.areas.size = st.areas.size := by
                  have h1 : st6.areas.size = st4.areas.size := SP6.asz
                  omega
                have hcnt6 : st6.outImageCount = st.outImageCount := by
                  have h1 : st6.outImageCount = st4.outImageCount := SP6.cnt
                  omega
                have hosz6 : st6.outSize = chk.outSize := by
                  have h1 : st6.outSize = st4.outSize := SP6.osize
                  rw [h1, hosz4]
                have himgs6 : ∀ k : Nat, k < st.outImageCount.toNat → st6.outImages.getD k dImg = (writeImg st.outImages cur.outImage.toNat chk.outImage).getD k dImg := by
                  intro k hk
                  have h1 : st6.outImages.getD k dImg = st4.outImages.getD k dImg := SP6.imgs k (by show k < st4.outImageCount.toNat; omega)
                  rw [h1, himgs4 k hk]
                have hareas6 : ∀ i, i ∉ st.unfitted → i ≠ aId → st6.areas.getD i dArea = st.areas.getD i dArea := by
                  intro i h1 h2
                  have h3 : st6.areas.getD i dArea = st4.areas.getD i dArea := SP6.areas i (by show i ∉ st4.unfitted; rw [hunf4]; exact h1) (by exact List.not_mem_nil _)
                  rw [h3, hareas4 i h1 h2]
                have hiszge6 : st.outImages.size ≤ st6.outImages.size := by
                  have h1 : st4.outImages.size ≤ st6.outImages.size := SP6.iszge
                  omega
                have hG6e : GInv arr0 [] { st6 with outChain := removeChildren C2.1 st6.outChain } :=
                  GInv_removeChildren _ hG6
                have hGJ : GInv arr0 [aId] { st6 with outChain := (removeChildren C2.1 st6.outChain).insertIdx prevPos cur } := by
                  have h0 := GInv_reinsert hG6e (by exact hch6) hcur (by exact hcnt6) hG (by exact hunf6) (by exact hsz6) (fun i h1 h2 => by exact hareas6 i h1 h2)
                  exact h0
                have hE : TrialEq aId st (restoreIf chk cur { st6 with outChain := (removeChildren C2.1 st6.outChain).insertIdx prevPos cur }) := by
                  refine restore_TrialEq hrt hrf (by exact hunf6) (by exact hsz6) (fun i h1 h2 => by exact hareas6 i h1 h2) ?_ (by exact hcnt6) (by exact hosz6) ?_ ?_ ?_ (by exact hiszge6)
                  · show (removeChildren C2.1 st6.outChain).insertIdx prevPos cur = _
                    rw [hch6, insertIdx_eraseIdx_self _ _ _ hcur]
                  · intro k hk hkne
                    have h1 : ({ st6 with outChain := (removeChildren C2.1 st6.outChain).insertIdx prevPos cur } : SState).outImages.getD k dImg = st6.outImages.getD k dImg := rfl
                    rw [h1, himgs6 k hk]
                    exact himgsC k hk hkne
                  · show st6.outImages.getD cur.outImage.toNat dImg = chk.outImage
                    rw [himgs6 cur.outImage.toNat (by omega), getD_writeImg _ _ _ _ _ hslotle0, if_pos rfl]
                  · show cur.outImage.toNat ≤ st6.outImages.size
                    omega
                have hGZ : GInv arr0 [aId] (restoreIf chk cur { st6 with outChain := (removeChildren C2.1 st6.outChain).insertIdx prevPos cur }) := by
                  have hRf := restoreIf_frame chk cur { st6 with outChain := (removeChildren C2.1 st6.outChain).insertIdx prevPos cur }
                  refine GInv_of_trialEq hG hE ?_ ?_
                  · intro i
                    have e : areaD (restoreIf chk cur { st6 with outChain := (removeChildren C2.1 st6.outChain).insertIdx prevPos cur }) i = areaD st6 i := by
                      unfold areaD
                      rw [hRf.2.1]
                    constructor
                    · rw [e, (hG6.dims i).1, ← (hG.dims i).1]
                    · rw [e, (hG6.dims i).2, ← (hG.dims i).2]
                  · exact PubInv_congr (by exact hRf.2.2.2.2.1) (by exact hRf.2.2.2.2.2.2) (by exact hRf.2.2.2.2.2.1) (by exact hG6.pub)
                have hpreZ := @after_pre aId prevPos chk.outAreasTried wasAdded st _ hE haid hnotin (fun hw => (hwx hw).1)
                obtain ⟨hp, hrest⟩ := ih (.after aId prevPos chk.outAreasTried wasAdded) _ _ h hGZ hpreZ
                refine ⟨hp, fun hf => ?_⟩
                obtain ⟨hGa, hSa⟩ := hrest hf
                exact ⟨hGa, trial_compose hE hSa⟩
            · rename_i hlen
              generalize hchk : checkAreaFitAgainstBest (cur.x + (st.areas.getD aId dArea).width) (cur.y + (st.areas.getD aId dArea).height) (st.outImages.getD cur.outImage.toNat dImg) false dImg 0 st.outSize st.bestOutSize p.maxS tried = chk at hok h heq1
              generalize hmw : minWH { st with outImages := writeImg st.outImages cur.outImage.toNat chk.outImage, outSize := chk.outSize, areas := st.areas.setD aId ⟨(st.areas.getD aId dArea).object, (st.areas.getD aId dArea).width, (st.areas.getD aId dArea).height, cur.outImage, cur.x, cur.y⟩ } = mwh at h heq1
              generalize hC1 : insertConfig1 cur (st.areas.getD aId dArea).width (st.areas.getD aId dArea).height mwh.1 mwh.2 (cur.width - (st.areas.getD aId dArea).width) (cur.height - (st.areas.getD aId dArea).height) (st.outChain.eraseIdx prevPos) = C1 at h heq1
              obtain ⟨haid, hnotin, hcur, hwx⟩ :
                  aId < st.areas.size ∧ aId ∉ st.unfitted ∧
                  st.outChain.get? prevPos = some cur ∧
                  (wasAdded = true → WExtra aId prevPos st ∧
                    (areaD st aId).width ≤ cur.width ∧
                    (areaD st aId).height ≤ cur.height) := hpre
              have hremR : (areaD st aId).width ≤ cur.width := by
                unfold areaD
                omega
              have hremB : (areaD st aId).height ≤ cur.height := by
                unfold areaD
                omega
              obtain ⟨hGc, hfd, hgood, hsub, hdp, hdr, himgsC, hrt, hrf⟩ :=
                commit_place hG haid hcur hremR hremB hchk.symm hok ⟨(st.areas.getD aId dArea).object, (st.areas.getD aId dArea).width, (st.areas.getD aId dArea).height, cur.outImage, cur.x, cur.y⟩ rfl rfl rfl rfl rfl
              have hcm := List.get?_mem hcur
              have hcwf := hG.reg_wf cur hcm
              have hc0 := hG.cnt0
              have hcsz := hG.cntsz
              have hslotle0 : cur.outImage.toNat ≤ st.outImages.size := by omega
              have hplt : prevPos < st.outChain.length := by
                have hcur2 := hcur
                rw [List.get?_eq_some] at hcur2
                exact hcur2.1
              have hG3 : GInv arr0 [aId] { st with outImages := writeImg st.outImages cur.outImage.toNat chk.outImage, outSize := chk.outSize, areas := st.areas.setD aId ⟨(st.areas.getD aId dArea).object, (st.areas.getD aId dArea).width, (st.areas.getD aId dArea).height, cur.outImage, cur.x, cur.y⟩, outChain := st.outChain.eraseIdx prevPos } := by
                have h0 := GInv_chainErase prevPos hGc
                exact h0
              have hfd3 : areaD { st with outImages := writeImg st.outImages cur.outImage.toNat chk.outImage, outSize := chk.outSize, areas := st.areas.setD aId ⟨(st.areas.getD aId dArea).object, (st.areas.getD aId dArea).width, (st.areas.getD aId dArea).height, cur.outImage, cur.x, cur.y⟩, outChain := st.outChain.eraseIdx prevPos } aId = ⟨(st.areas.getD aId dArea).object, (st.areas.getD aId dArea).width, (st.areas.getD aId dArea).height, cur.outImage, cur.x, cur.y⟩ := hfd
              have hG3u : GInv arr0 [] { st with outImages := writeImg st.outImages cur.outImage.toNat chk.outImage, outSize := chk.outSize, areas := st.areas.setD aId ⟨(st.areas.getD aId dArea).object, (st.areas.getD aId dArea).width, (st.areas.getD aId dArea).height, cur.outImage, cur.x, cur.y⟩, outChain := st.outChain.eraseIdx prevPos } := by
                refine GInv_undead hG3 ?_ ?_ ?_
                · rw [hfd3]
                  exact ⟨hgood.hx, hgood.hy, hgood.hi0, hgood.hic, hgood.hw, hgood.hh⟩
                · intro j hj himg
                  have hjne : j ≠ aId := by simpa using hj.2.2
                  have haeqj : areaD { st with outImages := writeImg st.outImages cur.outImage.toNat chk.outImage, outSize := chk.outSize, areas := st.areas.setD aId ⟨(st.areas.getD aId dArea).object, (st.areas.getD aId dArea).width, (st.areas.getD aId dArea).height, cur.outImage, cur.x, cur.y⟩, outChain := st.outChain.eraseIdx prevPos } j = areaD st j := by
                    unfold areaD
                    dsimp only
                    rw [getD_setD, if_neg (by tauto)]
                  rw [hfd3, haeqj] at himg ⊢
                  exact hdp j (by exact hj) himg
                · intro s hs himg
                  rw [hfd3] at himg ⊢
                  exact hdr s (by exact hs) himg
              have haW : 0 ≤ (st.areas.getD aId dArea).width := by
                have h1 := (hG.dims aId).1
                have h2 := (hnn aId).1
                unfold areaD at h1
                omega
              have haH : 0 ≤ (st.areas.getD aId dArea).height := by
                have h1 := (hG.dims aId).2
                have h2 := (hnn aId).2
                unfold areaD at h1
                omega
              have hG3c : GInv arr0 [] { st with outImages := writeImg st.outImages cur.outImage.toNat chk.outImage, outSize := chk.outSize, areas := st.areas.setD aId ⟨(st.areas.getD aId dArea).object, (st.areas.getD aId dArea).width, (st.areas.getD aId dArea).height, cur.outImage, cur.x, cur.y⟩, outChain := C1.2 } := by
                rw [← hC1]
                refine GInv_insertConfig1 hG3u cur _ _ mwh.1 mwh.2 haW haH (by unfold areaD at hremR; exact hremR) (by unfold areaD at hremB; exact hremB) (by exact hcwf) (by rw [hfd3]) (by rw [hfd3]) (by rw [hfd3]) (by rw [hfd3]) ?_ ?_
                · intro i hi hine himg
                  have haeqi : areaD { st with outImages := writeImg st.outImages cur.outImage.toNat chk.outImage, outSize := chk.outSize, areas := st.areas.setD aId ⟨(st.areas.getD aId dArea).object, (st.areas.getD aId dArea).width, (st.areas.getD aId dArea).height, cur.outImage, cur.x, cur.y⟩, outChain := st.outChain.eraseIdx prevPos } i = areaD st i := by
                    unfold areaD
                    dsimp only
                    rw [getD_setD, if_neg (by tauto)]
                  rw [haeqi] at himg ⊢
                  refine hG.pl_reg i ⟨?_, hi.2.1, by simpa using hine⟩ cur hcm himg
                  have h1 := hi.1
                  dsimp only at h1
                  rw [Array.size_setD] at h1
                  exact h1
                · intro rg hrg himg
                  exact pairwise_rel_eraseIdx (fun a b hab h2 => (hab h2.symm).symm) st.outChain prevPos cur hG.reg_reg hcur rg (by exact hrg) himg
              obtain ⟨hp4, hrest4⟩ := ih (.outer 0) _ _ heq1 hG3c trivial
              obtain ⟨hG4, SP4⟩ := hrest4 rfl
              have hch4 : st4.outChain = C1.2 := SP4.chain
              have hch5 : removeChildren C1.1 st4.outChain = st.outChain.eraseIdx prevPos := by
                rw [hch4, ← hC1, removeChildren_insertConfig1]
              have hunf4 : st4.unfitted = st.unfitted := SP4.unfit
              have hsz4 : st4.areas.size = st.areas.size := by
                have h1 : st4.areas.size = (st.areas.setD aId ⟨(st.areas.getD aId dArea).object, (st.areas.getD aId dArea).width, (st.areas.getD aId dArea).height, cur.outImage, cur.x, cur.y⟩).size := SP4.asz
                rw [Array.size_setD] at h1
                exact h1
              have hcnt4 : st4.outImageCount = st.outImageCount := SP4.cnt
              have hosz4 : st4.outSize = chk.outSize := SP4.osize
              have himgs4 : ∀ k : Nat, k < st.outImageCount.toNat → st4.outImages.getD k dImg = (writeImg st.outImages cur.outImage.toNat chk.outImage).getD k dImg :=
                fun k hk => SP4.imgs k (by exact hk)
              have hfd4 : st4.areas.getD aId dArea = ⟨(st.areas.getD aId dArea).object, (st.areas.getD aId dArea).width, (st.areas.getD aId dArea).height, cur.outImage, cur.x, cur.y⟩ := by
                have h1 : st4.areas.getD aId dArea = (st.areas.setD aId ⟨(st.areas.getD aId dArea).object, (st.areas.getD aId dArea).width, (st.areas.getD aId dArea).height, cur.outImage, cur.x, cur.y⟩).getD aId dArea := SP4.areas aId (by exact hnotin) (by exact List.not_mem_nil _)
                rw [h1, getD_setD, if_pos ⟨rfl, haid⟩]
              have hareas4 : ∀ i, i ∉ st.unfitted → i ≠ aId → st4.areas.getD i dArea = st.areas.getD i dArea := by
                intro i h1 h2
                have h3 : st4.areas.getD i dArea = (st.areas.setD aId ⟨(st.areas.getD aId dArea).object, (st.areas.getD aId dArea).width, (st.areas.getD aId dArea).height, cur.outImage, cur.x, cur.y⟩).getD i dArea := SP4.areas i (by exact h1) (by exact List.not_mem_nil _)
                rw [h3, getD_setD, if_neg (by tauto)]
              have hiszge4 : st.outImages.size ≤ st4.outImages.size :=
                le_trans (size_writeImg_ge _ _ _) (by exact SP4.iszge)
              have hG5 : GInv arr0 [] { st4 with outChain := removeChildren C1.1 st4.outChain } :=
                GInv_removeChildren _ hG4
              have hGJ : GInv arr0 [aId] { st4 with outChain := (removeChildren C1.1 st4.outChain).insertIdx prevPos cur } := by
                have h0 := GInv_reinsert hG5 (by exact hch5) hcur (by exact hcnt4) hG (by exact hunf4) (by exact hsz4) (fun i h1 h2 => by exact hareas4 i h1 h2)
                exact h0
              have hE : TrialEq aId st (restoreIf chk cur { st4 with outChain := (removeChildren C1.1 st4.outChain).insertIdx prevPos cur }) := by
                refine restore_TrialEq hrt hrf (by exact hunf4) (by exact hsz4) (fun i h1 h2 => by exact hareas4 i h1 h2) ?_ (by exact hcnt4) (by exact hosz4) ?_ ?_ ?_ (by exact hiszge4)
                · show (removeChildren C1.1 st4.outChain).insertIdx prevPos cur = _
                  rw [hch5, insertIdx_eraseIdx_self _ _ _ hcur]
                · intro k hk hkne
                  have h1 : ({ st4 with outChain := (removeChildren C1.1 st4.outChain).insertIdx prevPos cur } : SState).outImages.getD k dImg = st4.outImages.getD k dImg := rfl
                  rw [h1, himgs4 k hk]
                  exact himgsC k hk hkne
                · show st4.outImages.getD cur.outImage.toNat dImg = chk.outImage
                  rw [himgs4 cur.outImage.toNat (by omega), getD_writeImg _ _ _ _ _ hslotle0, if_pos rfl]
                · show cur.outImage.toNat ≤ st4.outImages.size
                  omega
              have hGZ : GInv arr0 [aId] (restoreIf chk cur { st4 with outChain := (removeChildren C1.1 st4.outChain).insertIdx prevPos cur }) := by
                have hRf := restoreIf_frame chk cur { st4 with outChain := (removeChildren C1.1 st4.outChain).insertIdx prevPos cur }
                refine GInv_of_trialEq hG hE ?_ ?_
                · intro i
                  have e : areaD (restoreIf chk cur { st4 with outChain := (removeChildren C1.1 st4.outChain).insertIdx prevPos cur }) i = areaD st4 i := by
                    unfold areaD
                    rw [hRf.2.1]
                  constructor
                  · rw [e, (hG4.dims i).1, ← (hG.dims i).1]
                  · rw [e, (hG4.dims i).2, ← (hG.dims i).2]
                · exact PubInv_congr (by exact hRf.2.2.2.2.1) (by exact hRf.2.2.2.2.2.2) (by exact hRf.2.2.2.2.2.1) (by exact hG4.pub)
              have hpreZ := @after_pre aId prevPos chk.outAreasTried wasAdded st _ hE haid hnotin (fun hw => (hwx hw).1)
              obtain ⟨hp, hrest⟩ := ih (.after aId prevPos chk.outAreasTried wasAdded) _ _ h hGZ hpreZ
              refine ⟨hp, fun hf => ?_⟩
              obtain ⟨hGa, hSa⟩ := hrest hf
              exact ⟨hGa, trial_compose hE hSa⟩
          · rename_i hbound
            generalize hchk : checkAreaFitAgainstBest (cur.x + (st.areas.getD aId dArea).width) (cur.y + (st.areas.getD aId dArea).height) (st.outImages.getD cur.outImage.toNat dImg) false dImg 0 st.outSize st.bestOutSize p.maxS tried = chk at hok h heq1
            generalize hmw : minWH { st with outImages := writeImg st.outImages cur.outImage.toNat chk.outImage, outSize := chk.outSize, areas := st.areas.setD aId ⟨(st.areas.getD aId dArea).object, (st.areas.getD aId dArea).width, (st.areas.getD aId dArea).height, cur.outImage, cur.x, cur.y⟩ } = mwh at h heq1
            generalize hC1 : insertConfig1 cur (st.areas.getD aId dArea).width (st.areas.getD aId dArea).height mwh.1 mwh.2 (cur.width - (st.areas.getD aId dArea).width) (cur.height - (st.areas.getD aId dArea).height) (st.outChain.eraseIdx prevPos) = C1 at h heq1
            obtain ⟨haid, hnotin, hcur, hwx⟩ :
                aId < st.areas.size ∧ aId ∉ st.unfitted ∧
                st.outChain.get? prevPos = some cur ∧
                (wasAdded = true → WExtra aId prevPos st ∧
                  (areaD st aId).width ≤ cur.width ∧
                  (areaD st aId).height ≤ cur.height) := hpre
            have hremR : (areaD st aId).width ≤ cur.width := by
              unfold areaD
              omega
            have hremB : (areaD st aId).height ≤ cur.height := by
              unfold areaD
              omega
            obtain ⟨hGc, hfd, hgood, hsub, hdp, hdr, himgsC, hrt, hrf⟩ :=
              commit_place hG haid hcur hremR hremB hchk.symm hok ⟨(st.areas.getD aId dArea).object, (st.areas.getD aId dArea).width, (st.areas.getD aId dArea).height, cur.outImage, cur.x, cur.y⟩ rfl rfl rfl rfl rfl
            have hcm := List.get?_mem hcur
            have hcwf := hG.reg_wf cur hcm
            have hc0 := hG.cnt0
            have hcsz := hG.cntsz
            have hslotle0 : cur.outImage.toNat ≤ st.outImages.size := by omega
            have hplt : prevPos < st.outChain.length := by
              have hcur2 := hcur
              rw [List.get?_eq_some] at hcur2
              exact hcur2.1
            have hG3 : GInv arr0 [aId] { st with outImages := writeImg st.outImages cur.outImage.toNat chk.outImage, outSize := chk.outSize, areas := st.areas.setD aId ⟨(st.areas.getD aId dArea).object, (st.areas.getD aId dArea).width, (st.areas.getD aId dArea).height, cur.outImage, cur.x, cur.y⟩, outChain := st.outChain.eraseIdx prevPos } := by
              have h0 := GInv_chainErase prevPos hGc
              exact h0
            have hfd3 : areaD { st with outImages := writeImg st.outImages cur.outImage.toNat chk.outImage, outSize := chk.outSize, areas := st.areas.setD aId ⟨(st.areas.getD aId dArea).object, (st.areas.getD aId dArea).width, (st.areas.getD aId dArea).height, cur.outImage, cur.x, cur.y⟩, outChain := st.outChain.eraseIdx prevPos } aId = ⟨(st.areas.getD aId dArea).object, (st.areas.getD aId dArea).width, (st.areas.getD aId dArea).height, cur.outImage, cur.x, cur.y⟩ := hfd
            have hG3u : GInv arr0 [] { st with outImages := writeImg st.outImages cur.outImage.toNat chk.outImage, outSize := chk.outSize, areas := st.areas.setD aId ⟨(st.areas.getD aId dArea).object, (st.areas.getD aId dArea).width, (st.areas.getD aId dArea).height, cur.outImage, cur.x, cur.y⟩, outChain := st.outChain.eraseIdx prevPos } := by
              refine GInv_undead hG3 ?_ ?_ ?_
              · rw [hfd3]
                exact ⟨hgood.hx, hgood.hy, hgood.hi0, hgood.hic, hgood.hw, hgood.hh⟩
              · intro j hj himg
                have hjne : j ≠ aId := by simpa using hj.2.2
                have haeqj : areaD { st with outImages := writeImg st.outImages cur.outImage.toNat chk.outImage, outSize := chk.outSize, areas := st.areas.setD aId ⟨(st.areas.getD aId dArea).object, (st.areas.getD aId dArea).width, (st.areas.getD aId dArea).height, cur.outImage, cur.x, cur.y⟩, outChain := st.outChain.eraseIdx prevPos } j = areaD st j := by
                  unfold areaD
                  dsimp only
                  rw [getD_setD, if_neg (by tauto)]
                rw [hfd3, haeqj] at himg ⊢
                exact hdp j (by exact hj) himg
              · intro s hs himg
                rw [hfd3] at himg ⊢
                exact hdr s (by exact hs) himg
            have haW : 0 ≤ (st.areas.getD aId dArea).width := by
              have h1 := (hG.dims aId).1
              have h2 := (hnn aId).1
              unfold areaD at h1
              omega
            have haH : 0 ≤ (st.areas.getD aId dArea).height := by
              have h1 := (hG.dims aId).2
              have h2 := (hnn aId).2
              unfold areaD at h1
              omega
            have hG3c : GInv arr0 [] { st with outImages := writeImg st.outImages cur.outImage.toNat chk.outImage, outSize := chk.outSize, areas := st.areas.setD aId ⟨(st.areas.getD aId dArea).object, (st.areas.getD aId dArea).width, (st.areas.getD aId dArea).height, cur.outImage, cur.x, cur.y⟩, outChain := C1.2 } := by
              rw [← hC1]
              refine GInv_insertConfig1 hG3u cur _ _ mwh.1 mwh.2 haW haH (by unfold areaD at hremR; exact hremR) (by unfold areaD at hremB; exact hremB) (by exact hcwf) (by rw [hfd3]) (by rw [hfd3]) (by rw [hfd3]) (by rw [hfd3]) ?_ ?_
              · intro i hi hine himg
                have haeqi : areaD { st with outImages := writeImg st.outImages cur.outImage.toNat chk.outImage, outSize := chk.outSize, areas := st.areas.setD aId ⟨(st.areas.getD aId dArea).object, (st.areas.getD aId dArea).width, (st.areas.getD aId dArea).height, cur.outImage, cur.x, cur.y⟩, outChain := st.outChain.eraseIdx prevPos } i = areaD st i := by
                  unfold areaD
                  dsimp only
                  rw [getD_setD, if_neg (by tauto)]
                rw [haeqi] at himg ⊢
                refine hG.pl_reg i ⟨?_, hi.2.1, by simpa using hine⟩ cur hcm himg
                have h1 := hi.1
                dsimp only at h1
                rw [Array.size_setD] at h1
                exact h1
              · intro rg hrg himg
                exact pairwise_rel_eraseIdx (fun a b hab h2 => (hab h2.symm).symm) st.outChain prevPos cur hG.reg_reg hcur rg (by exact hrg) himg
            obtain ⟨hp4, hrest4⟩ := ih (.outer 0) _ _ heq1 hG3c trivial
            obtain ⟨hG4, SP4⟩ := hrest4 rfl
            have hch4 : st4.outChain = C1.2 := SP4.chain
            have hch5 : removeChildren C1.1 st4.outChain = st.outChain.eraseIdx prevPos := by
              rw [hch4, ← hC1, removeChildren_insertConfig1]
            have hunf4 : st4.unfitted = st.unfitted := SP4.unfit
            have hsz4 : st4.areas.size = st.areas.size := by
              have h1 : st4.areas.size = (st.areas.setD aId ⟨(st.areas.getD aId dArea).object, (st.areas.getD aId dArea).width, (st.areas.getD aId dArea).height, cur.outImage, cur.x, cur.y⟩).size := SP4.asz
              rw [Array.size_setD] at h1
              exact h1
            have hcnt4 : st4.outImageCount = st.outImageCount := SP4.cnt
            have hosz4 : st4.outSize = chk.outSize := SP4.osize
            have himgs4 : ∀ k : Nat, k < st.outImageCount.toNat → st4.outImages.getD k dImg = (writeImg st.outImages cur.outImage.toNat chk.outImage).getD k dImg :=
              fun k hk => SP4.imgs k (by exact hk)
            have hfd4 : st4.areas.getD aId dArea = ⟨(st.areas.getD aId dArea).object, (st.areas.getD aId dArea).width, (st.areas.getD aId dArea).height, cur.outImage, cur.x, cur.y⟩ := by
              have h1 : st4.areas.getD aId dArea = (st.areas.setD aId ⟨(st.areas.getD aId dArea).object, (st.areas.getD aId dArea).width, (st.areas.getD aId dArea).height, cur.outImage, cur.x, cur.y⟩).getD aId dArea := SP4.areas aId (by exact hnotin) (by exact List.not_mem_nil _)
              rw [h1, getD_setD, if_pos ⟨rfl, haid⟩]
            have hareas4 : ∀ i, i ∉ st.unfitted → i ≠ aId → st4.areas.getD i dArea = st.areas.getD i dArea := by
              intro i h1 h2
              have h3 : st4.areas.getD i dArea = (st.areas.setD aId ⟨(st.areas.getD aId dArea).object, (st.areas.getD aId dArea).width, (st.areas.getD aId dArea).height, cur.outImage, cur.x, cur.y⟩).getD i dArea := SP4.areas i (by exact h1) (by exact List.not_mem_nil _)
              rw [h3, getD_setD, if_neg (by tauto)]
            have hiszge4 : st.outImages.size ≤ st4.outImages.size :=
              le_trans (size_writeImg_ge _ _ _) (by exact SP4.iszge)
            have hG5 : GInv arr0 [] { st4 with outChain := removeChildren C1.1 st4.outChain } :=
              GInv_removeChildren _ hG4
            have hGJ : GInv arr0 [aId] { st4 with outChain := (removeChildren C1.1 st4.outChain).insertIdx prevPos cur } := by
              have h0 := GInv_reinsert hG5 (by exact hch5) hcur (by exact hcnt4) hG (by exact hunf4) (by exact hsz4) (fun i h1 h2 => by exact hareas4 i h1 h2)
              exact h0
            have hE : TrialEq aId st (restoreIf chk cur { st4 with outChain := (removeChildren C1.1 st4.outChain).insertIdx prevPos cur }) := by
              refine restore_TrialEq hrt hrf (by exact hunf4) (by exact hsz4) (fun i h1 h2 => by exact hareas4 i h1 h2) ?_ (by exact hcnt4) (by exact hosz4) ?_ ?_ ?_ (by exact hiszge4)
              · show (removeChildren C1.1 st4.outChain).insertIdx prevPos cur = _
                rw [hch5, insertIdx_eraseIdx_self _ _ _ hcur]
              · intro k hk hkne
                have h1 : ({ st4 with outChain := (removeChildren C1.1 st4.outChain).insertIdx prevPos cur } : SState).outImages.getD k dImg = st4.outImages.getD k dImg := rfl
                rw [h1, himgs4 k hk]
                exact himgsC k hk hkne
              · show st4.outImages.getD cur.outImage.toNat dImg = chk.outImage
                rw [himgs4 cur.outImage.toNat (by omega), getD_writeImg _ _ _ _ _ hslotle0, if_pos rfl]
              · show cur.outImage.toNat ≤ st4.outImages.size
                omega
            have hGZ : GInv arr0 [aId] (restoreIf chk cur { st4 with outChain := (removeChildren C1.1 st4.outChain).insertIdx prevPos cur }) := by
              have hRf := restoreIf_frame chk cur { st4 with outChain := (removeChildren C1.1 st4.outChain).insertIdx prevPos cur }
              refine GInv_of_trialEq hG hE ?_ ?_
              · intro i
                have e : areaD (restoreIf chk cur { st4 with outChain := (removeChildren C1.1 st4.outChain).insertIdx prevPos cur }) i = areaD st4 i := by
                  unfold areaD
                  rw [hRf.2.1]
                constructor
                · rw [e, (hG4.dims i).1, ← (hG.dims i).1]
                · rw [e, (hG4.dims i).2, ← (hG.dims i).2]
              · exact PubInv_congr (by exact hRf.2.2.2.2.1) (by exact hRf.2.2.2.2.2.2) (by exact hRf.2.2.2.2.2.1) (by exact hG4.pub)
            have hpreZ := @after_pre aId prevPos chk.outAreasTried wasAdded st _ hE haid hnotin (fun hw => (hwx hw).1)
            obtain ⟨hp, hrest⟩ := ih (.after aId prevPos chk.outAreasTried wasAdded) _ _ h hGZ hpreZ
            refine ⟨hp, fun hf => ?_⟩
            obtain ⟨hGa, hSa⟩ := hrest hf
            exact ⟨hGa, trial_compose hE hSa⟩
    · -- rejected
      rename_i hok
      generalize hchk : checkAreaFitAgainstBest
        (cur.x + (st.areas.getD aId dArea).width)
        (cur.y + (st.areas.getD aId dArea).height)
        (st.outImages.getD cur.outImage.toNat dImg) false dImg 0
        st.outSize st.bestOutSize p.maxS tried = chk at hok h
      obtain ⟨haid, hnotin, hcur, hwx⟩ :
          aId < st.areas.size ∧ aId ∉ st.unfitted ∧
          st.outChain.get? prevPos = some cur ∧
          (wasAdded = true → WExtra aId prevPos st ∧
            (areaD st aId).width ≤ cur.width ∧
            (areaD st aId).height ≤ cur.height) := hpre
      have hokf : chk.ok = false := by
        cases hx : chk.ok
        · rfl
        · exact absurd hx hok
      obtain ⟨hri, hrs⟩ : chk.outImage =
          st.outImages.getD cur.outImage.toNat dImg ∧
          chk.outSize = st.outSize := by
        rw [← hchk]
        rw [← hchk] at hokf
        exact checkAreaFit_reject _ _ _ _ _ _ _ hokf
      have hcm := List.get?_mem hcur
      have hcwf := hG.reg_wf cur hcm
      have hc0 := hG.cnt0
      have hcsz := hG.cntsz
      have hslotle0 : cur.outImage.toNat ≤ st.outImages.size := by omega
      have hE : TrialEq aId st { st with
          outImages := writeImg st.outImages cur.outImage.toNat chk.outImage
          outSize := chk.outSize } := by
        refine ⟨rfl, rfl, fun i _ _ => rfl, rfl, rfl, hrs, ?_, ?_⟩
        · intro k hk
          dsimp only
          rw [getD_writeImg _ _ _ _ _ hslotle0, hri]
          split
          · rename_i hke
            rw [hke]
          · rfl
        · exact size_writeImg_ge _ _ _
      have hGZ : GInv arr0 [aId] { st with
          outImages := writeImg st.outImages cur.outImage.toNat chk.outImage
          outSize := chk.outSize } :=
        GInv_of_trialEq hG hE (fun i => ⟨rfl, rfl⟩) hG.pub
      have hpreZ := @after_pre aId prevPos chk.outAreasTried wasAdded st _
        hE haid hnotin (fun hw => (hwx hw).1)
      obtain ⟨hp, hrest⟩ := ih (.after aId prevPos chk.outAreasTried
        wasAdded) _ _ h hGZ hpreZ
      refine ⟨hp, fun hf => ?_⟩
      obtain ⟨hGa, hSa⟩ := hrest hf
      exact ⟨hGa, trial_compose hE hSa⟩

theorem search_geom (p : Params) (arr0 : Array CFitArea)
    (hnn : ∀ i : Nat, 0 ≤ (arr0.getD i dArea).width ∧
      0 ≤ (arr0.getD i dArea).height) :
    ∀ fuel : Nat, GeomOk p arr0 fuel := by
  intro fuel
  induction fuel with
  | zero =>
    intro c st r h
    simp [search] at h
  | succ fuel ih =>
    intro c st r h hG hpre
    cases c with
    | outer areaPos => exact geom_outer ih areaPos st r hG h
    | detach areaPos aId => exact geom_detach ih areaPos aId st r hG hpre h
    | region aId prevPos tried =>
      exact geom_region ih aId prevPos tried st r hG hpre h
    | trial aId prevPos tried wasAdded cur =>
      exact geom_trial hnn ih aId prevPos tried wasAdded cur st r hG hpre h
    | after aId prevPos tried wasAdded =>
      exact geom_after ih aId prevPos tried wasAdded st r hG hpre h

/-- Nonnegative dimensions survive the pre-search sort. -/
theorem sorted_nn (areasIn : List CFitArea)
    (hnn : ∀ a ∈ areasIn, 0 ≤ a.width ∧ 0 ≤ a.height) :
    ∀ i : Nat, 0 ≤ ((sortAreasIn areasIn).toArray.getD i dArea).width ∧
      0 ≤ ((sortAreasIn areasIn).toArray.getD i dArea).height := by
  intro i
  rw [toList_toArray_getD]
  by_cases hi : i < (sortAreasIn areasIn).length
  · have hmem : (sortAreasIn areasIn).getD i dArea ∈ sortAreasIn areasIn := by
      rw [List.getD_eq_getElem _ dArea hi]
      exact List.getElem_mem hi
    exact hnn _ ((sortBy_perm inOrder areasIn).mem_iff.mp hmem)
  · rw [List.getD_eq_default _ dArea (by omega)]
    exact ⟨le_refl 0, le_refl 0⟩

/-- C1: every call to `fitAreas` that returns `true` (with spec-conformant
inputs: nonnegative area dimensions, `MinOutImageCount ≥ 1`) places every
returned area inside its output image (`0 ≤ OutX`, `0 ≤ OutY`,
`OutX + Width ≤ OutImages[OutImage].Width`,
`OutY + Height ≤ OutImages[OutImage].Height`), and any two distinct
returned areas on the same output image cover disjoint sets of cells. -/
theorem claim_C1 (areasIn : List CFitArea) (outImagesIn : List COutImage)
    (maxW maxH maxSize0 minCount fitCallsLimit : Int) (fuel : Nat)
    (r : FitResult)
    (hnn : ∀ a ∈ areasIn, 0 ≤ a.width ∧ 0 ≤ a.height)
    (hmc : 1 ≤ minCount)
    (h : fitAreas areasIn outImagesIn maxW maxH maxSize0 minCount
      fitCallsLimit fuel = some r)
    (hs : r.success = true) :
    (∀ a ∈ r.areas,
      0 ≤ a.outX ∧ 0 ≤ a.outY ∧ 0 ≤ a.outImage ∧
      a.outImage.toNat < r.outImages.length ∧
      a.outX + a.width ≤ (r.outImages.getD a.outImage.toNat dImg).width ∧
      a.outY + a.height ≤ (r.outImages.getD a.outImage.toNat dImg).height) ∧
    r.areas.Pairwise (fun a b => a.outImage = b.outImage →
      Disjoint (aPts a) (aPts b)) := by
  unfold fitAreas at h
  split at h
  · rename_i hlt2
    split at h
    · rename_i hlen1
      injection h with h
      subst h
      refine ⟨?_, List.pairwise_singleton _ _⟩
      intro a ha
      rcases List.mem_singleton.mp ha with rfl
      refine ⟨le_refl 0, le_refl 0, le_refl 0, by simp, by simp, by simp⟩
    · rename_i hlen1
      have h0 : areasIn = [] := by
        cases areasIn with
        | nil => rfl
        | cons x xs =>
          exfalso
          simp only [List.length_cons] at hlt2 hlen1
          omega
      subst h0
      injection h with h
      subst h
      exact ⟨fun a ha => absurd ha (List.not_mem_nil a), List.Pairwise.nil⟩
  · rename_i hlen
    simp only [] at h
    split at h
    · exact absurd h (by simp)
    · rename_i st hfu
      split at h
      · rename_i hne
        injection h with h
        subst h
        have hG0 := GInv_init (sortAreasIn areasIn) minCount fitCallsLimit
          maxW maxH (by omega)
        have hgeom := search_geom
          ⟨maxW, maxH, raiseMaxSize (sortAreasIn areasIn) maxSize0⟩
          (sortAreasIn areasIn).toArray (sorted_nn areasIn hnn) fuel
        unfold fitUnfittedAreas at hfu
        have hPub : PubInv (sortAreasIn areasIn).toArray st := by
          split at hfu
          · exact absurd hfu (by simp)
          · rename_i st2 hsr
            injection hfu with hfu
            subst hfu
            exact (hgeom (.outer 0) _ _ hsr hG0 trivial).1
          · rename_i st2 hsr
            have hP2 : PubInv (sortAreasIn areasIn).toArray st2 :=
              (hgeom (.outer 0) _ _ hsr hG0 trivial).1
            split at hfu <;>
              (injection hfu with hfu
               subst hfu
               exact hP2)
        have hPG : PubGood (sortAreasIn areasIn).toArray st.gBestOutSize
            st.gBestFittedAreas st.gBestOutImages := by
          rcases hPub with h1 | h2
          · exact absurd h1 hne
          · exact h2
        constructor
        · intro a ha
          have ha2 : a ∈ st.gBestFittedAreas.toList :=
            ((sortBy_perm outOrder st.gBestFittedAreas.toList).mem_iff).mp ha
          obtain ⟨h1, h2, h3, h4, h5, h6⟩ := hPG.contain a ha2
          refine ⟨h1, h2, h3, ?_, ?_, ?_⟩
          · show a.outImage.toNat < st.gBestOutImages.toList.length
            rw [Array.length_toList]
            exact h4
          · show a.outX + a.width ≤
              (st.gBestOutImages.toList.getD a.outImage.toNat dImg).width
            rw [toList_getD]
            exact h5
          · show a.outY + a.height ≤
              (st.gBestOutImages.toList.getD a.outImage.toNat dImg).height
            rw [toList_getD]
            exact h6
        · show (sortAreasOut st.gBestFittedAreas.toList).Pairwise _
          refine ((sortBy_perm outOrder st.gBestFittedAreas.toList).pairwise_iff
            ?_).mpr hPG.ndisj
          intro a b hab himg
          exact (hab himg.symm).symm
      · rename_i hne
        injection h with h
        subst h
        exact absurd hs (by simp)

/-- The concrete result of the run backing the C1 witness. -/
def wR1 : FitResult :=
  ⟨true, [⟨0, 1, 1, 0, 0, 0⟩, ⟨0, 1, 1, 0, 0, 1⟩], [⟨1, 2, 2⟩],
    divQual 200 2⟩

/-- C1 instantiated on a concrete successful two-area run. -/
theorem claim_C1_witness :
    (∀ a ∈ ([⟨0, 1, 1, 0, 0, 0⟩, ⟨0, 1, 1, 0, 0, 0⟩] : List CFitArea),
      0 ≤ a.width ∧ 0 ≤ a.height) ∧ (1 : Int) ≤ 1 ∧
    fitAreas [⟨0, 1, 1, 0, 0, 0⟩, ⟨0, 1, 1, 0, 0, 0⟩] [] 10 10 100 1 5 30 =
      some wR1 ∧ wR1.success = true ∧
    ((∀ a ∈ wR1.areas,
      0 ≤ a.outX ∧ 0 ≤ a.outY ∧ 0 ≤ a.outImage ∧
      a.outImage.toNat < wR1.outImages.length ∧
      a.outX + a.width ≤ (wR1.outImages.getD a.outImage.toNat dImg).width ∧
      a.outY + a.height ≤ (wR1.outImages.getD a.outImage.toNat dImg).height) ∧
    wR1.areas.Pairwise (fun a b => a.outImage = b.outImage →
      Disjoint (aPts a) (aPts b))) :=
  ⟨by decide, by decide, by rfl, by rfl,
    claim_C1 [⟨0, 1, 1, 0, 0, 0⟩, ⟨0, 1, 1, 0, 0, 0⟩] [] 10 10 100 1 5 30
      wR1 (by decide) (by decide) (by rfl) (by rfl)⟩

/-- The concrete result of the zero-area run refuting the C7 range. -/
def wR7 : FitResult :=
  ⟨true, [⟨0, 0, 0, 0, 0, 0⟩, ⟨0, 0, 0, 0, 0, 0⟩], [⟨0, 0, 0⟩],
    divQual 0 0⟩

/-- C7 counterexample: a successful two-area call whose areas all have zero
size publishes `BestOutSize = 0`, so line 1212 computes `100.0 * 0 / 0` —
IEEE `NaN`; the stored quality is not a rational number at all, in
particular not a value in `(0, 100]`. -/
theorem claim_C7_counterexample :
    2 ≤ ([⟨0, 0, 0, 0, 0, 0⟩, ⟨0, 0, 0, 0, 0, 0⟩] : List CFitArea).length ∧
    fitAreas [⟨0, 0, 0, 0, 0, 0⟩, ⟨0, 0, 0, 0, 0, 0⟩] [] 10 10 100 1 5 30 =
      some wR7 ∧
    wR7.success = true ∧
    wR7.quality = FQual.nan ∧
    ¬ ∃ q : ℚ, wR7.quality = FQual.val q ∧ 0 < q ∧ q ≤ 100 :=
  ⟨by decide, by rfl, rfl, rfl, by
    rintro ⟨q, hq, _⟩
    exact absurd hq (by simp [wR7, divQual])⟩

/-- C7 (amended): on every successful call with at least two
(spec-conformant) input areas, the stored quality is the IEEE-754 image of
`100 * Σ(w*h over inputs) / Σ(w*h over returned images)`: the exact
rational whenever the summed output size is nonzero, and `NaN` at the
reachable all-zero boundary (`0 / 0`); whenever the summed input area is
positive the value is that rational and lies in `(0, 100]`. -/
theorem claim_C7_amended (areasIn : List CFitArea)
    (outImagesIn : List COutImage)
    (maxW maxH maxSize0 minCount fitCallsLimit : Int) (fuel : Nat)
    (r : FitResult)
    (hnn : ∀ a ∈ areasIn, 0 ≤ a.width ∧ 0 ≤ a.height)
    (hmc : 1 ≤ minCount)
    (hlen : 2 ≤ areasIn.length)
    (h : fitAreas areasIn outImagesIn maxW maxH maxSize0 minCount
      fitCallsLimit fuel = some r)
    (hs : r.success = true) :
    r.quality = divQual (100 * sumAreas areasIn) (sumSizes r.outImages) ∧
    (0 < sumAreas areasIn →
      r.quality = FQual.val (100 * ((sumAreas areasIn : Int) : ℚ) /
        ((sumSizes r.outImages : Int) : ℚ)) ∧
      0 < 100 * ((sumAreas areasIn : Int) : ℚ) /
        ((sumSizes r.outImages : Int) : ℚ) ∧
      100 * ((sumAreas areasIn : Int) : ℚ) /
        ((sumSizes r.outImages : Int) : ℚ) ≤ 100) := by
  have hsum : sumAreas (sortAreasIn areasIn) = sumAreas areasIn :=
    List.Perm.sum_eq (List.Perm.map _ (sortBy_perm inOrder areasIn))
  unfold fitAreas at h
  split at h
  · rename_i hlt2
    omega
  · rename_i hlenF
    simp only [] at h
    split at h
    · exact absurd h (by simp)
    · rename_i st hfu
      split at h
      · rename_i hne
        injection h with h
        subst h
        have hG0 := GInv_init (sortAreasIn areasIn) minCount fitCallsLimit
          maxW maxH (by omega)
        have hgeom := search_geom
          ⟨maxW, maxH, raiseMaxSize (sortAreasIn areasIn) maxSize0⟩
          (sortAreasIn areasIn).toArray (sorted_nn areasIn hnn) fuel
        unfold fitUnfittedAreas at hfu
        have hPub : PubInv (sortAreasIn areasIn).toArray st := by
          split at hfu
          · exact absurd hfu (by simp)
          · rename_i st2 hsr
            injection hfu with hfu
            subst hfu
            exact (hgeom (.outer 0) _ _ hsr hG0 trivial).1
          · rename_i st2 hsr
            have hP2 : PubInv (sortAreasIn areasIn).toArray st2 :=
              (hgeom (.outer 0) _ _ hsr hG0 trivial).1
            split at hfu <;>
              (injection hfu with hfu
               subst hfu
               exact hP2)
        have hPG : PubGood (sortAreasIn areasIn).toArray st.gBestOutSize
            st.gBestFittedAreas st.gBestOutImages := by
          rcases hPub with h1 | h2
          · exact absurd h1 hne
          · exact h2
        have hbs : st.gBestOutSize = sumSizes st.gBestOutImages.toList :=
          hPG.bsum
        have hain : sumAreas (sortAreasIn areasIn).toArray.toList =
            sumAreas areasIn := by
          rw [Array.toList_toArray]
          exact hsum
        have hle : sumAreas areasIn ≤ st.gBestOutSize := by
          have h1 := hPG.arle
          have h2 := hPG.asum
          omega
        constructor
        · show divQual (100 * sumAreas (sortAreasIn areasIn))
            st.gBestOutSize = _
          rw [hsum, hbs]
        · intro hpos
          have hbpos : 0 < sumSizes st.gBestOutImages.toList := by omega
          have hbposQ : (0 : ℚ) <
              ((sumSizes st.gBestOutImages.toList : Int) : ℚ) := by
            exact_mod_cast hbpos
          have haposQ : (0 : ℚ) < ((sumAreas areasIn : Int) : ℚ) := by
            exact_mod_cast hpos
          have hleQ : ((sumAreas areasIn : Int) : ℚ) ≤
              ((sumSizes st.gBestOutImages.toList : Int) : ℚ) := by
            exact_mod_cast (by omega : sumAreas areasIn ≤
              sumSizes st.gBestOutImages.toList)
          refine ⟨?_, ?_, ?_⟩
          · show divQual (100 * sumAreas (sortAreasIn areasIn))
              st.gBestOutSize = _
            rw [hsum, hbs]
            unfold divQual
            rw [if_neg (by omega)]
            push_cast
            ring_nf
          · exact div_pos (by positivity) hbposQ
          · rw [div_le_iff hbposQ]
            nlinarith
      · rename_i hne
        injection h with h
        subst h
        exact absurd hs (by simp)

/-- The concrete result of the run backing the C7 witness. -/
def wQ7 : FitResult :=
  ⟨true, [⟨0, 1, 1, 0, 0, 0⟩, ⟨0, 1, 1, 0, 0, 1⟩], [⟨1, 2, 2⟩],
    divQual 200 2⟩

/-- The amended C7 instantiated on a concrete successful two-area run. -/
theorem claim_C7_witness :
    (∀ a ∈ ([⟨0, 1, 1, 0, 0, 0⟩, ⟨0, 1, 1, 0, 0, 0⟩] : List CFitArea),
      0 ≤ a.width ∧ 0 ≤ a.height) ∧ (1 : Int) ≤ 1 ∧
    2 ≤ ([⟨0, 1, 1, 0, 0, 0⟩, ⟨0, 1, 1, 0, 0, 0⟩] : List CFitArea).length ∧
    fitAreas [⟨0, 1, 1, 0, 0, 0⟩, ⟨0, 1, 1, 0, 0, 0⟩] [] 10 10 100 1 5 30 =
      some wQ7 ∧ wQ7.success = true ∧
    (wQ7.quality = divQual
      (100 * sumAreas [⟨0, 1, 1, 0, 0, 0⟩, ⟨0, 1, 1, 0, 0, 0⟩])
      (sumSizes wQ7.outImages) ∧
    (0 < sumAreas [⟨0, 1, 1, 0, 0, 0⟩, ⟨0, 1, 1, 0, 0, 0⟩] →
      wQ7.quality = FQual.val (100 *
        ((sumAreas [⟨0, 1, 1, 0, 0, 0⟩, ⟨0, 1, 1, 0, 0, 0⟩] : Int) : ℚ) /
        ((sumSizes wQ7.outImages : Int) : ℚ)) ∧
      0 < 100 *
        ((sumAreas [⟨0, 1, 1, 0, 0, 0⟩, ⟨0, 1, 1, 0, 0, 0⟩] : Int) : ℚ) /
        ((sumSizes wQ7.outImages : Int) : ℚ) ∧
      100 * ((sumAreas [⟨0, 1, 1, 0, 0, 0⟩, ⟨0, 1, 1, 0, 0, 0⟩] : Int) : ℚ) /
        ((sumSizes wQ7.outImages : Int) : ℚ) ≤ 100)) :=
  ⟨by decide, by decide, by decide, by rfl, rfl,
    claim_C7_amended [⟨0, 1, 1, 0, 0, 0⟩, ⟨0, 1, 1, 0, 0, 0⟩] [] 10 10 100 1 5
      30 wQ7 (by decide) (by decide) (by decide) (by rfl) (by rfl)⟩

/-! ### C9: scale invariance -/

/-- An input/output area record scaled by `k`: dimensions and placement
offsets multiply, the image index and the opaque handle do not. -/
def scaleArea (k : Int) (a : CFitArea) : CFitArea :=
  ⟨a.object, k * a.width, k * a.height, a.outImage, k * a.outX, k * a.outY⟩

/-- An output image scaled by `k`: dimensions multiply by `k`, the pixel
count by `k * k`. -/
def scaleImg (k : Int) (im : COutImage) : COutImage :=
  ⟨k * im.width, k * im.height, k * k * im.size⟩

/-- The unscaled result of the small tight-`max_size` run refuting C9. -/
def wU9 : FitResult :=
  ⟨true, [⟨0, 2, 1, 0, 0, 0⟩, ⟨0, 1, 1, 0, 2, 0⟩], [⟨3, 1, 3⟩],
    divQual 300 3⟩

/-- The result of the same run with every width, height and the three
limits multiplied by `k = 2`. -/
def wS9 : FitResult :=
  ⟨true, [⟨0, 4, 2, 0, 0, 0⟩, ⟨0, 2, 2, 1, 0, 0⟩],
    [⟨4, 2, 8⟩, ⟨2, 2, 4⟩], divQual 1200 12⟩

/-- C9 counterexample: areas 2×1 and 1×1 with limits (10, 10, 3) fit into
one 3×1 image, but the `k = 2` scaled call — areas 4×2 and 2×2 with limits
(20, 20, 6) — splits them over two images: the area comparison against
`max_size` scales quadratically while the claim scales `max_size` only
linearly, so the scaled run rejects the single-image packing and the
placements are not the unscaled placements scaled by `k`. -/
theorem claim_C9_counterexample :
    fitAreas [⟨0, 2, 1, 0, 0, 0⟩, ⟨0, 1, 1, 0, 0, 0⟩] [] 10 10 3 1 50 200 =
      some wU9 ∧
    fitAreas [scaleArea 2 ⟨0, 2, 1, 0, 0, 0⟩, scaleArea 2 ⟨0, 1, 1, 0, 0, 0⟩]
        [] (2 * 10) (2 * 10) (2 * 3) 1 50 200 = some wS9 ∧
    wU9.success = true ∧ wS9.success = true ∧
    wS9.areas ≠ wU9.areas.map (scaleArea 2) :=
  ⟨by rfl, by rfl, rfl, rfl, by decide⟩

end AreaFit
